import Mathlib

/-!
# HardenedBSD: PaX hardening flags and the FS-EA control parser

A shallow embedding of

* `sys/hardenedbsd/hbsd_pax_hardening.c`
  (`pax_hardening_setup_flags`, `pax_disallow_map32bit_active`), and
* `sys/hardenedbsd/hbsd_hbsdcontrol.c`
  (`pax_features`, `pax_hbsdcontrol_active`, `pax_hbsdcontrol_parse_fsea_flags`),

followed by theorems about them.

Conventions.  `uint32_t` values are natural numbers reduced modulo `2 ^ 32`
where the C code can truncate; `int` error codes are integers; bytes
(`unsigned char`) are elements of `Fin 256`.  The numeric values of the macros
that live in headers outside the translated sources (`PAX_NOTE_*`,
`MAP_32BIT`, the error numbers, `IOSIZE_MAX`) are parameters, collected in
`PaxHeader`.
-/

namespace HardenedBSD

/-! ## Header constants -/

/-- The macros used by the two translation units whose values come from headers
that are not among the translated sources.  Every definition below takes the
header as a parameter, so the theorems hold for every choice of the values
(subject to the hypotheses stated in each theorem). -/
structure PaxHeader where
  PAX_NOTE_ASLR : Nat
  PAX_NOTE_NOASLR : Nat
  PAX_NOTE_SEGVGUARD : Nat
  PAX_NOTE_NOSEGVGUARD : Nat
  PAX_NOTE_PAGEEXEC : Nat
  PAX_NOTE_NOPAGEEXEC : Nat
  PAX_NOTE_MPROTECT : Nat
  PAX_NOTE_NOMPROTECT : Nat
  PAX_NOTE_SHLIBRANDOM : Nat
  PAX_NOTE_NOSHLIBRANDOM : Nat
  PAX_NOTE_DISALLOWMAP32BIT : Nat
  PAX_NOTE_NODISALLOWMAP32BIT : Nat
  MAP_32BIT : Nat
  ENOATTR : Int
  EOPNOTSUPP : Int
  ENOMEM : Int
  EINVAL : Int
  IOSIZE_MAX : Nat

/-- A flag macro is a single bit of a 32-bit word. -/
def IsFlagBit (x : Nat) : Prop := ∃ k, k < 32 ∧ x = 2 ^ k

instance (x : Nat) : Decidable (IsFlagBit x) :=
  inferInstanceAs (Decidable (∃ k, k < 32 ∧ x = 2 ^ k))

/-- One concrete header, used for the instances of the theorems: the flag
bits as `sys/pax.h` numbers them, `MAP_32BIT` and the error numbers of FreeBSD
on amd64, and `IOSIZE_MAX` clamped to `INT_MAX`. -/
def hbsdHeader : PaxHeader where
  PAX_NOTE_PAGEEXEC := 0x00000001
  PAX_NOTE_NOPAGEEXEC := 0x00000002
  PAX_NOTE_MPROTECT := 0x00000004
  PAX_NOTE_NOMPROTECT := 0x00000008
  PAX_NOTE_SEGVGUARD := 0x00000010
  PAX_NOTE_NOSEGVGUARD := 0x00000020
  PAX_NOTE_ASLR := 0x00000040
  PAX_NOTE_NOASLR := 0x00000080
  PAX_NOTE_SHLIBRANDOM := 0x00000100
  PAX_NOTE_NOSHLIBRANDOM := 0x00000200
  PAX_NOTE_DISALLOWMAP32BIT := 0x00000400
  PAX_NOTE_NODISALLOWMAP32BIT := 0x00000800
  MAP_32BIT := 0x00080000
  ENOATTR := 87
  EOPNOTSUPP := 45
  ENOMEM := 12
  EINVAL := 22
  IOSIZE_MAX := 0x7fffffff

/-- The same header with `IOSIZE_MAX` not clamped to `INT_MAX`: the largest
`ssize_t` of a 64-bit kernel. -/
def hbsdHeader64 : PaxHeader := { hbsdHeader with IOSIZE_MAX := 2 ^ 63 - 1 }

/-- `PAX_FEATURE_DISABLED`: "0 - disabled" in the sysctl description of
`hardening.pax.disallow_map32bit.status`. -/
def PAX_FEATURE_DISABLED : Nat := 0
/-- `PAX_FEATURE_OPTIN`: "1 - opt-in". -/
def PAX_FEATURE_OPTIN : Nat := 1
/-- `PAX_FEATURE_OPTOUT`: "2 - opt-out". -/
def PAX_FEATURE_OPTOUT : Nat := 2
/-- `PAX_FEATURE_FORCE_ENABLED`: "3 - force enabled". -/
def PAX_FEATURE_FORCE_ENABLED : Nat := 3

/-- `PAX_FEATURE_SIMPLE_DISABLED`: "0 - disabled" in the sysctl description of
`hardening.pax.hbsdcontrol.status`. -/
def PAX_FEATURE_SIMPLE_DISABLED : Int := 0
/-- `PAX_FEATURE_SIMPLE_ENABLED`: "1 - enabled". -/
def PAX_FEATURE_SIMPLE_ENABLED : Int := 1

/-! ## 32-bit words -/

/-- Truncation of a value to `uint32_t`. -/
def u32 (x : Nat) : Nat := x % 2 ^ 32

/-- The C operator `~` on a `uint32_t` operand. -/
def not32 (x : Nat) : Nat := (2 ^ 32 - 1) ^^^ u32 x

/-! ## `hbsd_pax_hardening.c` -/

/-- `pax_hardening_setup_flags(imgp, mode)`.  `status` is the value read from
`pr->pr_hardening.hr_pax_disallow_map32bit_status` of the prison of
`imgp->proc`, converted to `uint32_t`; `mode` is the request mask. -/
def pax_hardening_setup_flags (h : PaxHeader) (status mode : Nat) : Nat :=
  let flags : Nat := 0
  if status = PAX_FEATURE_DISABLED then
    let flags := flags &&& not32 h.PAX_NOTE_DISALLOWMAP32BIT
    let flags := u32 (flags ||| h.PAX_NOTE_NODISALLOWMAP32BIT)
    flags
  else if status = PAX_FEATURE_FORCE_ENABLED then
    let flags := flags &&& not32 h.PAX_NOTE_NODISALLOWMAP32BIT
    let flags := u32 (flags ||| h.PAX_NOTE_DISALLOWMAP32BIT)
    flags
  else if status = PAX_FEATURE_OPTIN then
    if mode &&& h.PAX_NOTE_DISALLOWMAP32BIT ≠ 0 then
      let flags := u32 (flags ||| h.PAX_NOTE_DISALLOWMAP32BIT)
      let flags := flags &&& not32 h.PAX_NOTE_NODISALLOWMAP32BIT
      flags
    else
      let flags := flags &&& not32 h.PAX_NOTE_DISALLOWMAP32BIT
      let flags := u32 (flags ||| h.PAX_NOTE_NODISALLOWMAP32BIT)
      flags
  else if status = PAX_FEATURE_OPTOUT then
    if mode &&& h.PAX_NOTE_NODISALLOWMAP32BIT ≠ 0 then
      let flags := u32 (flags ||| h.PAX_NOTE_NODISALLOWMAP32BIT)
      let flags := flags &&& not32 h.PAX_NOTE_DISALLOWMAP32BIT
      flags
    else
      let flags := flags &&& not32 h.PAX_NOTE_NODISALLOWMAP32BIT
      let flags := u32 (flags ||| h.PAX_NOTE_DISALLOWMAP32BIT)
      flags
  else
    -- Unknown status, force MAP32 restriction.
    let flags := u32 (flags ||| h.PAX_NOTE_DISALLOWMAP32BIT)
    let flags := flags &&& not32 h.PAX_NOTE_NODISALLOWMAP32BIT
    flags

/-- `pax_disallow_map32bit_active(td, mmap_flags)`.  `p_pax` is the flag word
that `pax_get_flags(td->td_proc, &flags)` stores into `flags`; the C result
`true`/`false` is a `Bool`. -/
def pax_disallow_map32bit_active (h : PaxHeader) (p_pax mmap_flags : Nat) : Bool :=
  if mmap_flags &&& h.MAP_32BIT ≠ h.MAP_32BIT then
    -- Fast path, the mmap request does not contain the MAP_32BIT flag.
    false
  else
    let flags := p_pax
    if flags &&& h.PAX_NOTE_DISALLOWMAP32BIT = h.PAX_NOTE_DISALLOWMAP32BIT then
      true
    else if flags &&& h.PAX_NOTE_NODISALLOWMAP32BIT = h.PAX_NOTE_NODISALLOWMAP32BIT then
      false
    else
      true

/-! ## `hbsd_hbsdcontrol.c` -/

/-- An `unsigned char`. -/
abbrev Byte := Fin 256

/-- The bytes of a C string literal, without the terminating zero. -/
def cstr (s : String) : List Byte := s.toList.map fun ch => Fin.ofNat ch.toNat

/-- `struct pax_feature_entry`. -/
structure pax_feature_entry where
  fs_ea_attribute : List Byte
  feature_bit : Nat
  deriving DecidableEq

/-- The table `pax_features[]`, without its terminating `{NULL, 0}` row (the
row that ends every loop over the table). -/
def pax_features (h : PaxHeader) : List pax_feature_entry :=
  [ ⟨cstr "hbsd.pax.aslr", h.PAX_NOTE_ASLR⟩,
    ⟨cstr "hbsd.pax.noaslr", h.PAX_NOTE_NOASLR⟩,
    ⟨cstr "hbsd.pax.segvguard", h.PAX_NOTE_SEGVGUARD⟩,
    ⟨cstr "hbsd.pax.nosegvguard", h.PAX_NOTE_NOSEGVGUARD⟩,
    ⟨cstr "hbsd.pax.pageexec", h.PAX_NOTE_PAGEEXEC⟩,
    ⟨cstr "hbsd.pax.nopageexec", h.PAX_NOTE_NOPAGEEXEC⟩,
    ⟨cstr "hbsd.pax.mprotect", h.PAX_NOTE_MPROTECT⟩,
    ⟨cstr "hbsd.pax.nomprotect", h.PAX_NOTE_NOMPROTECT⟩,
    ⟨cstr "hbsd.pax.shlibrandom", h.PAX_NOTE_SHLIBRANDOM⟩,
    ⟨cstr "hbsd.pax.noshlibrandom", h.PAX_NOTE_NOSHLIBRANDOM⟩,
    ⟨cstr "hbsd.pax.disallow_map32bit", h.PAX_NOTE_DISALLOWMAP32BIT⟩,
    ⟨cstr "hbsd.pax.nodisallow_map32bit", h.PAX_NOTE_NODISALLOWMAP32BIT⟩ ]

/-- `pax_hbsdcontrol_active()`, as a function of the tunable
`pax_hbsdcontrol_status`. -/
def pax_hbsdcontrol_active (pax_hbsdcontrol_status : Int) : Bool :=
  if Int.land pax_hbsdcontrol_status PAX_FEATURE_SIMPLE_ENABLED
      = PAX_FEATURE_SIMPLE_ENABLED then
    true
  else if Int.land pax_hbsdcontrol_status PAX_FEATURE_SIMPLE_DISABLED
      = PAX_FEATURE_SIMPLE_DISABLED then
    false
  else
    true

/-- What the attribute store answers for the vnode `imgp->vp` during one call
of the parser. -/
structure Vnode where
  /-- Return value of the first `VOP_LISTEXTATTR` (the size query). -/
  size_error : Int
  /-- Value of `fsea_list_size` after the size query. -/
  fsea_list_size : Nat
  /-- Return value of the second `VOP_LISTEXTATTR` (the list read). -/
  list_error : Int
  /-- The bytes the list read copies out. -/
  list_data : List Byte
  /-- `VOP_GETEXTATTR` for an attribute name: its return value, and the value
  of `feature_status` after the call (`feature_status` is zeroed before it). -/
  getextattr : List Byte → Int × Byte

/-- Content of the buffer `fsea_list` after a successful list read: the buffer
has `fsea_list_size` bytes, is allocated zeroed (`M_ZERO`), and the read fills
at most `uio_resid = fsea_list_size` bytes of it. -/
def fsea_buffer (fsea_list_size : Nat) (list_data : List Byte) : List Byte :=
  (list_data ++ List.replicate fsea_list_size 0).take fsea_list_size

/-- Outcome of the registry scan for one list entry. -/
inductive Scan where
  /-- The scan reached the `NULL` row without a match. -/
  | nomatch
  /-- Row `j` matched (`feature_present[j] = true; break`). -/
  | found (j : Nat)
  /-- `memcmp` was asked to read bytes at or beyond `fsea_list_size`. -/
  | outOfBounds
  deriving DecidableEq, Repr

/-- The inner loop over the rows `j, j+1, ...` of the table for the entry whose
name starts at cursor `i` and whose length byte was `entry_size`. -/
def scan_features (fsea_list : List Byte) (i entry_size : Nat) :
    List pax_feature_entry → Nat → Scan
  | [], _ => Scan.nomatch
  | e :: rest, j =>
    let fsea_attrname_len := e.fs_ea_attribute.length
    if fsea_attrname_len ≠ entry_size then
      scan_features fsea_list i entry_size rest (j + 1)
    else if fsea_list.length < i + fsea_attrname_len then
      Scan.outOfBounds
    else if (fsea_list.drop i).take fsea_attrname_len = e.fs_ea_attribute then
      Scan.found j
    else
      scan_features fsea_list i entry_size rest (j + 1)

/-- Outcome of the walk over the attribute name list. -/
inductive Walk where
  /-- The loop ended with this `feature_present` array. -/
  | done (feature_present : List Bool)
  /-- A name comparison read outside the buffer. -/
  | outOfBounds
  /-- The iteration budget of the embedding ran out (never happens with the
  budget used by the parser, see `walk_list_fuel`). -/
  | outOfFuel
  /-- An increment of the cursor `int i` would exceed `INT_MAX`: signed
  overflow, for which C defines no behaviour. -/
  | cursorOverflow
  deriving DecidableEq, Repr

/-- The largest value of the type `int` of the cursor `i` (32 bits). -/
def INT_MAX : Nat := 2 ^ 31 - 1

/-- The loop `for (i = 0; i < fsea_list_size; )` that builds the filter
`feature_present`, started at cursor `i`; the buffer `fsea_list` has
`fsea_list_size` bytes.  Every iteration advances the cursor by at least one,
so `fsea_list.length - i + 1` iterations are enough.  The cursor is the
`int i` of the C code: it never exceeds `INT_MAX`, and the two statements that
add to it (`i++` and `i += entry_size`) end the walk with `cursorOverflow`
when the sum would. -/
def walk_list (features : List pax_feature_entry) (fsea_list : List Byte) :
    Nat → Nat → List Bool → Walk
  | 0, _, _ => Walk.outOfFuel
  | fuel + 1, i, feature_present =>
    if i < fsea_list.length then
      let entry_size := (fsea_list.getD i 0).val
      if INT_MAX < i + 1 then
        Walk.cursorOverflow
      else
        let i := i + 1
        match scan_features fsea_list i entry_size features 0 with
        | Scan.outOfBounds => Walk.outOfBounds
        | Scan.nomatch =>
          if INT_MAX < i + entry_size then Walk.cursorOverflow
          else walk_list features fsea_list fuel (i + entry_size) feature_present
        | Scan.found j =>
          if INT_MAX < i + entry_size then Walk.cursorOverflow
          else walk_list features fsea_list fuel (i + entry_size) (feature_present.set j true)
    else
      Walk.done feature_present

/-- The filter computed from a whole buffer: all rows start absent. -/
def present_features (features : List pax_feature_entry) (fsea_list : List Byte) : Walk :=
  walk_list features fsea_list (fsea_list.length + 1) 0
    (List.replicate features.length false)

/-- The byte `'0'`. -/
def char0 : Byte := Fin.ofNat '0'.toNat
/-- The byte `'1'`. -/
def char1 : Byte := Fin.ofNat '1'.toNat

/-- State at the label `out`. -/
structure FetchState where
  parsed_flags : Nat
  error : Int
  /-- Names passed to `VOP_GETEXTATTR`, in call order. -/
  fetched : List (List Byte)

/-- The loop over the table that fetches the value of every present feature
(rows `i, i+1, ...`), ending at the label `out`.  `error` is the variable
`error` of the C function: it is only written by the calls of
`VOP_GETEXTATTR`. -/
def fetch_features (h : PaxHeader) (getextattr : List Byte → Int × Byte)
    (feature_present : List Bool) :
    List pax_feature_entry → Nat → FetchState → FetchState
  | [], _, s => s
  | e :: rest, i, s =>
    if feature_present.getD i false = false then
      fetch_features h getextattr feature_present rest (i + 1) s
    else
      let error := (getextattr e.fs_ea_attribute).1
      let feature_status := (getextattr e.fs_ea_attribute).2
      let fetched := s.fetched ++ [e.fs_ea_attribute]
      if error = 0 then
        if feature_status = char0 then
          fetch_features h getextattr feature_present rest (i + 1)
            ⟨s.parsed_flags &&& not32 e.feature_bit, error, fetched⟩
        else if feature_status = char1 then
          fetch_features h getextattr feature_present rest (i + 1)
            ⟨u32 (s.parsed_flags ||| e.feature_bit), error, fetched⟩
        else
          -- printf("%s: unknown state: ...")
          fetch_features h getextattr feature_present rest (i + 1)
            ⟨s.parsed_flags, error, fetched⟩
      else if error = h.ENOATTR then
        -- Ignore non-existing attribute error.
        fetch_features h getextattr feature_present rest (i + 1)
          ⟨s.parsed_flags, error, fetched⟩
      else
        -- goto out
        ⟨s.parsed_flags, error, fetched⟩

/-- What one call of the parser leaves behind. -/
structure ParseResult where
  /-- The return value. -/
  error : Int
  /-- The value stored in `imgp->pax.req_extattr_flags`. -/
  req_extattr_flags : Nat
  /-- Names passed to `VOP_GETEXTATTR`, in call order. -/
  fetched : List (List Byte)
  deriving DecidableEq

/-- Outcome of one call of the parser. -/
inductive ParseOutcome where
  /-- The function returned. -/
  | returned (r : ParseResult)
  /-- A name comparison read outside the buffer `fsea_list`. -/
  | outOfBounds
  /-- The iteration budget of the embedding ran out. -/
  | outOfFuel
  /-- The cursor `int i` of the list walk overflowed. -/
  | cursorOverflow
  deriving DecidableEq

/-- The code at the label `out`: in case of error, reset to the system
defaults. -/
def parse_out (s : FetchState) : ParseResult :=
  let parsed_flags := if s.error ≠ 0 then 0 else s.parsed_flags
  ⟨s.error, parsed_flags, s.fetched⟩

/-- `pax_hbsdcontrol_parse_fsea_flags(td, imgp)`.  `parsed_flags` is a
`pax_flag_t`, taken to be 32 bits wide like the `uint32_t` flag words of
`hbsd_pax_hardening.c`. -/
def pax_hbsdcontrol_parse_fsea_flags (h : PaxHeader) (pax_hbsdcontrol_status : Int)
    (vp : Vnode) : ParseOutcome :=
  if pax_hbsdcontrol_active pax_hbsdcontrol_status = false then
    ParseOutcome.returned ⟨0, 0, []⟩
  else
    let parsed_flags : Nat := 0
    -- Query the size of extended attribute names list.
    let error := vp.size_error
    let fsea_list_size := vp.fsea_list_size
    if error ≠ 0 ∨ fsea_list_size = 0 then
      -- Use system defaults.
      if error = h.EOPNOTSUPP then
        ParseOutcome.returned ⟨0, 0, []⟩
      else
        ParseOutcome.returned ⟨error, 0, []⟩
    else if fsea_list_size > h.IOSIZE_MAX then
      ParseOutcome.returned (parse_out ⟨parsed_flags, h.ENOMEM, []⟩)
    else
      -- Query the FS-EA list.
      let error := vp.list_error
      if error ≠ 0 then
        ParseOutcome.returned (parse_out ⟨parsed_flags, error, []⟩)
      else
        let fsea_list := fsea_buffer fsea_list_size vp.list_data
        match present_features (pax_features h) fsea_list with
        | Walk.outOfBounds => ParseOutcome.outOfBounds
        | Walk.outOfFuel => ParseOutcome.outOfFuel
        | Walk.cursorOverflow => ParseOutcome.cursorOverflow
        | Walk.done feature_present =>
          ParseOutcome.returned
            (parse_out (fetch_features h vp.getextattr feature_present (pax_features h) 0
              ⟨parsed_flags, error, []⟩))

/-! ## Well-formed lists -/

/-- The list `VOP_LISTEXTATTR(9)` produces for the attribute names `names`:
each name preceded by one byte holding its length. -/
def encode_names : List (List Byte) → List Byte
  | [] => []
  | n :: rest => Fin.ofNat n.length :: (n ++ encode_names rest)

/-- A vnode whose attribute list holds exactly `names` and whose attribute
values are answered by `getextattr`; both list queries succeed. -/
def vnode_of (names : List (List Byte)) (getextattr : List Byte → Int × Byte) : Vnode :=
  ⟨0, (encode_names names).length, 0, encode_names names, getextattr⟩

/-! ## Specification vocabulary for the parser -/

/-- Index of the first row, counted from `j`, whose name is exactly `n`. -/
def find_feature (n : List Byte) : List pax_feature_entry → Nat → Option Nat
  | [], _ => none
  | e :: rest, j => if e.fs_ea_attribute = n then some j else find_feature n rest (j + 1)

/-- The filter after the names `names` have been looked up one after the
other, starting from the filter `feature_present`. -/
def mark_names (features : List pax_feature_entry) :
    List (List Byte) → List Bool → List Bool
  | [], feature_present => feature_present
  | n :: rest, feature_present =>
    match find_feature n features 0 with
    | some j => mark_names features rest (feature_present.set j true)
    | none => mark_names features rest feature_present

/-- The rows `i, i+1, ...` of the table that the filter marks present. -/
def present_rows (feature_present : List Bool) :
    List pax_feature_entry → Nat → List pax_feature_entry
  | [], _ => []
  | e :: rest, i =>
    if feature_present.getD i false = false then present_rows feature_present rest (i + 1)
    else e :: present_rows feature_present rest (i + 1)

/-- The parser gets as far as its value fetch loop, with the filter
`feature_present`: the subsystem is active, the size query succeeds with a
non-zero size within `IOSIZE_MAX`, the list read succeeds, and the walk over the
list ends without reading outside the buffer. -/
def reaches_fetch (h : PaxHeader) (pax_hbsdcontrol_status : Int) (vp : Vnode)
    (feature_present : List Bool) : Prop :=
  pax_hbsdcontrol_active pax_hbsdcontrol_status = true
  ∧ vp.size_error = 0 ∧ vp.fsea_list_size ≠ 0 ∧ vp.fsea_list_size ≤ h.IOSIZE_MAX
  ∧ vp.list_error = 0
  ∧ present_features (pax_features h) (fsea_buffer vp.fsea_list_size vp.list_data)
      = Walk.done feature_present

instance (h : PaxHeader) (pax_hbsdcontrol_status : Int) (vp : Vnode)
    (feature_present : List Bool) :
    Decidable (reaches_fetch h pax_hbsdcontrol_status vp feature_present) :=
  inferInstanceAs (Decidable (_ ∧ _ ∧ _ ∧ _ ∧ _ ∧ _))

/-- An attribute store given by a table of answers: `VOP_GETEXTATTR` returns
the listed pair for a listed name, and `other` for every other name. -/
def answers (table : List (List Byte × (Int × Byte))) (other : Int × Byte) :
    List Byte → Int × Byte :=
  fun n => (table.lookup n).getD other

/-- The names of a list of rows. -/
def row_names (rows : List pax_feature_entry) : List (List Byte) :=
  rows.map fun e => e.fs_ea_attribute

/-- An error return of `VOP_GETEXTATTR` other than "attribute not found". -/
def hard_error (h : PaxHeader) (error : Int) : Prop := error ≠ 0 ∧ error ≠ h.ENOATTR

instance (h : PaxHeader) (error : Int) : Decidable (hard_error h error) :=
  inferInstanceAs (Decidable (error ≠ 0 ∧ error ≠ h.ENOATTR))

/-- The flag macros of the table are pairwise distinct single bits. -/
def distinct_flag_bits (h : PaxHeader) : Prop :=
  (∀ e ∈ pax_features h, IsFlagBit e.feature_bit)
  ∧ ((pax_features h).map fun e => e.feature_bit).Nodup

instance (h : PaxHeader) : Decidable (distinct_flag_bits h) :=
  inferInstanceAs (Decidable (_ ∧ _))

/-- The attribute names of the table; they do not depend on the header. -/
def registry_names : List (List Byte) :=
  (pax_features hbsdHeader).map fun e => e.fs_ea_attribute

/-- The name `n` is close to the registry name `r` without being equal to it:
a proper prefix of `r`, a proper suffix of `r`, or `r` followed by more
bytes. -/
def near_miss (n r : List Byte) : Prop :=
  (n <+: r ∧ n ≠ r) ∨ (n <:+ r ∧ n ≠ r) ∨ (r <+: n ∧ r ≠ n)

instance (n r : List Byte) : Decidable (near_miss n r) :=
  inferInstanceAs (Decidable (_ ∨ _ ∨ _))

/-- The value fetch loop run over a list of rows that are all present: the
body of `fetch_features` without the test of the filter. -/
def fetch_rows (h : PaxHeader) (getextattr : List Byte → Int × Byte) :
    List pax_feature_entry → FetchState → FetchState
  | [], s => s
  | e :: rest, s =>
    let error := (getextattr e.fs_ea_attribute).1
    let feature_status := (getextattr e.fs_ea_attribute).2
    let fetched := s.fetched ++ [e.fs_ea_attribute]
    if error = 0 then
      if feature_status = char0 then
        fetch_rows h getextattr rest ⟨s.parsed_flags &&& not32 e.feature_bit, error, fetched⟩
      else if feature_status = char1 then
        fetch_rows h getextattr rest ⟨u32 (s.parsed_flags ||| e.feature_bit), error, fetched⟩
      else
        fetch_rows h getextattr rest ⟨s.parsed_flags, error, fetched⟩
    else if error = h.ENOATTR then
      fetch_rows h getextattr rest ⟨s.parsed_flags, error, fetched⟩
    else
      ⟨s.parsed_flags, error, fetched⟩

/-! ## The container policy store of `hbsd_pax_hardening.c` -/

/-- The fields of `pr->pr_hardening` used by `hbsd_pax_hardening.c`. -/
structure hardening where
  hr_pax_disallow_map32bit_status : Int
  hr_pax_procfs_harden : Int
  deriving DecidableEq

/-- The fields of `struct prison` used by `hbsd_pax_hardening.c`.  A prison
pointer is the index of the prison; `pr_parent = none` is the `NULL`
pointer. -/
structure prison where
  pr_parent : Option Nat
  pr_hardening : hardening
  deriving DecidableEq

/-- The address `&prison0`. -/
def prison0 : Nat := 0

/-- The mutable state of `hbsd_pax_hardening.c`: its four static variables and
the prisons. -/
structure Kernel where
  pax_disallow_map32bit_status_global : Int
  pax_procfs_harden_global : Int
  pax_randomize_pids_global : Int
  pax_init_hardening_global : Int
  prisons : Nat → prison

/-- The case labels `PAX_FEATURE_DISABLED`, `PAX_FEATURE_OPTIN`,
`PAX_FEATURE_OPTOUT`, `PAX_FEATURE_FORCE_ENABLED` of the `switch` statements
over an `int`. -/
def status_case (val : Int) : Prop :=
  val = (PAX_FEATURE_DISABLED : Int) ∨ val = (PAX_FEATURE_OPTIN : Int)
  ∨ val = (PAX_FEATURE_OPTOUT : Int) ∨ val = (PAX_FEATURE_FORCE_ENABLED : Int)

instance (val : Int) : Decidable (status_case val) :=
  inferInstanceAs (Decidable (_ ∨ _ ∨ _ ∨ _))

/-- The case labels `PAX_FEATURE_SIMPLE_DISABLED`, `PAX_FEATURE_SIMPLE_ENABLED`
of the `switch` statements over an `int`. -/
def simple_case (val : Int) : Prop :=
  val = PAX_FEATURE_SIMPLE_DISABLED ∨ val = PAX_FEATURE_SIMPLE_ENABLED

instance (val : Int) : Decidable (simple_case val) :=
  inferInstanceAs (Decidable (_ ∨ _))

/-- `pax_hardening_sysinit()`: the four `switch` statements over the static
variables (the `printf` calls have no effect on the state). -/
def pax_hardening_sysinit (k : Kernel) : Kernel :=
  let k := if status_case k.pax_disallow_map32bit_status_global then k
    else { k with pax_disallow_map32bit_status_global := (PAX_FEATURE_FORCE_ENABLED : Int) }
  let k := if simple_case k.pax_procfs_harden_global then k
    else { k with pax_procfs_harden_global := PAX_FEATURE_SIMPLE_ENABLED }
  let k := if simple_case k.pax_randomize_pids_global then k
    else { k with pax_randomize_pids_global := PAX_FEATURE_SIMPLE_ENABLED }
  let k := if simple_case k.pax_init_hardening_global then k
    else { k with pax_init_hardening_global := PAX_FEATURE_SIMPLE_ENABLED }
  k

/-- What `sysctl_handle_int(oidp, &val, sizeof(int), req)` does for one
request. -/
structure sysctl_req where
  /-- Its return value. -/
  error : Int
  /-- The value it stores in `val` when a new value is supplied;
  `none` stands for `req->newptr == NULL`. -/
  newptr : Option Int

/-- `sysctl_pax_disallow_map32bit`, for a request of a thread whose prison
`pax_get_prison_td(req->td)` is `pr`: the return value and the state after
the call. -/
def sysctl_pax_disallow_map32bit (h : PaxHeader) (k : Kernel) (pr : Nat)
    (req : sysctl_req) : Int × Kernel :=
  let val := req.newptr.getD (k.prisons pr).pr_hardening.hr_pax_disallow_map32bit_status
  let err := req.error
  if err ≠ 0 ∨ req.newptr = none then
    (err, k)
  else if status_case val then
    let k := if pr = prison0 then { k with pax_disallow_map32bit_status_global := val } else k
    (0, { k with prisons := (Function.update k.prisons pr
            ⟨(k.prisons pr).pr_parent,
              ⟨val, (k.prisons pr).pr_hardening.hr_pax_procfs_harden⟩⟩) })
  else
    (h.EINVAL, k)

/-- `sysctl_pax_procfs`, for a request of a thread whose prison is `pr`. -/
def sysctl_pax_procfs (h : PaxHeader) (k : Kernel) (pr : Nat) (req : sysctl_req) :
    Int × Kernel :=
  let val := req.newptr.getD (k.prisons pr).pr_hardening.hr_pax_procfs_harden
  let err := req.error
  if err ≠ 0 ∨ req.newptr = none then
    (err, k)
  else if val > 1 ∨ val < -1 then
    (h.EINVAL, k)
  else
    let k := if pr = prison0 then { k with pax_procfs_harden_global := val } else k
    (0, { k with prisons := (Function.update k.prisons pr
            ⟨(k.prisons pr).pr_parent,
              ⟨(k.prisons pr).pr_hardening.hr_pax_disallow_map32bit_status, val⟩⟩) })

/-- `pax_hardening_init_prison(pr)`, compiled with `MAP_32BIT` defined (the
file uses `MAP_32BIT` unconditionally in `pax_disallow_map32bit_active`).  The
result is `none` when the `KASSERT` on `pr->pr_parent` fails. -/
def pax_hardening_init_prison (k : Kernel) (pr : Nat) : Option Kernel :=
  if pr = prison0 then
    -- prison0 has no parent, use globals
    some { k with prisons := (Function.update k.prisons pr
            ⟨(k.prisons pr).pr_parent,
              ⟨k.pax_disallow_map32bit_status_global, k.pax_procfs_harden_global⟩⟩) }
  else
    match (k.prisons pr).pr_parent with
    | none => none
    | some pr_p =>
      some { k with prisons := (Function.update k.prisons pr
              ⟨(k.prisons pr).pr_parent,
                ⟨(k.prisons pr_p).pr_hardening.hr_pax_disallow_map32bit_status,
                 (k.prisons pr_p).pr_hardening.hr_pax_procfs_harden⟩⟩) }

/-- `pax_procfs_harden(td)` for a thread whose prison is `pr`; `EPERM` is the
value of that macro. -/
def pax_procfs_harden (EPERM : Int) (k : Kernel) (pr : Nat) : Int :=
  if (k.prisons pr).pr_hardening.hr_pax_procfs_harden ≠ 0 then EPERM else 0

/-- A state for the instances: the compiled-in defaults of a `PAX_HARDENING`
kernel, `prison0` initialised from them, and prisons `1, 2, ...` each with the
previous prison as parent and not yet initialised. -/
def sample_kernel : Kernel where
  pax_disallow_map32bit_status_global := (PAX_FEATURE_OPTOUT : Int)
  pax_procfs_harden_global := PAX_FEATURE_SIMPLE_ENABLED
  pax_randomize_pids_global := PAX_FEATURE_SIMPLE_ENABLED
  pax_init_hardening_global := PAX_FEATURE_SIMPLE_ENABLED
  prisons := fun pr =>
    if pr = 0 then ⟨none, ⟨(PAX_FEATURE_OPTOUT : Int), PAX_FEATURE_SIMPLE_ENABLED⟩⟩
    else ⟨some (pr - 1), ⟨0, 0⟩⟩

/-! ## Reference definition of the parsed mask -/

/-- The bitwise OR of the feature bits of a list of rows. -/
def or_bits : List pax_feature_entry → Nat
  | [] => 0
  | e :: rest => e.feature_bit ||| or_bits rest

/-- The fetch of the row's attribute succeeds with the value '1'. -/
def fetched_one (getextattr : List Byte → Int × Byte) (e : pax_feature_entry) : Bool :=
  decide ((getextattr e.fs_ea_attribute).1 = 0 ∧ (getextattr e.fs_ea_attribute).2 = char1)

/-- The rows of the table whose name occurs in `names`. -/
def listed_rows (h : PaxHeader) (names : List (List Byte)) : List pax_feature_entry :=
  (pax_features h).filter fun e => decide (e.fs_ea_attribute ∈ names)

/-- The rows of the table whose name occurs in `names` and whose fetch
succeeds with the value '1'. -/
def enabled_rows (h : PaxHeader) (names : List (List Byte))
    (getextattr : List Byte → Int × Byte) : List pax_feature_entry :=
  (listed_rows h names).filter (fetched_one getextattr)

/-! ## Histories of the container policy store -/

/-- The value of the variable `status` of `pax_hardening_setup_flags` for an
image whose process is in prison `pr`: the stored `int` converted to
`uint32_t`. -/
def stored_status (k : Kernel) (pr : Nat) : Nat :=
  ((k.prisons pr).pr_hardening.hr_pax_disallow_map32bit_status % 2 ^ 32).toNat

/-- The policy store together with the prisons that have been initialised so
far (the other prison records hold no policy yet). -/
structure PolicyStore where
  kernel : Kernel
  initialised : List Nat

/-- The operations on the policy store after startup. -/
inductive PolicyOp where
  /-- `pax_hardening_init_prison(pr)`. -/
  | init_prison (pr : Nat)
  /-- `sysctl_pax_disallow_map32bit` for a request of a thread of prison `pr`. -/
  | set_map32bit (pr : Nat) (req : sysctl_req)
  /-- `sysctl_pax_procfs` for a request of a thread of prison `pr`. -/
  | set_procfs (pr : Nat) (req : sysctl_req)

/-- Startup: `pax_hardening_sysinit()` on the configured defaults, then
`pax_hardening_init_prison(&prison0)`. -/
def boot_store (k0 : Kernel) : Option PolicyStore :=
  (pax_hardening_init_prison (pax_hardening_sysinit k0) prison0).map
    fun k => ⟨k, [prison0]⟩

/-- One operation.  The result is `none` when the operation cannot occur in
the state: a prison other than `prison0` is initialised after its parent, and
a thread that issues a request lives in an initialised prison. -/
def policy_step (h : PaxHeader) (s : PolicyStore) : PolicyOp → Option PolicyStore
  | PolicyOp.init_prison pr =>
    if pr = prison0 ∨ ∃ p ∈ s.initialised, (s.kernel.prisons pr).pr_parent = some p then
      (pax_hardening_init_prison s.kernel pr).map fun k => ⟨k, pr :: s.initialised⟩
    else none
  | PolicyOp.set_map32bit pr req =>
    if pr ∈ s.initialised then
      some ⟨(sysctl_pax_disallow_map32bit h s.kernel pr req).2, s.initialised⟩
    else none
  | PolicyOp.set_procfs pr req =>
    if pr ∈ s.initialised then
      some ⟨(sysctl_pax_procfs h s.kernel pr req).2, s.initialised⟩
    else none

/-- A sequence of operations, from left to right. -/
def policy_run (h : PaxHeader) : List PolicyOp → PolicyStore → Option PolicyStore
  | [], s => some s
  | op :: rest, s =>
    match policy_step h s op with
    | none => none
    | some s1 => policy_run h rest s1

/-- The process-wide default and the stored status of every initialised prison
are case labels of the mmap-32-bit `switch`. -/
def store_inv (s : PolicyStore) : Prop :=
  status_case s.kernel.pax_disallow_map32bit_status_global
  ∧ ∀ pr ∈ s.initialised,
      status_case (s.kernel.prisons pr).pr_hardening.hr_pax_disallow_map32bit_status

/-! ## Bit lemmas -/

theorem and_two_pow_cases (m k : Nat) : m &&& 2 ^ k = 0 ∨ m &&& 2 ^ k = 2 ^ k := by
  rw [Nat.and_two_pow]
  cases m.testBit k <;> simp

theorem two_pow_ne_zero32 (k : Nat) : (2 : Nat) ^ k ≠ 0 := by positivity

theorem u32_two_pow {k : Nat} (hk : k < 32) : u32 (2 ^ k) = 2 ^ k := by
  unfold u32
  exact Nat.mod_eq_of_lt (Nat.pow_lt_pow_right (by decide) hk)

theorem testBit_not32_two_pow {k : Nat} (hk : k < 32) (i : Nat) :
    (not32 (2 ^ k)).testBit i = (decide (i < 32) && !decide (k = i)) := by
  unfold not32
  rw [u32_two_pow hk, Nat.testBit_xor, Nat.testBit_two_pow_sub_one, Nat.testBit_two_pow]
  by_cases h1 : k = i
  · subst h1
    simp [hk]
  · simp [h1]

theorem two_pow_and_not32 {a b : Nat} (ha : a < 32) (hb : b < 32) (hab : a ≠ b) :
    2 ^ a &&& not32 (2 ^ b) = 2 ^ a := by
  apply Nat.eq_of_testBit_eq
  intro i
  rw [Nat.testBit_and, testBit_not32_two_pow hb, Nat.testBit_two_pow]
  by_cases h1 : a = i
  · subst h1
    simp [ha, Ne.symm hab]
  · simp [h1]


theorem and_flag_bit_ne_zero_iff {b : Nat} (hb : IsFlagBit b) (m : Nat) :
    m &&& b ≠ 0 ↔ m &&& b = b := by
  obtain ⟨k, _, rfl⟩ := hb
  rcases and_two_pow_cases m k with h0 | h1
  · simp [h0, (two_pow_ne_zero32 k).symm]
  · simp [h1, two_pow_ne_zero32 k]

theorem u32_flag_bit {b : Nat} (hb : IsFlagBit b) : u32 b = b := by
  obtain ⟨k, hk, rfl⟩ := hb
  exact u32_two_pow hk

theorem flag_bit_and_not32 {a b : Nat} (ha : IsFlagBit a) (hb : IsFlagBit b) (hab : a ≠ b) :
    a &&& not32 b = a := by
  obtain ⟨i, hi, rfl⟩ := ha
  obtain ⟨j, hj, rfl⟩ := hb
  exact two_pow_and_not32 hi hj (fun h => hab (by rw [h]))

theorem flag_bit_and_flag_bit {a b : Nat} (ha : IsFlagBit a) (hb : IsFlagBit b) (hab : a ≠ b) :
    a &&& b = 0 := by
  obtain ⟨i, hi, rfl⟩ := ha
  obtain ⟨j, hj, rfl⟩ := hb
  have hij : i ≠ j := fun h => hab (by rw [h])
  rw [Nat.and_two_pow, Nat.testBit_two_pow]
  simp [hij]

/-- The result "unrestricted": exactly `PAX_NOTE_NODISALLOWMAP32BIT`. -/
theorem setup_flags_unrestricted {h : PaxHeader}
    (hN : IsFlagBit h.PAX_NOTE_NODISALLOWMAP32BIT) :
    u32 ((0 &&& not32 h.PAX_NOTE_DISALLOWMAP32BIT) ||| h.PAX_NOTE_NODISALLOWMAP32BIT)
      = h.PAX_NOTE_NODISALLOWMAP32BIT := by
  rw [Nat.zero_and, Nat.zero_or, u32_flag_bit hN]

/-- The result "restricted", in the order set-then-clear. -/
theorem setup_flags_restricted {h : PaxHeader}
    (hD : IsFlagBit h.PAX_NOTE_DISALLOWMAP32BIT)
    (hN : IsFlagBit h.PAX_NOTE_NODISALLOWMAP32BIT)
    (hDN : h.PAX_NOTE_DISALLOWMAP32BIT ≠ h.PAX_NOTE_NODISALLOWMAP32BIT) :
    u32 (0 ||| h.PAX_NOTE_DISALLOWMAP32BIT) &&& not32 h.PAX_NOTE_NODISALLOWMAP32BIT
      = h.PAX_NOTE_DISALLOWMAP32BIT := by
  rw [Nat.zero_or, u32_flag_bit hD, flag_bit_and_not32 hD hN hDN]

/-- The result "restricted", in the order clear-then-set. -/
theorem setup_flags_restricted_cs {h : PaxHeader}
    (hD : IsFlagBit h.PAX_NOTE_DISALLOWMAP32BIT) :
    u32 ((0 &&& not32 h.PAX_NOTE_NODISALLOWMAP32BIT) ||| h.PAX_NOTE_DISALLOWMAP32BIT)
      = h.PAX_NOTE_DISALLOWMAP32BIT := by
  rw [Nat.zero_and, Nat.zero_or, u32_flag_bit hD]

/-- The result "unrestricted", in the order set-then-clear. -/
theorem setup_flags_unrestricted_sc {h : PaxHeader}
    (hD : IsFlagBit h.PAX_NOTE_DISALLOWMAP32BIT)
    (hN : IsFlagBit h.PAX_NOTE_NODISALLOWMAP32BIT)
    (hDN : h.PAX_NOTE_DISALLOWMAP32BIT ≠ h.PAX_NOTE_NODISALLOWMAP32BIT) :
    u32 (0 ||| h.PAX_NOTE_NODISALLOWMAP32BIT) &&& not32 h.PAX_NOTE_DISALLOWMAP32BIT
      = h.PAX_NOTE_NODISALLOWMAP32BIT := by
  rw [Nat.zero_or, u32_flag_bit hN, flag_bit_and_not32 hN hD (Ne.symm hDN)]

/-! ## The policy resolution table -/

/-- C1. `pax_hardening_setup_flags` follows the resolution table for every
request mask `mode`: status Disabled yields exactly
`PAX_NOTE_NODISALLOWMAP32BIT` (unrestricted), ForceEnabled exactly
`PAX_NOTE_DISALLOWMAP32BIT` (restricted), OptIn yields restricted when the
`DISALLOWMAP32BIT` bit of `mode` is set and unrestricted otherwise, OptOut
yields unrestricted when the `NODISALLOWMAP32BIT` bit of `mode` is set and
restricted otherwise.  The two macros are distinct single bits. -/
theorem setup_flags_table (h : PaxHeader)
    (hD : IsFlagBit h.PAX_NOTE_DISALLOWMAP32BIT)
    (hN : IsFlagBit h.PAX_NOTE_NODISALLOWMAP32BIT)
    (hDN : h.PAX_NOTE_DISALLOWMAP32BIT ≠ h.PAX_NOTE_NODISALLOWMAP32BIT)
    (mode : Nat) :
    pax_hardening_setup_flags h PAX_FEATURE_DISABLED mode = h.PAX_NOTE_NODISALLOWMAP32BIT
    ∧ pax_hardening_setup_flags h PAX_FEATURE_FORCE_ENABLED mode
        = h.PAX_NOTE_DISALLOWMAP32BIT
    ∧ (mode &&& h.PAX_NOTE_DISALLOWMAP32BIT = h.PAX_NOTE_DISALLOWMAP32BIT →
        pax_hardening_setup_flags h PAX_FEATURE_OPTIN mode = h.PAX_NOTE_DISALLOWMAP32BIT)
    ∧ (mode &&& h.PAX_NOTE_DISALLOWMAP32BIT ≠ h.PAX_NOTE_DISALLOWMAP32BIT →
        pax_hardening_setup_flags h PAX_FEATURE_OPTIN mode = h.PAX_NOTE_NODISALLOWMAP32BIT)
    ∧ (mode &&& h.PAX_NOTE_NODISALLOWMAP32BIT = h.PAX_NOTE_NODISALLOWMAP32BIT →
        pax_hardening_setup_flags h PAX_FEATURE_OPTOUT mode = h.PAX_NOTE_NODISALLOWMAP32BIT)
    ∧ (mode &&& h.PAX_NOTE_NODISALLOWMAP32BIT ≠ h.PAX_NOTE_NODISALLOWMAP32BIT →
        pax_hardening_setup_flags h PAX_FEATURE_OPTOUT mode = h.PAX_NOTE_DISALLOWMAP32BIT) := by
  have e0 : pax_hardening_setup_flags h PAX_FEATURE_DISABLED mode
      = u32 ((0 &&& not32 h.PAX_NOTE_DISALLOWMAP32BIT) ||| h.PAX_NOTE_NODISALLOWMAP32BIT) := by
    simp [pax_hardening_setup_flags, PAX_FEATURE_DISABLED]
  have e3 : pax_hardening_setup_flags h PAX_FEATURE_FORCE_ENABLED mode
      = u32 ((0 &&& not32 h.PAX_NOTE_NODISALLOWMAP32BIT) ||| h.PAX_NOTE_DISALLOWMAP32BIT) := by
    simp [pax_hardening_setup_flags, PAX_FEATURE_DISABLED, PAX_FEATURE_FORCE_ENABLED]
  have e1 : pax_hardening_setup_flags h PAX_FEATURE_OPTIN mode
      = if mode &&& h.PAX_NOTE_DISALLOWMAP32BIT ≠ 0 then
          u32 (0 ||| h.PAX_NOTE_DISALLOWMAP32BIT) &&& not32 h.PAX_NOTE_NODISALLOWMAP32BIT
        else
          u32 ((0 &&& not32 h.PAX_NOTE_DISALLOWMAP32BIT) ||| h.PAX_NOTE_NODISALLOWMAP32BIT) := by
    simp [pax_hardening_setup_flags, PAX_FEATURE_DISABLED, PAX_FEATURE_FORCE_ENABLED,
      PAX_FEATURE_OPTIN]
  have e2 : pax_hardening_setup_flags h PAX_FEATURE_OPTOUT mode
      = if mode &&& h.PAX_NOTE_NODISALLOWMAP32BIT ≠ 0 then
          u32 (0 ||| h.PAX_NOTE_NODISALLOWMAP32BIT) &&& not32 h.PAX_NOTE_DISALLOWMAP32BIT
        else
          u32 ((0 &&& not32 h.PAX_NOTE_NODISALLOWMAP32BIT) ||| h.PAX_NOTE_DISALLOWMAP32BIT) := by
    simp [pax_hardening_setup_flags, PAX_FEATURE_DISABLED, PAX_FEATURE_FORCE_ENABLED,
      PAX_FEATURE_OPTIN, PAX_FEATURE_OPTOUT]
  refine ⟨?_, ?_, ?_, ?_, ?_, ?_⟩
  · rw [e0, setup_flags_unrestricted hN]
  · rw [e3, setup_flags_restricted_cs hD]
  · intro hm
    rw [e1, if_pos ((and_flag_bit_ne_zero_iff hD mode).2 hm), setup_flags_restricted hD hN hDN]
  · intro hm
    rw [e1, if_neg (fun hc => hm ((and_flag_bit_ne_zero_iff hD mode).1 hc)),
      setup_flags_unrestricted hN]
  · intro hm
    rw [e2, if_pos ((and_flag_bit_ne_zero_iff hN mode).2 hm),
      setup_flags_unrestricted_sc hD hN hDN]
  · intro hm
    rw [e2, if_neg (fun hc => hm ((and_flag_bit_ne_zero_iff hN mode).1 hc)),
      setup_flags_restricted_cs hD]

/-- C1, instance: with the HardenedBSD header and the request mask that asks
for the restriction (`0x400`), the four statuses resolve as tabulated. -/
theorem setup_flags_table_witness :
    pax_hardening_setup_flags hbsdHeader PAX_FEATURE_DISABLED 0x400 = 0x800
    ∧ pax_hardening_setup_flags hbsdHeader PAX_FEATURE_FORCE_ENABLED 0x400 = 0x400
    ∧ pax_hardening_setup_flags hbsdHeader PAX_FEATURE_OPTIN 0x400 = 0x400
    ∧ pax_hardening_setup_flags hbsdHeader PAX_FEATURE_OPTOUT 0x400 = 0x400 :=
  have t := setup_flags_table hbsdHeader (by decide) (by decide) (by decide) 0x400
  ⟨t.1, t.2.1, t.2.2.1 (by decide), t.2.2.2.2.2 (by decide)⟩

/-- C2. For every status outside `{0, 1, 2, 3}` and every request mask,
`pax_hardening_setup_flags` returns the restricted result:
`PAX_NOTE_DISALLOWMAP32BIT` set and `PAX_NOTE_NODISALLOWMAP32BIT` clear (the
result is exactly `PAX_NOTE_DISALLOWMAP32BIT`). -/
theorem setup_flags_unknown_status (h : PaxHeader)
    (hD : IsFlagBit h.PAX_NOTE_DISALLOWMAP32BIT)
    (hN : IsFlagBit h.PAX_NOTE_NODISALLOWMAP32BIT)
    (hDN : h.PAX_NOTE_DISALLOWMAP32BIT ≠ h.PAX_NOTE_NODISALLOWMAP32BIT)
    (status mode : Nat)
    (hs : status ≠ PAX_FEATURE_DISABLED ∧ status ≠ PAX_FEATURE_OPTIN
      ∧ status ≠ PAX_FEATURE_OPTOUT ∧ status ≠ PAX_FEATURE_FORCE_ENABLED) :
    pax_hardening_setup_flags h status mode = h.PAX_NOTE_DISALLOWMAP32BIT
    ∧ pax_hardening_setup_flags h status mode &&& h.PAX_NOTE_DISALLOWMAP32BIT
        = h.PAX_NOTE_DISALLOWMAP32BIT
    ∧ pax_hardening_setup_flags h status mode &&& h.PAX_NOTE_NODISALLOWMAP32BIT = 0 := by
  obtain ⟨h0, h1, h2, h3⟩ := hs
  have e : pax_hardening_setup_flags h status mode
      = u32 (0 ||| h.PAX_NOTE_DISALLOWMAP32BIT) &&& not32 h.PAX_NOTE_NODISALLOWMAP32BIT := by
    simp [pax_hardening_setup_flags, h0, h1, h2, h3]
  rw [e, setup_flags_restricted hD hN hDN]
  exact ⟨rfl, Nat.and_self _, flag_bit_and_flag_bit hD hN hDN⟩

/-- C2, instance: status 7 with an empty request and with a request for "no
restriction" (`0x800`). -/
theorem setup_flags_unknown_status_witness :
    pax_hardening_setup_flags hbsdHeader 7 0x800 = 0x400
    ∧ pax_hardening_setup_flags hbsdHeader 7 0x800 &&& 0x400 = 0x400
    ∧ pax_hardening_setup_flags hbsdHeader 7 0x800 &&& 0x800 = 0 :=
  setup_flags_unknown_status hbsdHeader (by decide) (by decide) (by decide) 7 0x800
    (by decide)

/-- C3. `pax_disallow_map32bit_active`: a request without `MAP_32BIT` is never
denied, whatever the process flags; a request with `MAP_32BIT` is denied if the
`DISALLOWMAP32BIT` bit of the process flags is set, otherwise allowed if the
`NODISALLOWMAP32BIT` bit is set, otherwise denied. -/
theorem disallow_map32bit_active_spec (h : PaxHeader) (p_pax mmap_flags : Nat) :
    (mmap_flags &&& h.MAP_32BIT ≠ h.MAP_32BIT →
      pax_disallow_map32bit_active h p_pax mmap_flags = false)
    ∧ (mmap_flags &&& h.MAP_32BIT = h.MAP_32BIT →
        (p_pax &&& h.PAX_NOTE_DISALLOWMAP32BIT = h.PAX_NOTE_DISALLOWMAP32BIT →
          pax_disallow_map32bit_active h p_pax mmap_flags = true)
        ∧ (p_pax &&& h.PAX_NOTE_DISALLOWMAP32BIT ≠ h.PAX_NOTE_DISALLOWMAP32BIT →
            p_pax &&& h.PAX_NOTE_NODISALLOWMAP32BIT = h.PAX_NOTE_NODISALLOWMAP32BIT →
            pax_disallow_map32bit_active h p_pax mmap_flags = false)
        ∧ (p_pax &&& h.PAX_NOTE_DISALLOWMAP32BIT ≠ h.PAX_NOTE_DISALLOWMAP32BIT →
            p_pax &&& h.PAX_NOTE_NODISALLOWMAP32BIT ≠ h.PAX_NOTE_NODISALLOWMAP32BIT →
            pax_disallow_map32bit_active h p_pax mmap_flags = true)) := by
  refine ⟨fun hm => ?_, fun hm => ⟨fun hd => ?_, fun hd hn => ?_, fun hd hn => ?_⟩⟩
  · simp [pax_disallow_map32bit_active, hm]
  · simp [pax_disallow_map32bit_active, hm, hd]
  · simp [pax_disallow_map32bit_active, hm, hd, hn]
  · simp [pax_disallow_map32bit_active, hm, hd, hn]

/-- C3, instance: with the HardenedBSD header, a `MAP_32BIT` request
(`0x80000`) of a process whose flags hold only `NODISALLOWMAP32BIT` is
allowed, one of a process with no flag at all is denied, and a request without
`MAP_32BIT` is not denied even for a restricted process. -/
theorem disallow_map32bit_active_spec_witness :
    pax_disallow_map32bit_active hbsdHeader 0x400 0x1002 = false
    ∧ pax_disallow_map32bit_active hbsdHeader 0x800 0x80000 = false
    ∧ pax_disallow_map32bit_active hbsdHeader 0 0x80000 = true :=
  ⟨(disallow_map32bit_active_spec hbsdHeader 0x400 0x1002).1 (by decide),
   ((disallow_map32bit_active_spec hbsdHeader 0x800 0x80000).2 (by decide)).2.1
      (by decide) (by decide),
   ((disallow_map32bit_active_spec hbsdHeader 0 0x80000).2 (by decide)).2.2
      (by decide) (by decide)⟩

/-! ## The walk over a well-formed list -/

theorem walk_list_fuel (features : List pax_feature_entry) (fsea_list : List Byte) :
    ∀ (fuel i : Nat) (fp : List Bool), 0 < fuel → fsea_list.length < fuel + i →
      walk_list features fsea_list fuel i fp ≠ Walk.outOfFuel := by
  intro fuel
  induction fuel with
  | zero => intro i fp h0; omega
  | succ f ih =>
    intro i fp _ hlt
    rw [walk_list]
    by_cases hi : i < fsea_list.length
    · rw [if_pos hi]
      dsimp only
      by_cases ho : INT_MAX < i + 1
      · rw [if_pos ho]
        intro hc; cases hc
      · rw [if_neg ho]
        split
        · intro hc; cases hc
        · split
          · intro hc; cases hc
          · exact ih _ _ (by omega) (by omega)
        · split
          · intro hc; cases hc
          · exact ih _ _ (by omega) (by omega)
    · rw [if_neg hi]
      intro hc; cases hc

theorem present_features_fuel (features : List pax_feature_entry) (fsea_list : List Byte) :
    present_features features fsea_list ≠ Walk.outOfFuel :=
  walk_list_fuel features fsea_list _ _ _ (by omega) (by omega)

theorem fsea_buffer_length (size : Nat) (data : List Byte) :
    (fsea_buffer size data).length = size := by
  simp [fsea_buffer]

theorem fsea_buffer_self (data : List Byte) : fsea_buffer data.length data = data := by
  simp [fsea_buffer]

theorem drop_take_entry (pre n post : List Byte) (b : Byte) :
    ((pre ++ b :: (n ++ post)).drop (pre.length + 1)).take n.length = n := by
  have : pre ++ b :: (n ++ post) = (pre ++ [b]) ++ (n ++ post) := by simp
  rw [this, List.drop_append_of_le_length (by simp)]
  simp

theorem scan_features_entry (pre n post : List Byte) (b : Byte) :
    ∀ (features : List pax_feature_entry) (j : Nat),
      scan_features (pre ++ b :: (n ++ post)) (pre.length + 1) n.length features j
        = match find_feature n features j with
          | some k => Scan.found k
          | none => Scan.nomatch := by
  intro features
  induction features with
  | nil => intro j; rfl
  | cons e rest ih =>
    intro j
    unfold scan_features find_feature
    by_cases hlen : e.fs_ea_attribute.length = n.length
    · have hb : ¬ (pre ++ b :: (n ++ post)).length < pre.length + 1 + n.length := by
        simp; omega
      simp only [hlen, ne_eq, not_true_eq_false, if_false, hb, drop_take_entry]
      by_cases hn : n = e.fs_ea_attribute
      · simp [hn]
      · have hn2 : ¬ e.fs_ea_attribute = n := fun hc => hn hc.symm
        simp only [hn, hn2, if_false]
        exact ih (j + 1)
    · have hn2 : ¬ e.fs_ea_attribute = n := fun hc => hlen (by rw [hc])
      simp only [ne_eq, hlen, not_false_eq_true, if_true, hn2, if_false]
      exact ih (j + 1)

theorem walk_list_encode (features : List pax_feature_entry) :
    ∀ (names : List (List Byte)), (∀ n ∈ names, n.length < 256) →
      ∀ (pre : List Byte) (fuel : Nat) (fp : List Bool), names.length < fuel →
        (pre ++ encode_names names).length ≤ INT_MAX →
        walk_list features (pre ++ encode_names names) fuel pre.length fp
          = Walk.done (mark_names features names fp) := by
  intro names
  induction names with
  | nil =>
    intro _ pre fuel fp hf _
    obtain ⟨f, rfl⟩ : ∃ f, fuel = f + 1 := ⟨fuel - 1, by simp at hf; omega⟩
    simp [walk_list, encode_names, mark_names]
  | cons n rest ih =>
    intro hwf pre fuel fp hf hint
    obtain ⟨f, rfl⟩ : ∃ f, fuel = f + 1 := ⟨fuel - 1, by simp at hf; omega⟩
    have hn : n.length < 256 := hwf n (by simp)
    have hrest : ∀ m ∈ rest, m.length < 256 := fun m hm => hwf m (by simp [hm])
    have hval : ((Fin.ofNat n.length : Byte)).val = n.length := by
      show n.length % 256 = n.length
      exact Nat.mod_eq_of_lt hn
    have hi : pre.length < (pre ++ encode_names (n :: rest)).length := by
      simp [encode_names]
    have hget : ((pre ++ encode_names (n :: rest)).getD pre.length 0).val = n.length := by
      rw [List.getD_append_right _ _ _ _ (le_refl _)]
      simp [encode_names, hval]
    have hpre : pre ++ encode_names (n :: rest)
        = (pre ++ (Fin.ofNat n.length : Byte) :: n) ++ encode_names rest := by
      simp [encode_names]
    have hlen : pre.length + 1 + n.length
        = (pre ++ (Fin.ofNat n.length : Byte) :: n).length := by
      simp; omega
    have htotal : pre.length + 1 + n.length ≤ (pre ++ encode_names (n :: rest)).length := by
      rw [hpre, List.length_append, ← hlen]
      omega
    have ho1 : ¬ INT_MAX < pre.length + 1 := by omega
    have ho2 : ¬ INT_MAX < pre.length + 1 + n.length := by omega
    have hint2 : ((pre ++ (Fin.ofNat n.length : Byte) :: n) ++ encode_names rest).length
        ≤ INT_MAX := by
      rw [← hpre]; exact hint
    rw [walk_list, if_pos hi]
    simp only [hget]
    rw [if_neg ho1]
    have hscan := scan_features_entry pre n (encode_names rest) (Fin.ofNat n.length)
      features 0
    have henc : pre ++ encode_names (n :: rest)
        = pre ++ (Fin.ofNat n.length : Byte) :: (n ++ encode_names rest) := by
      simp [encode_names]
    rw [henc, hscan]
    have hf2 : rest.length < f := by simp at hf; omega
    cases hfind : find_feature n features 0 with
    | none =>
      simp only [mark_names, hfind]
      rw [if_neg ho2, ← henc, hpre, hlen]
      exact ih hrest _ f fp hf2 hint2
    | some k =>
      simp only [mark_names, hfind]
      rw [if_neg ho2, ← henc, hpre, hlen]
      exact ih hrest _ f _ hf2 hint2

theorem encode_names_length_ge (names : List (List Byte)) :
    names.length ≤ (encode_names names).length := by
  induction names with
  | nil => simp [encode_names]
  | cons n rest ih => simp [encode_names]; omega

theorem present_features_encode (features : List pax_feature_entry)
    (names : List (List Byte)) (hwf : ∀ n ∈ names, n.length < 256)
    (hint : (encode_names names).length ≤ INT_MAX) :
    present_features features (encode_names names)
      = Walk.done (mark_names features names (List.replicate features.length false)) := by
  have := walk_list_encode features names hwf [] ((encode_names names).length + 1)
    (List.replicate features.length false)
    (by have := encode_names_length_ge names; omega) (by simpa using hint)
  simpa [present_features] using this

theorem pax_features_names (h : PaxHeader) :
    (pax_features h).map (fun e => e.fs_ea_attribute) = registry_names := rfl

theorem registry_names_nodup : registry_names.Nodup := by decide

set_option maxRecDepth 4000 in
theorem registry_names_separated :
    ∀ a ∈ registry_names, ∀ b ∈ registry_names, ¬ near_miss a b := by decide

theorem find_feature_some {n : List Byte} :
    ∀ (features : List pax_feature_entry) (j0 k : Nat), find_feature n features j0 = some k →
      ∃ i e, k = j0 + i ∧ features[i]? = some e ∧ e.fs_ea_attribute = n := by
  intro features
  induction features with
  | nil => intro j0 k hk; simp [find_feature] at hk
  | cons e rest ih =>
    intro j0 k hk
    unfold find_feature at hk
    by_cases he : e.fs_ea_attribute = n
    · simp only [he, if_true, Option.some.injEq] at hk
      exact ⟨0, e, by omega, by simp, he⟩
    · simp only [he, if_false] at hk
      obtain ⟨i, e2, hki, hget, hname⟩ := ih (j0 + 1) k hk
      exact ⟨i + 1, e2, by omega, by simpa using hget, hname⟩

theorem find_feature_of_nodup {n : List Byte} :
    ∀ (features : List pax_feature_entry) (j0 i : Nat) (e : pax_feature_entry),
      (features.map fun e => e.fs_ea_attribute).Nodup →
      features[i]? = some e → e.fs_ea_attribute = n →
      find_feature n features j0 = some (j0 + i) := by
  intro features
  induction features with
  | nil => intro j0 i e _ hget; simp at hget
  | cons e0 rest ih =>
    intro j0 i e hnd hget hname
    rw [List.map_cons, List.nodup_cons] at hnd
    unfold find_feature
    cases i with
    | zero =>
      simp only [List.getElem?_cons_zero, Option.some.injEq] at hget
      subst hget
      simp [hname]
    | succ i =>
      simp only [List.getElem?_cons_succ] at hget
      have hmem : e.fs_ea_attribute ∈ rest.map fun e => e.fs_ea_attribute :=
        List.mem_map.2 ⟨e, List.getElem?_mem hget, rfl⟩
      have hne : ¬ e0.fs_ea_attribute = n := by
        intro hc
        apply hnd.1
        rw [hc, ← hname]
        exact hmem
      simp only [hne, if_false]
      rw [ih (j0 + 1) i e hnd.2 hget hname]
      congr 1
      omega

theorem mark_names_length (features : List pax_feature_entry) :
    ∀ (names : List (List Byte)) (fp : List Bool),
      (mark_names features names fp).length = fp.length := by
  intro names
  induction names with
  | nil => intro fp; rfl
  | cons n rest ih =>
    intro fp
    unfold mark_names
    cases find_feature n features 0 with
    | none => exact ih fp
    | some j => simp [ih]

theorem getD_set_true (fp : List Bool) (j k : Nat) :
    (fp.set j true).getD k false = true ↔ fp.getD k false = true ∨ (k = j ∧ j < fp.length) := by
  simp only [List.getD_eq_getElem?_getD, List.getElem?_set]
  by_cases hjk : j = k
  · subst hjk
    by_cases hlt : j < fp.length
    · simp [hlt]
    · simp [hlt, List.getElem?_eq_none (Nat.le_of_not_lt hlt)]
  · have hkj : ¬ k = j := fun hc => hjk hc.symm
    simp [hjk, hkj]

theorem mark_names_getD (features : List pax_feature_entry) :
    ∀ (names : List (List Byte)) (fp : List Bool) (k : Nat),
      (mark_names features names fp).getD k false = true
        ↔ fp.getD k false = true
          ∨ (k < fp.length ∧ ∃ n ∈ names, find_feature n features 0 = some k) := by
  intro names
  induction names with
  | nil => intro fp k; simp [mark_names]
  | cons n rest ih =>
    intro fp k
    unfold mark_names
    cases hfind : find_feature n features 0 with
    | none =>
      simp only [ih, List.mem_cons, exists_eq_or_imp, hfind]
      simp
    | some j =>
      simp only [ih, getD_set_true, List.length_set, List.mem_cons, exists_eq_or_imp, hfind,
        Option.some.injEq]
      constructor
      · rintro ((h1 | ⟨rfl, hlt⟩) | ⟨hlt, hex⟩)
        · exact Or.inl h1
        · exact Or.inr ⟨hlt, Or.inl rfl⟩
        · exact Or.inr ⟨hlt, Or.inr hex⟩
      · rintro (h1 | ⟨hlt, (rfl | hex)⟩)
        · exact Or.inl (Or.inl h1)
        · exact Or.inl (Or.inr ⟨rfl, hlt⟩)
        · exact Or.inr ⟨hlt, hex⟩

theorem getD_replicate_false (m k : Nat) : (List.replicate m false).getD k false = false := by
  simp only [List.getD_eq_getElem?_getD, List.getElem?_replicate]
  split <;> rfl

/-- Presence after the walk over a well-formed list, row by row. -/
theorem mark_names_present (h : PaxHeader) (names : List (List Byte)) (j : Nat)
    (e : pax_feature_entry) (hj : (pax_features h)[j]? = some e) :
    (mark_names (pax_features h) names
        (List.replicate (pax_features h).length false)).getD j false = true
      ↔ e.fs_ea_attribute ∈ names := by
  rw [mark_names_getD, getD_replicate_false]
  have hnd : ((pax_features h).map fun e => e.fs_ea_attribute).Nodup := by
    rw [pax_features_names]; exact registry_names_nodup
  have hjlt : j < (pax_features h).length := by
    by_contra hc
    rw [List.getElem?_eq_none (by omega)] at hj
    cases hj
  constructor
  · rintro (hc | ⟨_, n, hn, hfind⟩)
    · cases hc
    · obtain ⟨i, e2, hji, hget, hname⟩ := find_feature_some _ _ _ hfind
      rw [Nat.zero_add] at hji
      subst hji
      rw [hj] at hget
      cases hget
      rw [hname]
      exact hn
  · intro hmem
    refine Or.inr ⟨by simpa using hjlt, e.fs_ea_attribute, hmem, ?_⟩
    have := find_feature_of_nodup (pax_features h) 0 j e hnd hj rfl
    simpa using this

/-! ## Exact matching -/

/-- C6. Registry matching in the list walk is exact.  For every well-formed
length-prefixed list (the encoding of names shorter than 256 bytes) that the
`int` cursor can walk without overflow (at most `INT_MAX` bytes), the walk
ends normally, and row `j` of the table is marked present if and only if some
list entry has the length of the row's name and the same bytes.  A list made
only of near misses (proper prefixes or proper suffixes of registry names, or
registry names followed by more bytes) marks no feature present. -/
theorem walk_marks_exact (h : PaxHeader) (names : List (List Byte))
    (hwf : ∀ n ∈ names, n.length < 256)
    (hint : (encode_names names).length ≤ INT_MAX) :
    ∃ fp, present_features (pax_features h) (encode_names names) = Walk.done fp
      ∧ (∀ j e, (pax_features h)[j]? = some e →
          (fp.getD j false = true
            ↔ ∃ n ∈ names, n.length = e.fs_ea_attribute.length ∧ n = e.fs_ea_attribute))
      ∧ ((∀ n ∈ names, ∃ r ∈ registry_names, near_miss n r) →
          ∀ j, fp.getD j false = false) := by
  refine ⟨_, present_features_encode (pax_features h) names hwf hint, ?_, ?_⟩
  · intro j e hj
    rw [mark_names_present h names j e hj]
    constructor
    · intro hmem
      exact ⟨e.fs_ea_attribute, hmem, rfl, rfl⟩
    · rintro ⟨n, hn, _, rfl⟩
      exact hn
  · intro hnear j
    cases hget : (pax_features h)[j]? with
    | none =>
      have hlen : (pax_features h).length ≤ j := by
        by_contra hc
        have hlt : j < (pax_features h).length := by omega
        rw [List.getElem?_eq_getElem hlt] at hget
        cases hget
      rw [List.getD_eq_getElem?_getD, List.getElem?_eq_none]
      · rfl
      · rw [mark_names_length]
        simpa using hlen
    | some e =>
      have hiff := mark_names_present h names j e hget
      cases hv : (mark_names (pax_features h) names
          (List.replicate (pax_features h).length false)).getD j false with
      | false => rfl
      | true =>
        exfalso
        have hmem := hiff.1 hv
        obtain ⟨r, hr, hnm⟩ := hnear _ hmem
        have hreg : e.fs_ea_attribute ∈ registry_names := by
          rw [← pax_features_names h]
          exact List.mem_map.2 ⟨e, List.getElem?_mem hget, rfl⟩
        exact registry_names_separated _ hreg _ hr hnm

/-- C6, instance: the list holding "hbsd.pax.asl", "pax.aslr" and
"hbsd.pax.aslrX" marks no feature present. -/
theorem walk_marks_exact_witness :
    ∃ fp, present_features (pax_features hbsdHeader)
        (encode_names [cstr "hbsd.pax.asl", cstr "pax.aslr", cstr "hbsd.pax.aslrX"])
          = Walk.done fp
      ∧ ∀ j, fp.getD j false = false :=
  have ⟨fp, hfp, _, hnone⟩ := walk_marks_exact hbsdHeader
    [cstr "hbsd.pax.asl", cstr "pax.aslr", cstr "hbsd.pax.aslrX"] (by decide) (by decide)
  ⟨fp, hfp, hnone (by decide)⟩

/-! ## The value fetch loop -/

theorem present_rows_absent {fp : List Bool} {i : Nat} (hp : fp.getD i false = false)
    (e : pax_feature_entry) (rest : List pax_feature_entry) :
    present_rows fp (e :: rest) i = present_rows fp rest (i + 1) := by
  rw [present_rows, if_pos hp]

theorem present_rows_present {fp : List Bool} {i : Nat} (hp : fp.getD i false = true)
    (e : pax_feature_entry) (rest : List pax_feature_entry) :
    present_rows fp (e :: rest) i = e :: present_rows fp rest (i + 1) := by
  rw [present_rows, if_neg (by rw [hp]; decide)]

theorem fetch_rows_cons (h : PaxHeader) (g : List Byte → Int × Byte) (e : pax_feature_entry)
    (rest : List pax_feature_entry) (s : FetchState) :
    fetch_rows h g (e :: rest) s
      = if (g e.fs_ea_attribute).1 = 0 then
          if (g e.fs_ea_attribute).2 = char0 then
            fetch_rows h g rest ⟨s.parsed_flags &&& not32 e.feature_bit,
              (g e.fs_ea_attribute).1, s.fetched ++ [e.fs_ea_attribute]⟩
          else if (g e.fs_ea_attribute).2 = char1 then
            fetch_rows h g rest ⟨u32 (s.parsed_flags ||| e.feature_bit),
              (g e.fs_ea_attribute).1, s.fetched ++ [e.fs_ea_attribute]⟩
          else
            fetch_rows h g rest ⟨s.parsed_flags, (g e.fs_ea_attribute).1,
              s.fetched ++ [e.fs_ea_attribute]⟩
        else if (g e.fs_ea_attribute).1 = h.ENOATTR then
          fetch_rows h g rest ⟨s.parsed_flags, (g e.fs_ea_attribute).1,
            s.fetched ++ [e.fs_ea_attribute]⟩
        else
          ⟨s.parsed_flags, (g e.fs_ea_attribute).1, s.fetched ++ [e.fs_ea_attribute]⟩ := rfl

theorem fetch_features_absent (h : PaxHeader) (g : List Byte → Int × Byte) {fp : List Bool}
    {i : Nat} (hp : fp.getD i false = false) (e : pax_feature_entry)
    (rest : List pax_feature_entry) (s : FetchState) :
    fetch_features h g fp (e :: rest) i s = fetch_features h g fp rest (i + 1) s := by
  rw [fetch_features, if_pos hp]

theorem fetch_features_present (h : PaxHeader) (g : List Byte → Int × Byte) {fp : List Bool}
    {i : Nat} (hp : fp.getD i false = true) (e : pax_feature_entry)
    (rest : List pax_feature_entry) (s : FetchState) :
    fetch_features h g fp (e :: rest) i s
      = if (g e.fs_ea_attribute).1 = 0 then
          if (g e.fs_ea_attribute).2 = char0 then
            fetch_features h g fp rest (i + 1) ⟨s.parsed_flags &&& not32 e.feature_bit,
              (g e.fs_ea_attribute).1, s.fetched ++ [e.fs_ea_attribute]⟩
          else if (g e.fs_ea_attribute).2 = char1 then
            fetch_features h g fp rest (i + 1) ⟨u32 (s.parsed_flags ||| e.feature_bit),
              (g e.fs_ea_attribute).1, s.fetched ++ [e.fs_ea_attribute]⟩
          else
            fetch_features h g fp rest (i + 1) ⟨s.parsed_flags, (g e.fs_ea_attribute).1,
              s.fetched ++ [e.fs_ea_attribute]⟩
        else if (g e.fs_ea_attribute).1 = h.ENOATTR then
          fetch_features h g fp rest (i + 1) ⟨s.parsed_flags, (g e.fs_ea_attribute).1,
            s.fetched ++ [e.fs_ea_attribute]⟩
        else
          ⟨s.parsed_flags, (g e.fs_ea_attribute).1, s.fetched ++ [e.fs_ea_attribute]⟩ := by
  rw [fetch_features, if_neg (by rw [hp]; decide)]

theorem fetch_features_eq_rows (h : PaxHeader) (g : List Byte → Int × Byte) (fp : List Bool) :
    ∀ (features : List pax_feature_entry) (i : Nat) (s : FetchState),
      fetch_features h g fp features i s = fetch_rows h g (present_rows fp features i) s := by
  intro features
  induction features with
  | nil => intro i s; rfl
  | cons e rest ih =>
    intro i s
    cases hp : fp.getD i false with
    | false => rw [fetch_features_absent h g hp, present_rows_absent hp, ih]
    | true =>
      rw [fetch_features_present h g hp, present_rows_present hp, fetch_rows_cons]
      simp only [ih]

theorem mem_present_rows (fp : List Bool) (x : pax_feature_entry) :
    ∀ (features : List pax_feature_entry) (i : Nat),
      x ∈ present_rows fp features i
        ↔ ∃ k, features[k]? = some x ∧ fp.getD (i + k) false = true := by
  intro features
  induction features with
  | nil => intro i; simp [present_rows]
  | cons e rest ih =>
    intro i
    have shift : ∀ k, fp.getD (i + 1 + k) false = fp.getD (i + (k + 1)) false := by
      intro k; congr 1; omega
    cases hp : fp.getD i false with
    | false =>
      rw [present_rows_absent hp, ih]
      constructor
      · rintro ⟨k, hk, hpk⟩
        exact ⟨k + 1, by simpa using hk, by rw [← shift]; exact hpk⟩
      · rintro ⟨k, hk, hpk⟩
        cases k with
        | zero => rw [Nat.add_zero, hp] at hpk; cases hpk
        | succ k => exact ⟨k, by simpa using hk, by rw [shift]; exact hpk⟩
    | true =>
      rw [present_rows_present hp, List.mem_cons, ih]
      constructor
      · rintro (rfl | ⟨k, hk, hpk⟩)
        · exact ⟨0, by simp, by simpa using hp⟩
        · exact ⟨k + 1, by simpa using hk, by rw [← shift]; exact hpk⟩
      · rintro ⟨k, hk, hpk⟩
        cases k with
        | zero =>
          simp only [List.getElem?_cons_zero, Option.some.injEq] at hk
          exact Or.inl hk.symm
        | succ k => exact Or.inr ⟨k, by simpa using hk, by rw [shift]; exact hpk⟩

theorem present_rows_sublist (fp : List Bool) :
    ∀ (features : List pax_feature_entry) (i : Nat),
      (present_rows fp features i).Sublist features := by
  intro features
  induction features with
  | nil => intro i; exact List.Sublist.slnil
  | cons e rest ih =>
    intro i
    cases hp : fp.getD i false with
    | false => rw [present_rows_absent hp]; exact (ih (i + 1)).cons e
    | true => rw [present_rows_present hp]; exact (ih (i + 1)).cons₂ e

/-- Once the fetch loop is reached, the call returns what the loop over the
present rows leaves at the label `out`. -/
theorem parse_of_reaches_fetch {h : PaxHeader} {status : Int} {vp : Vnode} {fp : List Bool}
    (hr : reaches_fetch h status vp fp) :
    pax_hbsdcontrol_parse_fsea_flags h status vp
      = ParseOutcome.returned (parse_out
          (fetch_rows h vp.getextattr (present_rows fp (pax_features h) 0) ⟨0, 0, []⟩)) := by
  obtain ⟨ha, hse, hsz, hmax, hle, hwalk⟩ := hr
  unfold pax_hbsdcontrol_parse_fsea_flags
  have hmax2 : ¬ vp.fsea_list_size > h.IOSIZE_MAX := by omega
  simp only [ha, hse, hsz, hmax2, hle, hwalk, fetch_features_eq_rows]
  simp

/-- The first hard error ends the loop: its error code is left in `error`. -/
theorem fetch_rows_hard (h : PaxHeader) (g : List Byte → Int × Byte) :
    ∀ (pre : List pax_feature_entry) (e : pax_feature_entry) (post : List pax_feature_entry)
      (s : FetchState),
      (∀ x ∈ pre, ¬ hard_error h (g x.fs_ea_attribute).1) →
      hard_error h (g e.fs_ea_attribute).1 →
      (fetch_rows h g (pre ++ e :: post) s).error = (g e.fs_ea_attribute).1 := by
  intro pre
  induction pre with
  | nil =>
    intro e post s _ hhard
    rw [List.nil_append, fetch_rows_cons, if_neg hhard.1, if_neg hhard.2]
  | cons x rest ih =>
    intro e post s hpre hhard
    have hx : ¬ hard_error h (g x.fs_ea_attribute).1 := hpre x (by simp)
    have hrest : ∀ y ∈ rest, ¬ hard_error h (g y.fs_ea_attribute).1 :=
      fun y hy => hpre y (by simp [hy])
    rw [List.cons_append, fetch_rows_cons]
    by_cases h0 : (g x.fs_ea_attribute).1 = 0
    · rw [if_pos h0]
      split
      · exact ih e post _ hrest hhard
      · split
        · exact ih e post _ hrest hhard
        · exact ih e post _ hrest hhard
    · by_cases h1 : (g x.fs_ea_attribute).1 = h.ENOATTR
      · rw [if_neg h0, if_pos h1]
        exact ih e post _ hrest hhard
      · exact absurd ⟨h0, h1⟩ hx

theorem exists_first_hard (h : PaxHeader) (g : List Byte → Int × Byte) :
    ∀ (rows : List pax_feature_entry),
      (∃ e ∈ rows, hard_error h (g e.fs_ea_attribute).1) →
      ∃ pre e post, rows = pre ++ e :: post
        ∧ (∀ x ∈ pre, ¬ hard_error h (g x.fs_ea_attribute).1)
        ∧ hard_error h (g e.fs_ea_attribute).1 := by
  intro rows
  induction rows with
  | nil => rintro ⟨e, he, _⟩; cases he
  | cons x rest ih =>
    rintro ⟨e, he, hhard⟩
    by_cases hx : hard_error h (g x.fs_ea_attribute).1
    · exact ⟨[], x, rest, rfl, by simp, hx⟩
    · have hin : e ∈ rest := by
        rcases List.mem_cons.1 he with rfl | hin
        · exact absurd hhard hx
        · exact hin
      obtain ⟨pre, e1, post, hsplit, hpre, h1⟩ := ih ⟨e, hin, hhard⟩
      refine ⟨x :: pre, e1, post, by rw [hsplit]; rfl, ?_, h1⟩
      intro y hy
      rcases List.mem_cons.1 hy with rfl | hy
      · exact hx
      · exact hpre y hy

theorem fetch_rows_fetched_soft (h : PaxHeader) (g : List Byte → Int × Byte) :
    ∀ (rows : List pax_feature_entry) (s : FetchState),
      (∀ x ∈ rows, ¬ hard_error h (g x.fs_ea_attribute).1) →
      (fetch_rows h g rows s).fetched = s.fetched ++ row_names rows := by
  intro rows
  induction rows with
  | nil => intro s _; simp [fetch_rows, row_names]
  | cons x rest ih =>
    intro s hsoft
    have hx : ¬ hard_error h (g x.fs_ea_attribute).1 := hsoft x (by simp)
    have hrest : ∀ y ∈ rest, ¬ hard_error h (g y.fs_ea_attribute).1 :=
      fun y hy => hsoft y (by simp [hy])
    have hnames : row_names (x :: rest) = x.fs_ea_attribute :: row_names rest := rfl
    rw [fetch_rows_cons, hnames]
    by_cases h0 : (g x.fs_ea_attribute).1 = 0
    · rw [if_pos h0]
      split
      · rw [ih _ hrest]; simp
      · split
        · rw [ih _ hrest]; simp
        · rw [ih _ hrest]; simp
    · by_cases h1 : (g x.fs_ea_attribute).1 = h.ENOATTR
      · rw [if_neg h0, if_pos h1, ih _ hrest]; simp
      · exact absurd ⟨h0, h1⟩ hx

theorem fetch_rows_hard_fetched (h : PaxHeader) (g : List Byte → Int × Byte) :
    ∀ (pre : List pax_feature_entry) (e : pax_feature_entry) (post : List pax_feature_entry)
      (s : FetchState),
      (∀ x ∈ pre, ¬ hard_error h (g x.fs_ea_attribute).1) →
      hard_error h (g e.fs_ea_attribute).1 →
      (fetch_rows h g (pre ++ e :: post) s).fetched
        = s.fetched ++ row_names (pre ++ [e]) := by
  intro pre
  induction pre with
  | nil =>
    intro e post s _ hhard
    rw [List.nil_append, fetch_rows_cons, if_neg hhard.1, if_neg hhard.2]
    rfl
  | cons x rest ih =>
    intro e post s hpre hhard
    have hx : ¬ hard_error h (g x.fs_ea_attribute).1 := hpre x (by simp)
    have hrest : ∀ y ∈ rest, ¬ hard_error h (g y.fs_ea_attribute).1 :=
      fun y hy => hpre y (by simp [hy])
    have hnames : row_names (x :: rest ++ [e])
        = x.fs_ea_attribute :: row_names (rest ++ [e]) := rfl
    rw [List.cons_append, fetch_rows_cons, hnames]
    by_cases h0 : (g x.fs_ea_attribute).1 = 0
    · rw [if_pos h0]
      split
      · rw [ih e post _ hrest hhard]; simp
      · split
        · rw [ih e post _ hrest hhard]; simp
        · rw [ih e post _ hrest hhard]; simp
    · by_cases h1 : (g x.fs_ea_attribute).1 = h.ENOATTR
      · rw [if_neg h0, if_pos h1, ih e post _ hrest hhard]; simp
      · exact absurd ⟨h0, h1⟩ hx

/-! ## Errors of the value fetch -/

/-- C4. If the fetch of some present registry attribute fails with an error
other than 0 and `ENOATTR`, the call returns the error of the first such fetch
(in table order) and stores the zero mask, whatever was accumulated from the
rows fetched before it; the rows after it are not fetched. -/
theorem parse_hard_error (h : PaxHeader) (status : Int) (vp : Vnode) (fp : List Bool)
    (hr : reaches_fetch h status vp fp) (e : pax_feature_entry)
    (he : e ∈ present_rows fp (pax_features h) 0)
    (hhard : hard_error h (vp.getextattr e.fs_ea_attribute).1) :
    ∃ pre e1 post, present_rows fp (pax_features h) 0 = pre ++ e1 :: post
      ∧ (∀ x ∈ pre, ¬ hard_error h (vp.getextattr x.fs_ea_attribute).1)
      ∧ hard_error h (vp.getextattr e1.fs_ea_attribute).1
      ∧ pax_hbsdcontrol_parse_fsea_flags h status vp
          = ParseOutcome.returned
              ⟨(vp.getextattr e1.fs_ea_attribute).1, 0, row_names (pre ++ [e1])⟩ := by
  obtain ⟨pre, e1, post, hsplit, hpre, h1⟩ :=
    exists_first_hard h vp.getextattr _ ⟨e, he, hhard⟩
  refine ⟨pre, e1, post, hsplit, hpre, h1, ?_⟩
  rw [parse_of_reaches_fetch hr, hsplit]
  have herr := fetch_rows_hard h vp.getextattr pre e1 post ⟨0, 0, []⟩ hpre h1
  have hfet := fetch_rows_hard_fetched h vp.getextattr pre e1 post ⟨0, 0, []⟩ hpre h1
  unfold parse_out
  rw [herr, hfet, if_pos h1.1]
  rfl

/-- C4, instance: "hbsd.pax.aslr" is fetched as '1', then the fetch of
"hbsd.pax.noaslr" fails with error 5; "hbsd.pax.segvguard" is listed too.  The
call returns 5 with the zero mask. -/
theorem parse_hard_error_witness :
    ∃ pre e1 post,
      present_rows [true, true, true, false, false, false, false, false, false, false, false, false]
          (pax_features hbsdHeader) 0 = pre ++ e1 :: post
      ∧ (∀ x ∈ pre, ¬ hard_error hbsdHeader
            ((answers [(cstr "hbsd.pax.aslr", (0, char1)), (cstr "hbsd.pax.noaslr", (5, 0))]
              (0, char1)) x.fs_ea_attribute).1)
      ∧ hard_error hbsdHeader
          ((answers [(cstr "hbsd.pax.aslr", (0, char1)), (cstr "hbsd.pax.noaslr", (5, 0))]
            (0, char1)) e1.fs_ea_attribute).1
      ∧ pax_hbsdcontrol_parse_fsea_flags hbsdHeader 1
          (vnode_of [cstr "hbsd.pax.segvguard", cstr "hbsd.pax.noaslr", cstr "hbsd.pax.aslr"]
            (answers [(cstr "hbsd.pax.aslr", (0, char1)), (cstr "hbsd.pax.noaslr", (5, 0))]
              (0, char1)))
          = ParseOutcome.returned
              ⟨((answers [(cstr "hbsd.pax.aslr", (0, char1)),
                  (cstr "hbsd.pax.noaslr", (5, 0))] (0, char1)) e1.fs_ea_attribute).1,
                0, row_names (pre ++ [e1])⟩ :=
  parse_hard_error hbsdHeader 1
    (vnode_of [cstr "hbsd.pax.segvguard", cstr "hbsd.pax.noaslr", cstr "hbsd.pax.aslr"]
      (answers [(cstr "hbsd.pax.aslr", (0, char1)), (cstr "hbsd.pax.noaslr", (5, 0))]
        (0, char1)))
    [true, true, true, false, false, false, false, false, false, false, false, false] (by decide)
    ⟨cstr "hbsd.pax.noaslr", hbsdHeader.PAX_NOTE_NOASLR⟩ (by decide) (by decide)

/-! ## Empty lists -/

/-- C10. When the size query succeeds and reports a list size of 0, the call
returns 0, stores the zero mask and fetches no attribute value (whatever the
status of the subsystem). -/
theorem parse_empty_list (h : PaxHeader) (status : Int) (vp : Vnode)
    (herr : vp.size_error = 0) (hsize : vp.fsea_list_size = 0) :
    pax_hbsdcontrol_parse_fsea_flags h status vp = ParseOutcome.returned ⟨0, 0, []⟩ := by
  unfold pax_hbsdcontrol_parse_fsea_flags
  cases pax_hbsdcontrol_active status with
  | false => simp
  | true =>
    simp only [herr, hsize]
    by_cases he : (0 : Int) = h.EOPNOTSUPP
    · simp [he]
    · simp [he]

/-- C10, instance: a vnode without attributes, whose store would answer every
value fetch with '1'. -/
theorem parse_empty_list_witness :
    pax_hbsdcontrol_parse_fsea_flags hbsdHeader 1 (vnode_of [] (answers [] (0, char1)))
      = ParseOutcome.returned ⟨0, 0, []⟩ :=
  parse_empty_list hbsdHeader 1 (vnode_of [] (answers [] (0, char1))) rfl rfl

/-! ## Bits of the accumulated mask -/

theorem and_two_pow_eq_iff (x k : Nat) : x &&& 2 ^ k = 2 ^ k ↔ x.testBit k = true := by
  rw [Nat.and_two_pow]
  cases x.testBit k with
  | false => simp [(two_pow_ne_zero32 k).symm]
  | true => simp

theorem testBit_u32 (x : Nat) {k : Nat} (hk : k < 32) : (u32 x).testBit k = x.testBit k := by
  unfold u32
  rw [Nat.testBit_mod_two_pow]
  simp [hk]

theorem or_flag_bit_self {b : Nat} (hb : IsFlagBit b) (f : Nat) :
    u32 (f ||| b) &&& b = b := by
  obtain ⟨k, hk, rfl⟩ := hb
  rw [and_two_pow_eq_iff, testBit_u32 _ hk, Nat.testBit_or, Nat.testBit_two_pow_self]
  simp

theorem or_flag_bit_other {b c : Nat} (hb : IsFlagBit b) (hc : IsFlagBit c) (hne : c ≠ b)
    (f : Nat) : u32 (f ||| b) &&& c = c ↔ f &&& c = c := by
  obtain ⟨k, _, rfl⟩ := hb
  obtain ⟨m, hm, rfl⟩ := hc
  have hkm : k ≠ m := fun hh => hne (by rw [hh])
  rw [and_two_pow_eq_iff, and_two_pow_eq_iff, testBit_u32 _ hm, Nat.testBit_or,
    Nat.testBit_two_pow_of_ne hkm]
  simp

theorem clear_flag_bit_self {b : Nat} (hb : IsFlagBit b) (f : Nat) :
    ¬ (f &&& not32 b) &&& b = b := by
  obtain ⟨k, hk, rfl⟩ := hb
  rw [and_two_pow_eq_iff, Nat.testBit_and, testBit_not32_two_pow hk]
  simp

theorem clear_flag_bit_other {b c : Nat} (hb : IsFlagBit b) (hc : IsFlagBit c) (hne : c ≠ b)
    (f : Nat) : (f &&& not32 b) &&& c = c ↔ f &&& c = c := by
  obtain ⟨k, hk, rfl⟩ := hb
  obtain ⟨m, hm, rfl⟩ := hc
  have hkm : k ≠ m := fun hh => hne (by rw [hh])
  rw [and_two_pow_eq_iff, and_two_pow_eq_iff, Nat.testBit_and, testBit_not32_two_pow hk]
  simp [hm, hkm]

theorem flag_bit_clear_iff {b : Nat} (hb : IsFlagBit b) (f : Nat) :
    f &&& b = 0 ↔ ¬ f &&& b = b := by
  obtain ⟨k, _, rfl⟩ := hb
  rcases and_two_pow_cases f k with h0 | h1
  · simp [h0, (two_pow_ne_zero32 k).symm]
  · simp [h1, two_pow_ne_zero32 k]

/-- The bits of the mask after the loop over rows whose fetches all succeed:
a bit is set if a row with that bit was fetched as '1', or if it was set
before and no row with that bit was fetched as '0'. -/
theorem fetch_rows_success (h : PaxHeader) (g : List Byte → Int × Byte) :
    ∀ (rows : List pax_feature_entry) (s : FetchState),
      (∀ x ∈ rows, (g x.fs_ea_attribute).1 = 0) →
      (∀ x ∈ rows, IsFlagBit x.feature_bit) →
      (rows.map fun x => x.feature_bit).Nodup →
      (s.error = 0 → (fetch_rows h g rows s).error = 0)
      ∧ ∀ b, IsFlagBit b →
          ((fetch_rows h g rows s).parsed_flags &&& b = b
            ↔ (∃ x ∈ rows, x.feature_bit = b ∧ (g x.fs_ea_attribute).2 = char1)
              ∨ (s.parsed_flags &&& b = b
                ∧ ∀ x ∈ rows, x.feature_bit = b → (g x.fs_ea_attribute).2 ≠ char0)) := by
  intro rows
  induction rows with
  | nil =>
    intro s _ _ _
    refine ⟨fun hs => hs, fun b _ => ?_⟩
    simp [fetch_rows]
  | cons x rest ih =>
    intro s hok hbits hnd
    have hx0 : (g x.fs_ea_attribute).1 = 0 := hok x (by simp)
    have hokr : ∀ y ∈ rest, (g y.fs_ea_attribute).1 = 0 := fun y hy => hok y (by simp [hy])
    have hxb : IsFlagBit x.feature_bit := hbits x (by simp)
    have hbr : ∀ y ∈ rest, IsFlagBit y.feature_bit := fun y hy => hbits y (by simp [hy])
    rw [List.map_cons, List.nodup_cons] at hnd
    have hfresh : ∀ y ∈ rest, y.feature_bit ≠ x.feature_bit := by
      intro y hy hc
      exact hnd.1 (List.mem_map.2 ⟨y, hy, hc⟩)
    have c01 : char0 ≠ char1 := by decide
    rw [fetch_rows_cons, if_pos hx0]
    by_cases hv0 : (g x.fs_ea_attribute).2 = char0
    · rw [if_pos hv0]
      obtain ⟨ihe, ihb⟩ := ih ⟨s.parsed_flags &&& not32 x.feature_bit,
        (g x.fs_ea_attribute).1, s.fetched ++ [x.fs_ea_attribute]⟩ hokr hbr hnd.2
      refine ⟨fun _ => ihe hx0, fun b hb => ?_⟩
      rw [ihb b hb]
      simp only [List.mem_cons, exists_eq_or_imp, forall_eq_or_imp, hv0]
      by_cases hbx : b = x.feature_bit
      · subst hbx
        have := clear_flag_bit_self hxb s.parsed_flags
        simp [this, c01]
      · have hxb2 : ¬ x.feature_bit = b := fun hc => hbx hc.symm
        rw [clear_flag_bit_other hxb hb hbx]
        simp [hxb2]
    · rw [if_neg hv0]
      by_cases hv1 : (g x.fs_ea_attribute).2 = char1
      · rw [if_pos hv1]
        obtain ⟨ihe, ihb⟩ := ih ⟨u32 (s.parsed_flags ||| x.feature_bit),
          (g x.fs_ea_attribute).1, s.fetched ++ [x.fs_ea_attribute]⟩ hokr hbr hnd.2
        refine ⟨fun _ => ihe hx0, fun b hb => ?_⟩
        rw [ihb b hb]
        simp only [List.mem_cons, exists_eq_or_imp, forall_eq_or_imp, hv1]
        by_cases hbx : b = x.feature_bit
        · subst hbx
          have hset := or_flag_bit_self hxb s.parsed_flags
          have hno : ∀ y ∈ rest, y.feature_bit = x.feature_bit →
              (g y.fs_ea_attribute).2 ≠ char0 := fun y hy hc => absurd hc (hfresh y hy)
          simp only [hset, true_and]
          exact iff_of_true (Or.inr hno) (Or.inl (Or.inl trivial))
        · have hxb2 : ¬ x.feature_bit = b := fun hc => hbx hc.symm
          rw [or_flag_bit_other hxb hb hbx]
          simp [hxb2]
      · rw [if_neg hv1]
        obtain ⟨ihe, ihb⟩ := ih ⟨s.parsed_flags, (g x.fs_ea_attribute).1,
          s.fetched ++ [x.fs_ea_attribute]⟩ hokr hbr hnd.2
        refine ⟨fun _ => ihe hx0, fun b hb => ?_⟩
        rw [ihb b hb]
        simp only [List.mem_cons, exists_eq_or_imp, forall_eq_or_imp]
        simp [hv0, hv1]

theorem flag_bit_ne_zero {b : Nat} (hb : IsFlagBit b) : b ≠ 0 := by
  obtain ⟨k, _, rfl⟩ := hb
  exact two_pow_ne_zero32 k

/-- When every fetch of a present row succeeds, the call returns 0, every
present row is fetched, and the bit of a table row is set in the stored mask
exactly when the row is present and fetched as '1'. -/
theorem parse_success_bits {h : PaxHeader} (hbits : distinct_flag_bits h) {status : Int}
    {vp : Vnode} {fp : List Bool} (hr : reaches_fetch h status vp fp)
    (hok : ∀ x ∈ present_rows fp (pax_features h) 0, (vp.getextattr x.fs_ea_attribute).1 = 0) :
    ∃ r, pax_hbsdcontrol_parse_fsea_flags h status vp = ParseOutcome.returned r
      ∧ r.error = 0
      ∧ r.fetched = row_names (present_rows fp (pax_features h) 0)
      ∧ ∀ x ∈ pax_features h,
          (r.req_extattr_flags &&& x.feature_bit = x.feature_bit
            ↔ x ∈ present_rows fp (pax_features h) 0
              ∧ (vp.getextattr x.fs_ea_attribute).2 = char1) := by
  have hsub := present_rows_sublist fp (pax_features h) 0
  have hrowbits : ∀ x ∈ present_rows fp (pax_features h) 0, IsFlagBit x.feature_bit :=
    fun x hx => hbits.1 x (hsub.subset hx)
  have hnd : ((present_rows fp (pax_features h) 0).map fun x => x.feature_bit).Nodup :=
    List.Nodup.sublist (hsub.map _) hbits.2
  obtain ⟨herr, hb⟩ := fetch_rows_success h vp.getextattr _ ⟨0, 0, []⟩ hok hrowbits hnd
  have herr0 := herr rfl
  have hsoft : ∀ x ∈ present_rows fp (pax_features h) 0,
      ¬ hard_error h (vp.getextattr x.fs_ea_attribute).1 :=
    fun x hx hc => hc.1 (hok x hx)
  have hfet := fetch_rows_fetched_soft h vp.getextattr _ ⟨0, 0, []⟩ hsoft
  refine ⟨_, parse_of_reaches_fetch hr, herr0, ?_, ?_⟩
  · simp only [parse_out, hfet, List.nil_append]
  · intro x hx
    have hxb := hbits.1 x hx
    simp only [parse_out, herr0, ne_eq, not_true_eq_false, if_false]
    rw [hb x.feature_bit hxb]
    constructor
    · rintro (⟨y, hy, hyb, hy1⟩ | ⟨h0, _⟩)
      · have hxy : y = x := List.inj_on_of_nodup_map hbits.2 (hsub.subset hy) hx hyb
        subst hxy
        exact ⟨hy, hy1⟩
      · rw [Nat.zero_and] at h0
        exact absurd h0.symm (flag_bit_ne_zero hxb)
    · rintro ⟨hxp, hx1⟩
      exact Or.inl ⟨x, hxp, rfl, hx1⟩

theorem reaches_fetch_vnode_of (h : PaxHeader) {status : Int}
    (ha : pax_hbsdcontrol_active status = true) (names : List (List Byte))
    (g : List Byte → Int × Byte) (hne : names ≠ [])
    (hwf : ∀ n ∈ names, n.length < 256)
    (hmax : (encode_names names).length ≤ h.IOSIZE_MAX)
    (hint : (encode_names names).length ≤ INT_MAX) :
    reaches_fetch h status (vnode_of names g)
      (mark_names (pax_features h) names (List.replicate (pax_features h).length false)) := by
  refine ⟨ha, rfl, ?_, hmax, rfl, ?_⟩
  · show (encode_names names).length ≠ 0
    cases names with
    | nil => exact absurd rfl hne
    | cons n rest => simp [encode_names]
  · show present_features (pax_features h)
        (fsea_buffer (encode_names names).length (encode_names names)) = _
    rw [fsea_buffer_self, present_features_encode _ _ hwf hint]

/-- A loop in which no row is fetched as '1' leaves a zero mask zero. -/
theorem fetch_rows_no_one (h : PaxHeader) (g : List Byte → Int × Byte) :
    ∀ (rows : List pax_feature_entry) (s : FetchState),
      (∀ x ∈ rows, (g x.fs_ea_attribute).2 ≠ char1) → s.parsed_flags = 0 →
      (fetch_rows h g rows s).parsed_flags = 0 := by
  intro rows
  induction rows with
  | nil => intro s _ hs; exact hs
  | cons x rest ih =>
    intro s hno hs
    have hx : (g x.fs_ea_attribute).2 ≠ char1 := hno x (by simp)
    have hrest : ∀ y ∈ rest, (g y.fs_ea_attribute).2 ≠ char1 :=
      fun y hy => hno y (by simp [hy])
    rw [fetch_rows_cons]
    split
    · split
      · exact ih _ hrest (by simp [hs])
      · exact ih _ hrest hs
    · split
      · exact ih _ hrest hs
      · exact hs

/-! ## Values '1' and '0' -/

/-- C7, as the code has it.  For a registry attribute that is present in the
list and fetched as '1', when all fetches succeed the call returns 0 and the
stored mask has the bit of that row set.  The bit of any table row, the paired
row included, is set exactly when that row is itself present and fetched as
'1', and clear otherwise: fetching `X` as '1' does not clear the bit of
`noX`. -/
theorem parse_value_one (h : PaxHeader) (hbits : distinct_flag_bits h) (status : Int)
    (vp : Vnode) (fp : List Bool) (hr : reaches_fetch h status vp fp)
    (hok : ∀ x ∈ present_rows fp (pax_features h) 0, (vp.getextattr x.fs_ea_attribute).1 = 0)
    (e : pax_feature_entry) (he : e ∈ present_rows fp (pax_features h) 0)
    (h1 : (vp.getextattr e.fs_ea_attribute).2 = char1) :
    ∃ r, pax_hbsdcontrol_parse_fsea_flags h status vp = ParseOutcome.returned r
      ∧ r.error = 0
      ∧ r.req_extattr_flags &&& e.feature_bit = e.feature_bit
      ∧ ∀ x ∈ pax_features h,
          (x ∈ present_rows fp (pax_features h) 0
              ∧ (vp.getextattr x.fs_ea_attribute).2 = char1 →
            r.req_extattr_flags &&& x.feature_bit = x.feature_bit)
          ∧ (¬ (x ∈ present_rows fp (pax_features h) 0
                ∧ (vp.getextattr x.fs_ea_attribute).2 = char1) →
              r.req_extattr_flags &&& x.feature_bit = 0) := by
  obtain ⟨r, hret, herr, _, hb⟩ := parse_success_bits hbits hr hok
  have hsub := present_rows_sublist fp (pax_features h) 0
  refine ⟨r, hret, herr, (hb e (hsub.subset he)).2 ⟨he, h1⟩, fun x hx => ⟨?_, ?_⟩⟩
  · exact fun hp => (hb x hx).2 hp
  · intro hnp
    rw [flag_bit_clear_iff (hbits.1 x hx)]
    exact fun hc => hnp ((hb x hx).1 hc)

/-- C7, instance: "hbsd.pax.aslr" fetched as '1' and "hbsd.pax.noaslr" fetched
as '0'. -/
theorem parse_value_one_witness :
    ∃ r, pax_hbsdcontrol_parse_fsea_flags hbsdHeader 1
          (vnode_of [cstr "hbsd.pax.noaslr", cstr "hbsd.pax.aslr"]
            (answers [(cstr "hbsd.pax.aslr", (0, char1))] (0, char0)))
        = ParseOutcome.returned r
      ∧ r.error = 0
      ∧ r.req_extattr_flags &&& hbsdHeader.PAX_NOTE_ASLR = hbsdHeader.PAX_NOTE_ASLR
      ∧ r.req_extattr_flags &&& hbsdHeader.PAX_NOTE_NOASLR = 0 :=
  have ⟨r, hret, herr, hset, hall⟩ := parse_value_one hbsdHeader (by decide) 1
    (vnode_of [cstr "hbsd.pax.noaslr", cstr "hbsd.pax.aslr"]
      (answers [(cstr "hbsd.pax.aslr", (0, char1))] (0, char0)))
    [true, true, false, false, false, false, false, false, false, false, false, false]
    (by decide) (by decide) ⟨cstr "hbsd.pax.aslr", hbsdHeader.PAX_NOTE_ASLR⟩
    (by decide) (by decide)
  ⟨r, hret, herr, hset,
    (hall ⟨cstr "hbsd.pax.noaslr", hbsdHeader.PAX_NOTE_NOASLR⟩ (by decide)).2 (by decide)⟩

/-- C7 fails as stated: with "hbsd.pax.aslr" and "hbsd.pax.noaslr" both
present and both fetched as '1', the call succeeds with mask `0xc0`, in which
`PAX_NOTE_ASLR` is set and the paired `PAX_NOTE_NOASLR` is set as well, not
clear. -/
theorem parse_value_one_paired_bit_set :
    pax_hbsdcontrol_parse_fsea_flags hbsdHeader 1
        (vnode_of [cstr "hbsd.pax.aslr", cstr "hbsd.pax.noaslr"] (answers [] (0, char1)))
      = ParseOutcome.returned ⟨0, 0xc0, [cstr "hbsd.pax.aslr", cstr "hbsd.pax.noaslr"]⟩
    ∧ 0xc0 &&& hbsdHeader.PAX_NOTE_ASLR = hbsdHeader.PAX_NOTE_ASLR
    ∧ 0xc0 &&& hbsdHeader.PAX_NOTE_NOASLR ≠ 0 := by
  decide

/-- C8, as the code has it.  For a registry attribute that is present in the
list and fetched as '0', when all fetches succeed the call returns 0 and the
stored mask has the bit of that row clear.  The paired bit is not set on its
account: the bit of a table row is set exactly when that row is itself present
and fetched as '1', and the mask is zero when no present row is fetched as
'1' (as for the single entry "hbsd.pax.aslr" fetched as '0'). -/
theorem parse_value_zero (h : PaxHeader) (hbits : distinct_flag_bits h) (status : Int)
    (vp : Vnode) (fp : List Bool) (hr : reaches_fetch h status vp fp)
    (hok : ∀ x ∈ present_rows fp (pax_features h) 0, (vp.getextattr x.fs_ea_attribute).1 = 0)
    (e : pax_feature_entry) (he : e ∈ present_rows fp (pax_features h) 0)
    (h0 : (vp.getextattr e.fs_ea_attribute).2 = char0) :
    ∃ r, pax_hbsdcontrol_parse_fsea_flags h status vp = ParseOutcome.returned r
      ∧ r.error = 0
      ∧ r.req_extattr_flags &&& e.feature_bit = 0
      ∧ (∀ x ∈ pax_features h,
          (r.req_extattr_flags &&& x.feature_bit = x.feature_bit
            ↔ x ∈ present_rows fp (pax_features h) 0
              ∧ (vp.getextattr x.fs_ea_attribute).2 = char1))
      ∧ ((∀ x ∈ present_rows fp (pax_features h) 0,
            (vp.getextattr x.fs_ea_attribute).2 ≠ char1) →
          r.req_extattr_flags = 0) := by
  obtain ⟨r, hret, herr, _, hb⟩ := parse_success_bits hbits hr hok
  have hsub := present_rows_sublist fp (pax_features h) 0
  have hex := hsub.subset he
  refine ⟨r, hret, herr, ?_, hb, ?_⟩
  · rw [flag_bit_clear_iff (hbits.1 e hex)]
    intro hc
    have h1 := ((hb e hex).1 hc).2
    rw [h0] at h1
    exact absurd h1 (by decide)
  · intro hno
    have hr2 := parse_of_reaches_fetch hr
    rw [hret] at hr2
    cases hr2
    have hz := fetch_rows_no_one h vp.getextattr _ ⟨0, 0, []⟩ hno rfl
    simp only [parse_out, hz, ite_self]

/-- C8, instance: the single entry "hbsd.pax.aslr" fetched as '0' gives the
zero mask, in which `PAX_NOTE_ASLR` and `PAX_NOTE_NOASLR` are both clear. -/
theorem parse_value_zero_witness :
    ∃ r, pax_hbsdcontrol_parse_fsea_flags hbsdHeader 1
          (vnode_of [cstr "hbsd.pax.aslr"] (answers [] (0, char0)))
        = ParseOutcome.returned r
      ∧ r.error = 0
      ∧ r.req_extattr_flags &&& hbsdHeader.PAX_NOTE_ASLR = 0
      ∧ r.req_extattr_flags = 0 :=
  have ⟨r, hret, herr, hclear, _, hzero⟩ := parse_value_zero hbsdHeader (by decide) 1
    (vnode_of [cstr "hbsd.pax.aslr"] (answers [] (0, char0)))
    [true, false, false, false, false, false, false, false, false, false, false, false]
    (by decide) (by decide) ⟨cstr "hbsd.pax.aslr", hbsdHeader.PAX_NOTE_ASLR⟩
    (by decide) (by decide)
  ⟨r, hret, herr, hclear, hzero (by decide)⟩

/-- C8 fails as stated: for the single entry "hbsd.pax.aslr" fetched as '0' the
call stores the zero mask, in which `PAX_NOTE_NOASLR` is not set. -/
theorem parse_value_zero_no_disable_bit :
    pax_hbsdcontrol_parse_fsea_flags hbsdHeader 1
        (vnode_of [cstr "hbsd.pax.aslr"] (answers [] (0, char0)))
      = ParseOutcome.returned ⟨0, 0, [cstr "hbsd.pax.aslr"]⟩
    ∧ 0 &&& hbsdHeader.PAX_NOTE_NOASLR ≠ hbsdHeader.PAX_NOTE_NOASLR := by
  decide

/-! ## The stale `ENOATTR` -/

/-- C5, the code at the failing inputs.  The list holds the single name
"hbsd.pax.aslr" and its fetch reports `ENOATTR`: the call returns `ENOATTR`
(87), not 0.  With "hbsd.pax.aslr" fetched as '1' and "hbsd.pax.noaslr"
reporting `ENOATTR`, the call returns `ENOATTR` and the mask accumulated from
"hbsd.pax.aslr" is discarded.  The error survives only when it comes from the
last present row: with "hbsd.pax.aslr" reporting `ENOATTR` and
"hbsd.pax.noaslr" fetched as '1' the call returns 0. -/
theorem parse_enoattr_returned :
    pax_hbsdcontrol_parse_fsea_flags hbsdHeader 1
        (vnode_of [cstr "hbsd.pax.aslr"] (answers [] (hbsdHeader.ENOATTR, 0)))
      = ParseOutcome.returned ⟨87, 0, [cstr "hbsd.pax.aslr"]⟩
    ∧ pax_hbsdcontrol_parse_fsea_flags hbsdHeader 1
        (vnode_of [cstr "hbsd.pax.aslr", cstr "hbsd.pax.noaslr"]
          (answers [(cstr "hbsd.pax.aslr", (0, char1))] (hbsdHeader.ENOATTR, 0)))
      = ParseOutcome.returned ⟨87, 0, [cstr "hbsd.pax.aslr", cstr "hbsd.pax.noaslr"]⟩
    ∧ pax_hbsdcontrol_parse_fsea_flags hbsdHeader 1
        (vnode_of [cstr "hbsd.pax.aslr", cstr "hbsd.pax.noaslr"]
          (answers [(cstr "hbsd.pax.noaslr", (0, char1))] (hbsdHeader.ENOATTR, 0)))
      = ParseOutcome.returned ⟨0, 0x80, [cstr "hbsd.pax.aslr", cstr "hbsd.pax.noaslr"]⟩ := by
  decide

/-- C9, the code at the failing input.  "hbsd.pax.aslr" is fetched as '1',
"hbsd.pax.noaslr" reports `ENOATTR`, and "hbsd.pax.segvguard" is fetched as
the byte 'x'.  With all three listed the call returns 0 with mask `0x40`;
with "hbsd.pax.segvguard" removed from the list it returns `ENOATTR` (87) with
the zero mask. -/
theorem parse_unknown_byte_not_neutral :
    pax_hbsdcontrol_parse_fsea_flags hbsdHeader 1
        (vnode_of [cstr "hbsd.pax.aslr", cstr "hbsd.pax.noaslr", cstr "hbsd.pax.segvguard"]
          (answers [(cstr "hbsd.pax.aslr", (0, char1)),
            (cstr "hbsd.pax.noaslr", (hbsdHeader.ENOATTR, 0))] (0, Fin.ofNat 'x'.toNat)))
      = ParseOutcome.returned ⟨0, 0x40,
          [cstr "hbsd.pax.aslr", cstr "hbsd.pax.noaslr", cstr "hbsd.pax.segvguard"]⟩
    ∧ pax_hbsdcontrol_parse_fsea_flags hbsdHeader 1
        (vnode_of [cstr "hbsd.pax.aslr", cstr "hbsd.pax.noaslr"]
          (answers [(cstr "hbsd.pax.aslr", (0, char1)),
            (cstr "hbsd.pax.noaslr", (hbsdHeader.ENOATTR, 0))] (0, Fin.ofNat 'x'.toNat)))
      = ParseOutcome.returned ⟨87, 0, [cstr "hbsd.pax.aslr", cstr "hbsd.pax.noaslr"]⟩ := by
  decide

/-! ## Startup sanitisation -/

theorem sysinit_map32bit (k : Kernel) :
    (pax_hardening_sysinit k).pax_disallow_map32bit_status_global
      = if status_case k.pax_disallow_map32bit_status_global
        then k.pax_disallow_map32bit_status_global
        else (PAX_FEATURE_FORCE_ENABLED : Int) := by
  unfold pax_hardening_sysinit
  by_cases h1 : status_case k.pax_disallow_map32bit_status_global <;>
  by_cases h2 : simple_case k.pax_procfs_harden_global <;>
  by_cases h3 : simple_case k.pax_randomize_pids_global <;>
  by_cases h4 : simple_case k.pax_init_hardening_global <;>
  simp [h1, h2, h3, h4]

theorem sysinit_procfs (k : Kernel) :
    (pax_hardening_sysinit k).pax_procfs_harden_global
      = if simple_case k.pax_procfs_harden_global
        then k.pax_procfs_harden_global
        else PAX_FEATURE_SIMPLE_ENABLED := by
  unfold pax_hardening_sysinit
  by_cases h1 : status_case k.pax_disallow_map32bit_status_global <;>
  by_cases h2 : simple_case k.pax_procfs_harden_global <;>
  by_cases h3 : simple_case k.pax_randomize_pids_global <;>
  by_cases h4 : simple_case k.pax_init_hardening_global <;>
  simp [h1, h2, h3, h4]

theorem sysinit_randomize_pids (k : Kernel) :
    (pax_hardening_sysinit k).pax_randomize_pids_global
      = if simple_case k.pax_randomize_pids_global
        then k.pax_randomize_pids_global
        else PAX_FEATURE_SIMPLE_ENABLED := by
  unfold pax_hardening_sysinit
  by_cases h1 : status_case k.pax_disallow_map32bit_status_global <;>
  by_cases h2 : simple_case k.pax_procfs_harden_global <;>
  by_cases h3 : simple_case k.pax_randomize_pids_global <;>
  by_cases h4 : simple_case k.pax_init_hardening_global <;>
  simp [h1, h2, h3, h4]

theorem sysinit_init_hardening (k : Kernel) :
    (pax_hardening_sysinit k).pax_init_hardening_global
      = if simple_case k.pax_init_hardening_global
        then k.pax_init_hardening_global
        else PAX_FEATURE_SIMPLE_ENABLED := by
  unfold pax_hardening_sysinit
  by_cases h1 : status_case k.pax_disallow_map32bit_status_global <;>
  by_cases h2 : simple_case k.pax_procfs_harden_global <;>
  by_cases h3 : simple_case k.pax_randomize_pids_global <;>
  by_cases h4 : simple_case k.pax_init_hardening_global <;>
  simp [h1, h2, h3, h4]

theorem sysinit_prisons (k : Kernel) : (pax_hardening_sysinit k).prisons = k.prisons := by
  unfold pax_hardening_sysinit
  by_cases h1 : status_case k.pax_disallow_map32bit_status_global <;>
  by_cases h2 : simple_case k.pax_procfs_harden_global <;>
  by_cases h3 : simple_case k.pax_randomize_pids_global <;>
  by_cases h4 : simple_case k.pax_init_hardening_global <;>
  simp [h1, h2, h3, h4]

theorem kernel_ext {a b : Kernel}
    (h1 : a.pax_disallow_map32bit_status_global = b.pax_disallow_map32bit_status_global)
    (h2 : a.pax_procfs_harden_global = b.pax_procfs_harden_global)
    (h3 : a.pax_randomize_pids_global = b.pax_randomize_pids_global)
    (h4 : a.pax_init_hardening_global = b.pax_init_hardening_global)
    (h5 : a.prisons = b.prisons) : a = b := by
  cases a
  cases b
  simp only [Kernel.mk.injEq]
  exact ⟨h1, h2, h3, h4, h5⟩

theorem status_case_force_enabled : status_case (PAX_FEATURE_FORCE_ENABLED : Int) :=
  Or.inr (Or.inr (Or.inr rfl))

theorem simple_case_enabled : simple_case PAX_FEATURE_SIMPLE_ENABLED := Or.inr rfl

theorem sysinit_map32bit_legal (k : Kernel) :
    status_case (pax_hardening_sysinit k).pax_disallow_map32bit_status_global := by
  rw [sysinit_map32bit]
  split
  · assumption
  · exact status_case_force_enabled

theorem sysinit_procfs_legal (k : Kernel) :
    simple_case (pax_hardening_sysinit k).pax_procfs_harden_global := by
  rw [sysinit_procfs]
  split
  · assumption
  · exact simple_case_enabled

/-- C17. `pax_hardening_sysinit` replaces an out-of-range mmap-32-bit default
(not one of 0, 1, 2, 3) by ForceEnabled (3) and an out-of-range procfs-harden
default (not 0 or 1) by Enabled (1), and leaves in-range values unchanged.
After it both defaults are legal enumerators, and running it again changes
nothing. -/
theorem sysinit_sanitises (k : Kernel) :
    (status_case k.pax_disallow_map32bit_status_global →
      (pax_hardening_sysinit k).pax_disallow_map32bit_status_global
        = k.pax_disallow_map32bit_status_global)
    ∧ (¬ status_case k.pax_disallow_map32bit_status_global →
        (pax_hardening_sysinit k).pax_disallow_map32bit_status_global = 3)
    ∧ (simple_case k.pax_procfs_harden_global →
        (pax_hardening_sysinit k).pax_procfs_harden_global = k.pax_procfs_harden_global)
    ∧ (¬ simple_case k.pax_procfs_harden_global →
        (pax_hardening_sysinit k).pax_procfs_harden_global = 1)
    ∧ status_case (pax_hardening_sysinit k).pax_disallow_map32bit_status_global
    ∧ simple_case (pax_hardening_sysinit k).pax_procfs_harden_global
    ∧ pax_hardening_sysinit (pax_hardening_sysinit k) = pax_hardening_sysinit k := by
  refine ⟨fun hs => ?_, fun hs => ?_, fun hs => ?_, fun hs => ?_,
    sysinit_map32bit_legal k, sysinit_procfs_legal k, ?_⟩
  · rw [sysinit_map32bit, if_pos hs]
  · rw [sysinit_map32bit, if_neg hs]; rfl
  · rw [sysinit_procfs, if_pos hs]
  · rw [sysinit_procfs, if_neg hs]; rfl
  · apply kernel_ext
    · rw [sysinit_map32bit, if_pos (sysinit_map32bit_legal k)]
    · rw [sysinit_procfs, if_pos (sysinit_procfs_legal k)]
    · rw [sysinit_randomize_pids (pax_hardening_sysinit k)]
      have : simple_case (pax_hardening_sysinit k).pax_randomize_pids_global := by
        rw [sysinit_randomize_pids]
        split
        · assumption
        · exact simple_case_enabled
      rw [if_pos this]
    · rw [sysinit_init_hardening (pax_hardening_sysinit k)]
      have : simple_case (pax_hardening_sysinit k).pax_init_hardening_global := by
        rw [sysinit_init_hardening]
        split
        · assumption
        · exact simple_case_enabled
      rw [if_pos this]
    · rw [sysinit_prisons]

/-- C17, instance: configured defaults 9 (mmap-32-bit) and -4 (procfs) become
3 and 1; the configured defaults 1 and 0 stay. -/
theorem sysinit_sanitises_witness :
    (pax_hardening_sysinit
        { sample_kernel with pax_disallow_map32bit_status_global := 9,
                             pax_procfs_harden_global := -4 }).pax_disallow_map32bit_status_global
      = 3
    ∧ (pax_hardening_sysinit
        { sample_kernel with pax_disallow_map32bit_status_global := 9,
                             pax_procfs_harden_global := -4 }).pax_procfs_harden_global = 1
    ∧ (pax_hardening_sysinit
        { sample_kernel with pax_disallow_map32bit_status_global := 1,
                             pax_procfs_harden_global := 0 }).pax_disallow_map32bit_status_global
      = 1
    ∧ (pax_hardening_sysinit
        { sample_kernel with pax_disallow_map32bit_status_global := 1,
                             pax_procfs_harden_global := 0 }).pax_procfs_harden_global = 0 :=
  ⟨(sysinit_sanitises _).2.1 (by decide), (sysinit_sanitises _).2.2.2.1 (by decide),
   (sysinit_sanitises _).1 (by decide), (sysinit_sanitises _).2.2.1 (by decide)⟩

/-! ## Administrative writes -/

theorem sysctl_map32bit_accept (h : PaxHeader) (k : Kernel) (pr : Nat) (v : Int)
    (hv : status_case v) :
    sysctl_pax_disallow_map32bit h k pr ⟨0, some v⟩
      = (0, { (if pr = prison0 then { k with pax_disallow_map32bit_status_global := v }
                else k) with
              prisons := (Function.update k.prisons pr
                ⟨(k.prisons pr).pr_parent,
                  ⟨v, (k.prisons pr).pr_hardening.hr_pax_procfs_harden⟩⟩) }) := by
  unfold sysctl_pax_disallow_map32bit
  by_cases hp : pr = prison0 <;> simp [hv, hp]

theorem sysctl_map32bit_reject (h : PaxHeader) (k : Kernel) (pr : Nat) (v : Int)
    (hv : ¬ status_case v) :
    sysctl_pax_disallow_map32bit h k pr ⟨0, some v⟩ = (h.EINVAL, k) := by
  unfold sysctl_pax_disallow_map32bit
  simp [hv]

theorem sysctl_procfs_accept (h : PaxHeader) (k : Kernel) (pr : Nat) (v : Int)
    (hv : ¬ (v > 1 ∨ v < -1)) :
    sysctl_pax_procfs h k pr ⟨0, some v⟩
      = (0, { (if pr = prison0 then { k with pax_procfs_harden_global := v } else k) with
              prisons := (Function.update k.prisons pr
                ⟨(k.prisons pr).pr_parent,
                  ⟨(k.prisons pr).pr_hardening.hr_pax_disallow_map32bit_status, v⟩⟩) }) := by
  unfold sysctl_pax_procfs
  by_cases hp : pr = prison0
  · simp only [hp]
    simp [hv]
  · simp only [hp]
    simp [hv]

theorem sysctl_procfs_reject (h : PaxHeader) (k : Kernel) (pr : Nat) (v : Int)
    (hv : v > 1 ∨ v < -1) :
    sysctl_pax_procfs h k pr ⟨0, some v⟩ = (h.EINVAL, k) := by
  unfold sysctl_pax_procfs
  simp [hv]

/-- A request handled for prison `pr` leaves every other prison as it was. -/
theorem sysctl_map32bit_other_prison (h : PaxHeader) (k : Kernel) (pr q : Nat)
    (req : sysctl_req) (hq : q ≠ pr) :
    (sysctl_pax_disallow_map32bit h k pr req).2.prisons q = k.prisons q := by
  unfold sysctl_pax_disallow_map32bit
  dsimp only
  by_cases hc : req.error ≠ 0 ∨ req.newptr = none
  · rw [if_pos hc]
  · rw [if_neg hc]
    by_cases hv : status_case
        (req.newptr.getD (k.prisons pr).pr_hardening.hr_pax_disallow_map32bit_status)
    · rw [if_pos hv]
      by_cases hp : pr = prison0 <;> simp [hp, Function.update_noteq hq]
    · rw [if_neg hv]

/-- A request handled for prison `pr` leaves every other prison as it was. -/
theorem sysctl_procfs_other_prison (h : PaxHeader) (k : Kernel) (pr q : Nat)
    (req : sysctl_req) (hq : q ≠ pr) :
    (sysctl_pax_procfs h k pr req).2.prisons q = k.prisons q := by
  unfold sysctl_pax_procfs
  dsimp only
  by_cases hc : req.error ≠ 0 ∨ req.newptr = none
  · rw [if_pos hc]
  · rw [if_neg hc]
    by_cases hv : req.newptr.getD (k.prisons pr).pr_hardening.hr_pax_procfs_harden > 1
        ∨ req.newptr.getD (k.prisons pr).pr_hardening.hr_pax_procfs_harden < -1
    · rw [if_pos hv]
    · rw [if_neg hv]
      by_cases hp : pr = prison0 <;> simp [hp, Function.update_noteq hq]

/-- C14. A set of the mmap-32-bit status with a value outside `{0, 1, 2, 3}`
returns `EINVAL` and changes nothing (neither the stored status of the
container nor the process-wide default); with a value inside the set it
returns 0 and the stored status of the container equals the value. -/
theorem sysctl_map32bit_validates (h : PaxHeader) (k : Kernel) (pr : Nat) (v : Int) :
    (¬ (v = 0 ∨ v = 1 ∨ v = 2 ∨ v = 3) →
      sysctl_pax_disallow_map32bit h k pr ⟨0, some v⟩ = (h.EINVAL, k))
    ∧ ((v = 0 ∨ v = 1 ∨ v = 2 ∨ v = 3) →
        (sysctl_pax_disallow_map32bit h k pr ⟨0, some v⟩).1 = 0
        ∧ ((sysctl_pax_disallow_map32bit h k pr ⟨0, some v⟩).2.prisons
              pr).pr_hardening.hr_pax_disallow_map32bit_status = v) := by
  refine ⟨fun hv => sysctl_map32bit_reject h k pr v hv, fun hv => ?_⟩
  rw [sysctl_map32bit_accept h k pr v hv]
  simp

/-- C14, instance: in prison 1 the value 7 is refused with `EINVAL` (22) and
the value 3 is stored. -/
theorem sysctl_map32bit_validates_witness :
    sysctl_pax_disallow_map32bit hbsdHeader sample_kernel 1 ⟨0, some 7⟩
      = (hbsdHeader.EINVAL, sample_kernel)
    ∧ (sysctl_pax_disallow_map32bit hbsdHeader sample_kernel 1 ⟨0, some 3⟩).1 = 0
    ∧ ((sysctl_pax_disallow_map32bit hbsdHeader sample_kernel 1 ⟨0, some 3⟩).2.prisons
          1).pr_hardening.hr_pax_disallow_map32bit_status = 3 :=
  ⟨(sysctl_map32bit_validates hbsdHeader sample_kernel 1 7).1 (by decide),
   (sysctl_map32bit_validates hbsdHeader sample_kernel 1 3).2 (by decide)⟩

/-- C15, the code at the failing input.  The value -1 is not one of the
enumerators 0 and 1, yet the range test `val > 1 || val < -1` lets it pass:
the call returns 0 and stores -1 in the container, and for `prison0` also in
the process-wide default.  The values 2 and -2 are refused with `EINVAL`
(22). -/
theorem sysctl_procfs_accepts_minus_one :
    ¬ simple_case (-1)
    ∧ (sysctl_pax_procfs hbsdHeader sample_kernel 1 ⟨0, some (-1)⟩).1 = 0
    ∧ ((sysctl_pax_procfs hbsdHeader sample_kernel 1 ⟨0, some (-1)⟩).2.prisons
          1).pr_hardening.hr_pax_procfs_harden = -1
    ∧ (sysctl_pax_procfs hbsdHeader sample_kernel prison0 ⟨0, some (-1)⟩).1 = 0
    ∧ (sysctl_pax_procfs hbsdHeader sample_kernel prison0
          ⟨0, some (-1)⟩).2.pax_procfs_harden_global = -1
    ∧ (sysctl_pax_procfs hbsdHeader sample_kernel 1 ⟨0, some 2⟩).1 = 22
    ∧ (sysctl_pax_procfs hbsdHeader sample_kernel 1 ⟨0, some (-2)⟩).1 = 22 := by
  decide

/-- C16. For both features, a successful set in `prison0` updates the entry
of `prison0` and the process-wide default of that feature; a successful set in
any other container updates only the entry of that container for that feature.
In both cases every other container, the other feature of the container and
the other process-wide defaults keep their values. -/
theorem sysctl_set_frame (h : PaxHeader) (k : Kernel) (pr : Nat) (v : Int) :
    (status_case v →
      (sysctl_pax_disallow_map32bit h k pr ⟨0, some v⟩).1 = 0
      ∧ ((sysctl_pax_disallow_map32bit h k pr ⟨0, some v⟩).2.prisons pr).pr_hardening
          = ⟨v, (k.prisons pr).pr_hardening.hr_pax_procfs_harden⟩
      ∧ (pr = prison0 →
          (sysctl_pax_disallow_map32bit h k pr
            ⟨0, some v⟩).2.pax_disallow_map32bit_status_global = v)
      ∧ (pr ≠ prison0 →
          (sysctl_pax_disallow_map32bit h k pr
            ⟨0, some v⟩).2.pax_disallow_map32bit_status_global
            = k.pax_disallow_map32bit_status_global)
      ∧ (sysctl_pax_disallow_map32bit h k pr ⟨0, some v⟩).2.pax_procfs_harden_global
          = k.pax_procfs_harden_global
      ∧ ∀ q, q ≠ pr →
          (sysctl_pax_disallow_map32bit h k pr ⟨0, some v⟩).2.prisons q = k.prisons q)
    ∧ (¬ (v > 1 ∨ v < -1) →
        (sysctl_pax_procfs h k pr ⟨0, some v⟩).1 = 0
        ∧ ((sysctl_pax_procfs h k pr ⟨0, some v⟩).2.prisons pr).pr_hardening
            = ⟨(k.prisons pr).pr_hardening.hr_pax_disallow_map32bit_status, v⟩
        ∧ (pr = prison0 →
            (sysctl_pax_procfs h k pr ⟨0, some v⟩).2.pax_procfs_harden_global = v)
        ∧ (pr ≠ prison0 →
            (sysctl_pax_procfs h k pr ⟨0, some v⟩).2.pax_procfs_harden_global
              = k.pax_procfs_harden_global)
        ∧ (sysctl_pax_procfs h k pr ⟨0, some v⟩).2.pax_disallow_map32bit_status_global
            = k.pax_disallow_map32bit_status_global
        ∧ ∀ q, q ≠ pr → (sysctl_pax_procfs h k pr ⟨0, some v⟩).2.prisons q = k.prisons q) := by
  refine ⟨fun hv => ?_, fun hv => ?_⟩
  · refine ⟨?_, ?_, ?_, ?_, ?_, fun q hq => sysctl_map32bit_other_prison h k pr q _ hq⟩
    · rw [sysctl_map32bit_accept h k pr v hv]
    · rw [sysctl_map32bit_accept h k pr v hv]; simp
    · intro hp; rw [sysctl_map32bit_accept h k pr v hv]; simp [hp]
    · intro hp; rw [sysctl_map32bit_accept h k pr v hv]; simp [hp]
    · rw [sysctl_map32bit_accept h k pr v hv]
      by_cases hp : pr = prison0 <;> simp [hp]
  · refine ⟨?_, ?_, ?_, ?_, ?_, fun q hq => sysctl_procfs_other_prison h k pr q _ hq⟩
    · rw [sysctl_procfs_accept h k pr v hv]
    · rw [sysctl_procfs_accept h k pr v hv]; simp
    · intro hp; rw [sysctl_procfs_accept h k pr v hv]; simp [hp]
    · intro hp; rw [sysctl_procfs_accept h k pr v hv]; simp [hp]
    · rw [sysctl_procfs_accept h k pr v hv]
      by_cases hp : pr = prison0 <;> simp [hp]

/-- C16, instance: setting the mmap-32-bit status to 1 in `prison0` also sets
the default to 1; setting it in prison 2 leaves the default at 2 and prison 1
as it was. -/
theorem sysctl_set_frame_witness :
    (sysctl_pax_disallow_map32bit hbsdHeader sample_kernel prison0
        ⟨0, some 1⟩).2.pax_disallow_map32bit_status_global = 1
    ∧ (sysctl_pax_disallow_map32bit hbsdHeader sample_kernel 2
        ⟨0, some 1⟩).2.pax_disallow_map32bit_status_global = 2
    ∧ (sysctl_pax_disallow_map32bit hbsdHeader sample_kernel 2 ⟨0, some 1⟩).2.prisons 1
        = sample_kernel.prisons 1 :=
  ⟨((sysctl_set_frame hbsdHeader sample_kernel prison0 1).1 (by decide)).2.2.1 rfl,
   ((sysctl_set_frame hbsdHeader sample_kernel 2 1).1 (by decide)).2.2.2.1 (by decide),
   ((sysctl_set_frame hbsdHeader sample_kernel 2 1).1 (by decide)).2.2.2.2.2 1 (by decide)⟩

/-! ## Inheritance -/

theorem init_prison_child (k : Kernel) (pr p : Nat) (hroot : pr ≠ prison0)
    (hpar : (k.prisons pr).pr_parent = some p) :
    pax_hardening_init_prison k pr
      = some { k with prisons := (Function.update k.prisons pr
          ⟨(k.prisons pr).pr_parent,
            ⟨(k.prisons p).pr_hardening.hr_pax_disallow_map32bit_status,
             (k.prisons p).pr_hardening.hr_pax_procfs_harden⟩⟩) } := by
  unfold pax_hardening_init_prison
  rw [if_neg hroot, hpar]

/-- C13. Inheritance is a one-shot copy.  `pax_hardening_init_prison` on a
container other than `prison0`, whose parent is another container, succeeds
and leaves the container with the mmap-32-bit status and the procfs-harden
value of its parent, which the call does not change.  In any later state, a
set request handled for the parent (successful or not, for either feature)
leaves the stored policy of the child unchanged. -/
theorem init_prison_inherits (h : PaxHeader) (k : Kernel) (pr p : Nat)
    (hroot : pr ≠ prison0) (hpar : (k.prisons pr).pr_parent = some p) (hne : p ≠ pr) :
    ∃ k1, pax_hardening_init_prison k pr = some k1
      ∧ (k1.prisons pr).pr_hardening = (k.prisons p).pr_hardening
      ∧ k1.prisons p = k.prisons p
      ∧ ∀ (k2 : Kernel) (req : sysctl_req),
          (sysctl_pax_disallow_map32bit h k2 p req).2.prisons pr = k2.prisons pr
          ∧ (sysctl_pax_procfs h k2 p req).2.prisons pr = k2.prisons pr := by
  refine ⟨_, init_prison_child k pr p hroot hpar, ?_, ?_, fun k2 req => ?_⟩
  · simp
  · simp [Function.update_noteq hne]
  · exact ⟨sysctl_map32bit_other_prison h k2 p pr req (Ne.symm hne),
      sysctl_procfs_other_prison h k2 p pr req (Ne.symm hne)⟩

/-- C13, instance: prison 1 is initialised from `prison0` (status 2, procfs
hardening 1); a later set of the status of `prison0` to 0 does not reach
prison 1. -/
theorem init_prison_inherits_witness :
    ∃ k1, pax_hardening_init_prison sample_kernel 1 = some k1
      ∧ (k1.prisons 1).pr_hardening = ⟨2, 1⟩
      ∧ ((sysctl_pax_disallow_map32bit hbsdHeader k1 0 ⟨0, some 0⟩).2.prisons 1).pr_hardening
          = ⟨2, 1⟩ :=
  have ⟨k1, hk1, hcopy, _, hlater⟩ :=
    init_prison_inherits hbsdHeader sample_kernel 1 0 (by decide) rfl (by decide)
  ⟨k1, hk1, hcopy, by rw [(hlater k1 ⟨0, some 0⟩).1]; exact hcopy⟩

/-! ## Resolved flags and the mmap check -/

/-- The value of `pax_hardening_setup_flags` in closed form, when the two
macros are distinct single bits. -/
theorem setup_flags_resolved (h : PaxHeader)
    (hD : IsFlagBit h.PAX_NOTE_DISALLOWMAP32BIT)
    (hN : IsFlagBit h.PAX_NOTE_NODISALLOWMAP32BIT)
    (hDN : h.PAX_NOTE_DISALLOWMAP32BIT ≠ h.PAX_NOTE_NODISALLOWMAP32BIT)
    (status mode : Nat) :
    pax_hardening_setup_flags h status mode
      = if status = PAX_FEATURE_DISABLED then h.PAX_NOTE_NODISALLOWMAP32BIT
        else if status = PAX_FEATURE_FORCE_ENABLED then h.PAX_NOTE_DISALLOWMAP32BIT
        else if status = PAX_FEATURE_OPTIN then
          (if mode &&& h.PAX_NOTE_DISALLOWMAP32BIT = h.PAX_NOTE_DISALLOWMAP32BIT
            then h.PAX_NOTE_DISALLOWMAP32BIT else h.PAX_NOTE_NODISALLOWMAP32BIT)
        else if status = PAX_FEATURE_OPTOUT then
          (if mode &&& h.PAX_NOTE_NODISALLOWMAP32BIT = h.PAX_NOTE_NODISALLOWMAP32BIT
            then h.PAX_NOTE_NODISALLOWMAP32BIT else h.PAX_NOTE_DISALLOWMAP32BIT)
        else h.PAX_NOTE_DISALLOWMAP32BIT := by
  unfold pax_hardening_setup_flags
  dsimp only
  by_cases h0 : status = PAX_FEATURE_DISABLED
  · rw [if_pos h0, if_pos h0]
    exact setup_flags_unrestricted hN
  · rw [if_neg h0, if_neg h0]
    by_cases h3 : status = PAX_FEATURE_FORCE_ENABLED
    · rw [if_pos h3, if_pos h3]
      exact setup_flags_restricted_cs hD
    · rw [if_neg h3, if_neg h3]
      by_cases h1 : status = PAX_FEATURE_OPTIN
      · rw [if_pos h1, if_pos h1]
        by_cases hm : mode &&& h.PAX_NOTE_DISALLOWMAP32BIT ≠ 0
        · rw [if_pos hm, if_pos ((and_flag_bit_ne_zero_iff hD mode).1 hm)]
          exact setup_flags_restricted hD hN hDN
        · rw [if_neg hm, if_neg (fun hc => hm ((and_flag_bit_ne_zero_iff hD mode).2 hc))]
          exact setup_flags_unrestricted hN
      · rw [if_neg h1, if_neg h1]
        by_cases h2 : status = PAX_FEATURE_OPTOUT
        · rw [if_pos h2, if_pos h2]
          by_cases hm : mode &&& h.PAX_NOTE_NODISALLOWMAP32BIT ≠ 0
          · rw [if_pos hm, if_pos ((and_flag_bit_ne_zero_iff hN mode).1 hm)]
            exact setup_flags_unrestricted_sc hD hN hDN
          · rw [if_neg hm, if_neg (fun hc => hm ((and_flag_bit_ne_zero_iff hN mode).2 hc))]
            exact setup_flags_restricted_cs hD
        · rw [if_neg h2, if_neg h2]
          exact setup_flags_restricted hD hN hDN

theorem setup_flags_one_of (h : PaxHeader)
    (hD : IsFlagBit h.PAX_NOTE_DISALLOWMAP32BIT)
    (hN : IsFlagBit h.PAX_NOTE_NODISALLOWMAP32BIT)
    (hDN : h.PAX_NOTE_DISALLOWMAP32BIT ≠ h.PAX_NOTE_NODISALLOWMAP32BIT)
    (status mode : Nat) :
    pax_hardening_setup_flags h status mode = h.PAX_NOTE_DISALLOWMAP32BIT
    ∨ pax_hardening_setup_flags h status mode = h.PAX_NOTE_NODISALLOWMAP32BIT := by
  rw [setup_flags_resolved h hD hN hDN]
  split
  · exact Or.inr rfl
  · split
    · exact Or.inl rfl
    · split
      · split
        · exact Or.inl rfl
        · exact Or.inr rfl
      · split
        · split
          · exact Or.inr rfl
          · exact Or.inl rfl
        · exact Or.inl rfl

/-- C18. For every status, legal or not, and every request mask, the flags
returned by `pax_hardening_setup_flags` are exactly
`PAX_NOTE_DISALLOWMAP32BIT` or exactly `PAX_NOTE_NODISALLOWMAP32BIT`: one of
the two bits is set, the other is clear, and no other bit is set.  Hence for a
request with `MAP_32BIT`, `pax_disallow_map32bit_active` on those flags passes
one of its first two tests (the final default-deny branch is not reached) and
denies exactly when the resolved flags are the restricted ones. -/
theorem resolved_flags_single_bit (h : PaxHeader)
    (hD : IsFlagBit h.PAX_NOTE_DISALLOWMAP32BIT)
    (hN : IsFlagBit h.PAX_NOTE_NODISALLOWMAP32BIT)
    (hDN : h.PAX_NOTE_DISALLOWMAP32BIT ≠ h.PAX_NOTE_NODISALLOWMAP32BIT)
    (status mode mmap_flags : Nat) (hm : mmap_flags &&& h.MAP_32BIT = h.MAP_32BIT) :
    (pax_hardening_setup_flags h status mode = h.PAX_NOTE_DISALLOWMAP32BIT
      ∨ pax_hardening_setup_flags h status mode = h.PAX_NOTE_NODISALLOWMAP32BIT)
    ∧ (pax_hardening_setup_flags h status mode &&& h.PAX_NOTE_DISALLOWMAP32BIT
          = h.PAX_NOTE_DISALLOWMAP32BIT
        ↔ pax_hardening_setup_flags h status mode &&& h.PAX_NOTE_NODISALLOWMAP32BIT = 0)
    ∧ (pax_hardening_setup_flags h status mode &&& h.PAX_NOTE_DISALLOWMAP32BIT
          = h.PAX_NOTE_DISALLOWMAP32BIT
        ∨ pax_hardening_setup_flags h status mode &&& h.PAX_NOTE_NODISALLOWMAP32BIT
          = h.PAX_NOTE_NODISALLOWMAP32BIT)
    ∧ (pax_disallow_map32bit_active h (pax_hardening_setup_flags h status mode) mmap_flags
          = true
        ↔ pax_hardening_setup_flags h status mode = h.PAX_NOTE_DISALLOWMAP32BIT) := by
  have hND : h.PAX_NOTE_NODISALLOWMAP32BIT &&& h.PAX_NOTE_DISALLOWMAP32BIT = 0 :=
    flag_bit_and_flag_bit hN hD (Ne.symm hDN)
  have hDN0 : h.PAX_NOTE_DISALLOWMAP32BIT &&& h.PAX_NOTE_NODISALLOWMAP32BIT = 0 :=
    flag_bit_and_flag_bit hD hN hDN
  have hD0 : h.PAX_NOTE_DISALLOWMAP32BIT ≠ 0 := flag_bit_ne_zero hD
  have hN0 : h.PAX_NOTE_NODISALLOWMAP32BIT ≠ 0 := flag_bit_ne_zero hN
  have hm2 : ¬ mmap_flags &&& h.MAP_32BIT ≠ h.MAP_32BIT := fun hc => hc hm
  rcases setup_flags_one_of h hD hN hDN status mode with hf | hf
  · rw [hf]
    refine ⟨Or.inl rfl, ?_, Or.inl (Nat.and_self _), ?_⟩
    · simp [Nat.and_self, hDN0]
    · unfold pax_disallow_map32bit_active
      simp [hm, Nat.and_self]
  · rw [hf]
    refine ⟨Or.inr rfl, ?_, Or.inr (Nat.and_self _), ?_⟩
    · simp [Nat.and_self, hND, hD0.symm, hN0]
    · unfold pax_disallow_map32bit_active
      simp [hm, Nat.and_self, hND, hD0.symm, Ne.symm hDN]

/-- C18, instance: status OptOut with an empty request resolves to `0x400`,
and a `MAP_32BIT` request (`0x80000`) is denied on it. -/
theorem resolved_flags_single_bit_witness :
    pax_hardening_setup_flags hbsdHeader PAX_FEATURE_OPTOUT 0 = 0x400
    ∧ pax_disallow_map32bit_active hbsdHeader
        (pax_hardening_setup_flags hbsdHeader PAX_FEATURE_OPTOUT 0) 0x80000 = true :=
  have t := resolved_flags_single_bit hbsdHeader (by decide) (by decide) (by decide)
    PAX_FEATURE_OPTOUT 0 0x80000 (by decide)
  have e : pax_hardening_setup_flags hbsdHeader PAX_FEATURE_OPTOUT 0 = 0x400 := by decide
  ⟨e, t.2.2.2.2 e⟩

/-! ## The parser on well-formed lists -/

theorem present_rows_eq_filter (fp : List Bool) (q : pax_feature_entry → Bool) :
    ∀ (features : List pax_feature_entry) (i : Nat),
      (∀ k e, features[k]? = some e → fp.getD (i + k) false = q e) →
      present_rows fp features i = features.filter q := by
  intro features
  induction features with
  | nil => intro i _; rfl
  | cons e rest ih =>
    intro i hq
    have hhead : fp.getD i false = q e := hq 0 e (by simp)
    have htail : ∀ k x, rest[k]? = some x → fp.getD (i + 1 + k) false = q x := by
      intro k x hk
      have := hq (k + 1) x (by simpa using hk)
      rw [← this]
      congr 1
      omega
    cases hqe : q e with
    | false =>
      rw [present_rows_absent (hhead.trans hqe), ih (i + 1) htail, List.filter_cons_of_neg]
      simp [hqe]
    | true =>
      rw [present_rows_present (hhead.trans hqe), ih (i + 1) htail, List.filter_cons_of_pos hqe]

/-- After the walk over a well-formed list, the present rows are the rows of
the table whose name is in the list, in table order. -/
theorem present_rows_mark (h : PaxHeader) (names : List (List Byte)) :
    present_rows
        (mark_names (pax_features h) names (List.replicate (pax_features h).length false))
        (pax_features h) 0
      = listed_rows h names := by
  apply present_rows_eq_filter
  intro k e hk
  rw [Nat.zero_add]
  have hiff := mark_names_present h names k e hk
  by_cases hmem : e.fs_ea_attribute ∈ names
  · rw [hiff.2 hmem]
    simp [hmem]
  · have hne : ¬ (mark_names (pax_features h) names
        (List.replicate (pax_features h).length false)).getD k false = true :=
      fun hc => hmem (hiff.1 hc)
    rw [Bool.not_eq_true] at hne
    rw [hne]
    simp [hmem]

/-- The size test in front of the list read. -/
theorem parse_too_large (h : PaxHeader) (status : Int) (vp : Vnode)
    (ha : pax_hbsdcontrol_active status = true) (herr : vp.size_error = 0)
    (hbig : vp.fsea_list_size > h.IOSIZE_MAX) :
    pax_hbsdcontrol_parse_fsea_flags h status vp
      = ParseOutcome.returned (parse_out ⟨0, h.ENOMEM, []⟩) := by
  unfold pax_hbsdcontrol_parse_fsea_flags
  have hne : vp.fsea_list_size ≠ 0 := by omega
  simp [ha, herr, hne, hbig]

theorem parse_inactive (h : PaxHeader) (status : Int) (vp : Vnode)
    (ha : pax_hbsdcontrol_active status = false) :
    pax_hbsdcontrol_parse_fsea_flags h status vp = ParseOutcome.returned ⟨0, 0, []⟩ := by
  unfold pax_hbsdcontrol_parse_fsea_flags
  simp [ha]

/-- The call on a well-formed list within `IOSIZE_MAX` and `INT_MAX`, with
the subsystem active: the value fetch loop over the listed rows, then the
label `out`. -/
theorem parse_vnode_of (h : PaxHeader) (status : Int)
    (ha : pax_hbsdcontrol_active status = true) (names : List (List Byte))
    (g : List Byte → Int × Byte) (hwf : ∀ n ∈ names, n.length < 256)
    (hmax : (encode_names names).length ≤ h.IOSIZE_MAX)
    (hint : (encode_names names).length ≤ INT_MAX) :
    pax_hbsdcontrol_parse_fsea_flags h status (vnode_of names g)
      = ParseOutcome.returned (parse_out (fetch_rows h g (listed_rows h names) ⟨0, 0, []⟩)) := by
  cases names with
  | nil =>
    have hl : listed_rows h [] = [] := by simp [listed_rows]
    rw [hl]
    unfold pax_hbsdcontrol_parse_fsea_flags
    simp [ha, vnode_of, encode_names, fetch_rows, parse_out]
  | cons n rest =>
    have hr := reaches_fetch_vnode_of h ha (n :: rest) g (by simp) hwf hmax hint
    rw [parse_of_reaches_fetch hr, present_rows_mark]
    rfl

/-- On a well-formed list longer than `INT_MAX` bytes the cursor overflows
before the walk is through. -/
theorem walk_list_encode_overflow (features : List pax_feature_entry) :
    ∀ (names : List (List Byte)), (∀ n ∈ names, n.length < 256) →
      ∀ (pre : List Byte) (fuel : Nat) (fp : List Bool), names.length < fuel →
        pre.length ≤ INT_MAX → INT_MAX < (pre ++ encode_names names).length →
        walk_list features (pre ++ encode_names names) fuel pre.length fp
          = Walk.cursorOverflow := by
  intro names
  induction names with
  | nil =>
    intro _ pre fuel fp _ hpre hbig
    simp only [encode_names, List.append_nil] at hbig
    omega
  | cons n rest ih =>
    intro hwf pre fuel fp hf hprelen hbig
    obtain ⟨f, rfl⟩ : ∃ f, fuel = f + 1 := ⟨fuel - 1, by simp at hf; omega⟩
    have hn : n.length < 256 := hwf n (by simp)
    have hrest : ∀ m ∈ rest, m.length < 256 := fun m hm => hwf m (by simp [hm])
    have hval : ((Fin.ofNat n.length : Byte)).val = n.length := by
      show n.length % 256 = n.length
      exact Nat.mod_eq_of_lt hn
    have hi : pre.length < (pre ++ encode_names (n :: rest)).length := by
      simp [encode_names]
    have hget : ((pre ++ encode_names (n :: rest)).getD pre.length 0).val = n.length := by
      rw [List.getD_append_right _ _ _ _ (le_refl _)]
      simp [encode_names, hval]
    have hpre : pre ++ encode_names (n :: rest)
        = (pre ++ (Fin.ofNat n.length : Byte) :: n) ++ encode_names rest := by
      simp [encode_names]
    have hlen : pre.length + 1 + n.length
        = (pre ++ (Fin.ofNat n.length : Byte) :: n).length := by
      simp; omega
    have hbig2 : INT_MAX
        < ((pre ++ (Fin.ofNat n.length : Byte) :: n) ++ encode_names rest).length := by
      rw [← hpre]; exact hbig
    rw [walk_list, if_pos hi]
    simp only [hget]
    by_cases ho1 : INT_MAX < pre.length + 1
    · rw [if_pos ho1]
    · rw [if_neg ho1]
      have hscan := scan_features_entry pre n (encode_names rest) (Fin.ofNat n.length)
        features 0
      have henc : pre ++ encode_names (n :: rest)
          = pre ++ (Fin.ofNat n.length : Byte) :: (n ++ encode_names rest) := by
        simp [encode_names]
      rw [henc, hscan]
      have hf2 : rest.length < f := by simp at hf; omega
      by_cases ho2 : INT_MAX < pre.length + 1 + n.length
      · cases hfind : find_feature n features 0 with
        | none => simp only [hfind]; rw [if_pos ho2]
        | some k => simp only [hfind]; rw [if_pos ho2]
      · have hle : (pre ++ (Fin.ofNat n.length : Byte) :: n).length ≤ INT_MAX := by
          rw [← hlen]; omega
        cases hfind : find_feature n features 0 with
        | none =>
          simp only [hfind]
          rw [if_neg ho2, ← henc, hpre, hlen]
          exact ih hrest _ f fp hf2 hle hbig2
        | some k =>
          simp only [hfind]
          rw [if_neg ho2, ← henc, hpre, hlen]
          exact ih hrest _ f _ hf2 hle hbig2

theorem present_features_encode_overflow (features : List pax_feature_entry)
    (names : List (List Byte)) (hwf : ∀ n ∈ names, n.length < 256)
    (hbig : INT_MAX < (encode_names names).length) :
    present_features features (encode_names names) = Walk.cursorOverflow := by
  have := walk_list_encode_overflow features names hwf [] ((encode_names names).length + 1)
    (List.replicate features.length false)
    (by have := encode_names_length_ge names; omega) (Nat.zero_le _) (by simpa using hbig)
  simpa [present_features] using this

/-- The call on a well-formed list that passes the `IOSIZE_MAX` test but is
longer than `INT_MAX` bytes does not return: the cursor overflows. -/
theorem parse_vnode_of_overflow (h : PaxHeader) (status : Int)
    (ha : pax_hbsdcontrol_active status = true) (names : List (List Byte))
    (g : List Byte → Int × Byte) (hwf : ∀ n ∈ names, n.length < 256)
    (hmax : (encode_names names).length ≤ h.IOSIZE_MAX)
    (hbig : INT_MAX < (encode_names names).length) :
    pax_hbsdcontrol_parse_fsea_flags h status (vnode_of names g)
      = ParseOutcome.cursorOverflow := by
  have hwalk : present_features (pax_features h)
      (fsea_buffer (vnode_of names g).fsea_list_size (vnode_of names g).list_data)
        = Walk.cursorOverflow := by
    show present_features (pax_features h)
        (fsea_buffer (encode_names names).length (encode_names names)) = _
    rw [fsea_buffer_self, present_features_encode_overflow _ _ hwf hbig]
  have hse : (vnode_of names g).size_error = 0 := rfl
  have hle : (vnode_of names g).list_error = 0 := rfl
  have hsz : (vnode_of names g).fsea_list_size ≠ 0 := by
    show (encode_names names).length ≠ 0
    omega
  have hmax2 : ¬ (vnode_of names g).fsea_list_size > h.IOSIZE_MAX := by
    show ¬ (encode_names names).length > h.IOSIZE_MAX
    omega
  unfold pax_hbsdcontrol_parse_fsea_flags
  simp only [ha, hse, hsz, hmax2, hle, hwalk]
  simp

/-! ## Failures of the listing -/

/-- C11, as the code has it.  With the subsystem active, `EOPNOTSUPP` is
swallowed only when the size query reports it: the call then returns 0 with
the zero mask.  Every other error of the size query, and every error of the
list read (`EOPNOTSUPP` included), is returned with the zero mask. -/
theorem parse_listing_errors (h : PaxHeader) (status : Int)
    (ha : pax_hbsdcontrol_active status = true) (vp : Vnode) :
    (vp.size_error = h.EOPNOTSUPP → vp.size_error ≠ 0 →
      pax_hbsdcontrol_parse_fsea_flags h status vp = ParseOutcome.returned ⟨0, 0, []⟩)
    ∧ (vp.size_error ≠ 0 → vp.size_error ≠ h.EOPNOTSUPP →
        pax_hbsdcontrol_parse_fsea_flags h status vp
          = ParseOutcome.returned ⟨vp.size_error, 0, []⟩)
    ∧ (vp.size_error = 0 → vp.fsea_list_size ≠ 0 → vp.fsea_list_size ≤ h.IOSIZE_MAX →
        vp.list_error ≠ 0 →
        pax_hbsdcontrol_parse_fsea_flags h status vp
          = ParseOutcome.returned ⟨vp.list_error, 0, []⟩) := by
  refine ⟨fun he h0 => ?_, fun h0 he => ?_, fun hs hz hmax hl => ?_⟩
  · unfold pax_hbsdcontrol_parse_fsea_flags
    have h0e : h.EOPNOTSUPP ≠ 0 := he ▸ h0
    simp [ha, he, h0e]
  · unfold pax_hbsdcontrol_parse_fsea_flags
    simp [ha, h0, he]
  · unfold pax_hbsdcontrol_parse_fsea_flags
    have hmax2 : ¬ vp.fsea_list_size > h.IOSIZE_MAX := by omega
    simp [ha, hs, hz, hmax2, hl, parse_out]

/-- C11, instance: the size query fails with `EOPNOTSUPP` (45), with `EIO`
(5), and the list read fails with `EIO`. -/
theorem parse_listing_errors_witness :
    pax_hbsdcontrol_parse_fsea_flags hbsdHeader 1 ⟨45, 0, 0, [], answers [] (0, char1)⟩
      = ParseOutcome.returned ⟨0, 0, []⟩
    ∧ pax_hbsdcontrol_parse_fsea_flags hbsdHeader 1 ⟨5, 0, 0, [], answers [] (0, char1)⟩
      = ParseOutcome.returned ⟨5, 0, []⟩
    ∧ pax_hbsdcontrol_parse_fsea_flags hbsdHeader 1 ⟨0, 14, 5, [], answers [] (0, char1)⟩
      = ParseOutcome.returned ⟨5, 0, []⟩ :=
  ⟨(parse_listing_errors hbsdHeader 1 (by decide)
      ⟨45, 0, 0, [], answers [] (0, char1)⟩).1 (by decide) (by decide),
   (parse_listing_errors hbsdHeader 1 (by decide)
      ⟨5, 0, 0, [], answers [] (0, char1)⟩).2.1 (by decide) (by decide),
   (parse_listing_errors hbsdHeader 1 (by decide)
      ⟨0, 14, 5, [], answers [] (0, char1)⟩).2.2 (by decide) (by decide) (by decide)
      (by decide)⟩

/-- C11 fails as stated: when the size query succeeds (size 14) and the list
read reports `EOPNOTSUPP` (45), the call returns 45, not 0. -/
theorem parse_list_read_eopnotsupp_returned :
    hbsdHeader.EOPNOTSUPP = 45
    ∧ pax_hbsdcontrol_parse_fsea_flags hbsdHeader 1
        ⟨0, 14, hbsdHeader.EOPNOTSUPP, [], answers [] (0, char1)⟩
      = ParseOutcome.returned ⟨45, 0, []⟩
    ∧ (45 : Int) ≠ 0 := by
  decide

/-! ## Malformed lists -/

/-- C12, the code at the failing inputs.  The list `[13, 'h']` of declared size
2 has a final entry whose length byte 13 exceeds the one byte that remains; 13
is the length of "hbsd.pax.aslr", so `memcmp` is asked to compare the 13 bytes
at indices 1 to 13 and reads beyond the declared size.  The list `[5, 'a']`
has a final entry whose length byte 5 exceeds the one byte that remains; 5 is
the length of no registry name, no comparison is made, and the call returns 0
rather than an error. -/
theorem parse_malformed_list_unchecked :
    scan_features [13, 104] 1 13 (pax_features hbsdHeader) 0 = Scan.outOfBounds
    ∧ pax_hbsdcontrol_parse_fsea_flags hbsdHeader 1
        ⟨0, 2, 0, [13, 104], answers [] (0, char1)⟩
      = ParseOutcome.outOfBounds
    ∧ pax_hbsdcontrol_parse_fsea_flags hbsdHeader 1
        ⟨0, 2, 0, [5, 97], answers [] (0, char1)⟩
      = ParseOutcome.returned ⟨0, 0, []⟩ := by
  decide

/-! ## Order and multiplicity of the list entries -/

theorem listed_rows_congr (h : PaxHeader) (names1 names2 : List (List Byte))
    (hsame : ∀ e ∈ pax_features h, (e.fs_ea_attribute ∈ names1 ↔ e.fs_ea_attribute ∈ names2)) :
    listed_rows h names1 = listed_rows h names2 := by
  unfold listed_rows
  apply List.filter_congr
  intro e he
  have := hsame e he
  by_cases h1 : e.fs_ea_attribute ∈ names1
  · simp [h1, this.1 h1]
  · have h2 : ¬ e.fs_ea_attribute ∈ names2 := fun hc => h1 (this.2 hc)
    simp [h1, h2]

theorem encode_names_replicate (k : Nat) (n : List Byte) :
    (encode_names (List.replicate k n)).length = k * (n.length + 1) := by
  induction k with
  | zero => simp [encode_names]
  | succ m ih =>
    rw [List.replicate_succ, encode_names, List.length_cons, List.length_append, ih]
    ring

/-- C19, as the code has it.  For two well-formed lists, each no longer than
`IOSIZE_MAX` bytes and no longer than `INT_MAX` bytes (the range of the `int`
cursor), that hold the same registry names (in any order, with any
multiplicity, with any unknown names besides) and the same fetch function, the
call returns, and it returns the same error code, stores the same mask and
fetches the same attributes. -/
theorem parse_order_independent (h : PaxHeader) (status : Int)
    (names1 names2 : List (List Byte)) (g : List Byte → Int × Byte)
    (hwf1 : ∀ n ∈ names1, n.length < 256) (hwf2 : ∀ n ∈ names2, n.length < 256)
    (hmax1 : (encode_names names1).length ≤ h.IOSIZE_MAX)
    (hmax2 : (encode_names names2).length ≤ h.IOSIZE_MAX)
    (hint1 : (encode_names names1).length ≤ INT_MAX)
    (hint2 : (encode_names names2).length ≤ INT_MAX)
    (hsame : ∀ e ∈ pax_features h, (e.fs_ea_attribute ∈ names1 ↔ e.fs_ea_attribute ∈ names2)) :
    ∃ r, pax_hbsdcontrol_parse_fsea_flags h status (vnode_of names1 g)
          = ParseOutcome.returned r
      ∧ pax_hbsdcontrol_parse_fsea_flags h status (vnode_of names2 g)
          = ParseOutcome.returned r := by
  cases ha : pax_hbsdcontrol_active status with
  | false => exact ⟨_, parse_inactive h status _ ha, parse_inactive h status _ ha⟩
  | true =>
    refine ⟨_, parse_vnode_of h status ha names1 g hwf1 hmax1 hint1, ?_⟩
    rw [parse_vnode_of h status ha names2 g hwf2 hmax2 hint2,
      listed_rows_congr h names1 names2 hsame]

/-- C19, instance: the names "hbsd.pax.noaslr", "user.x", "hbsd.pax.aslr",
"hbsd.pax.noaslr" against "hbsd.pax.aslr", "hbsd.pax.noaslr". -/
theorem parse_order_independent_witness :
    ∃ r, pax_hbsdcontrol_parse_fsea_flags hbsdHeader 1
          (vnode_of [cstr "hbsd.pax.noaslr", cstr "user.x", cstr "hbsd.pax.aslr",
              cstr "hbsd.pax.noaslr"]
            (answers [(cstr "hbsd.pax.aslr", (0, char1))] (0, char0)))
          = ParseOutcome.returned r
      ∧ pax_hbsdcontrol_parse_fsea_flags hbsdHeader 1
          (vnode_of [cstr "hbsd.pax.aslr", cstr "hbsd.pax.noaslr"]
            (answers [(cstr "hbsd.pax.aslr", (0, char1))] (0, char0)))
          = ParseOutcome.returned r :=
  parse_order_independent hbsdHeader 1
    [cstr "hbsd.pax.noaslr", cstr "user.x", cstr "hbsd.pax.aslr", cstr "hbsd.pax.noaslr"]
    [cstr "hbsd.pax.aslr", cstr "hbsd.pax.noaslr"]
    (answers [(cstr "hbsd.pax.aslr", (0, char1))] (0, char0))
    (by decide) (by decide) (by decide) (by decide) (by decide) (by decide) (by decide)

/-- Whatever the value of `IOSIZE_MAX`, the list that holds one name
`IOSIZE_MAX + 1` times is refused by the size test with `ENOMEM`. -/
theorem parse_replicate_over_iosize_max (h : PaxHeader) (n : List Byte)
    (g : List Byte → Int × Byte) :
    pax_hbsdcontrol_parse_fsea_flags h 1
        (vnode_of (List.replicate (h.IOSIZE_MAX + 1) n) g)
      = ParseOutcome.returned (parse_out ⟨0, h.ENOMEM, []⟩) := by
  have hsize : (vnode_of (List.replicate (h.IOSIZE_MAX + 1) n) g).fsea_list_size
      = (h.IOSIZE_MAX + 1) * (n.length + 1) :=
    encode_names_replicate (h.IOSIZE_MAX + 1) n
  have hbig : h.IOSIZE_MAX < (h.IOSIZE_MAX + 1) * (n.length + 1) :=
    Nat.lt_of_lt_of_le (Nat.lt_succ_self _) (Nat.le_mul_of_pos_right _ (Nat.succ_pos _))
  exact parse_too_large h 1 _ (by decide) rfl (by rw [hsize]; exact hbig)

/-- C19 fails as stated, whether `IOSIZE_MAX` is `INT_MAX` or the largest
`ssize_t`: the list holding "hbsd.pax.aslr" once and the list holding it
`IOSIZE_MAX + 1` times contain the same set of entry names, and the attribute
is fetched as '1' for both, but the second list is longer than `IOSIZE_MAX` and
the call returns `ENOMEM` (12) with an empty mask for it, where it returns 0
with the bit of the feature for the first. -/
theorem parse_multiplicity_over_iosize_max :
    ((∀ n, n ∈ List.replicate (hbsdHeader.IOSIZE_MAX + 1) (cstr "hbsd.pax.aslr")
          ↔ n ∈ [cstr "hbsd.pax.aslr"])
      ∧ pax_hbsdcontrol_parse_fsea_flags hbsdHeader 1
          (vnode_of [cstr "hbsd.pax.aslr"] (answers [] (0, char1)))
        = ParseOutcome.returned ⟨0, 0x40, [cstr "hbsd.pax.aslr"]⟩
      ∧ pax_hbsdcontrol_parse_fsea_flags hbsdHeader 1
          (vnode_of (List.replicate (hbsdHeader.IOSIZE_MAX + 1) (cstr "hbsd.pax.aslr"))
            (answers [] (0, char1)))
        = ParseOutcome.returned ⟨12, 0, []⟩)
    ∧ ((∀ n, n ∈ List.replicate (hbsdHeader64.IOSIZE_MAX + 1) (cstr "hbsd.pax.aslr")
          ↔ n ∈ [cstr "hbsd.pax.aslr"])
      ∧ pax_hbsdcontrol_parse_fsea_flags hbsdHeader64 1
          (vnode_of [cstr "hbsd.pax.aslr"] (answers [] (0, char1)))
        = ParseOutcome.returned ⟨0, 0x40, [cstr "hbsd.pax.aslr"]⟩
      ∧ pax_hbsdcontrol_parse_fsea_flags hbsdHeader64 1
          (vnode_of (List.replicate (hbsdHeader64.IOSIZE_MAX + 1) (cstr "hbsd.pax.aslr"))
            (answers [] (0, char1)))
        = ParseOutcome.returned ⟨12, 0, []⟩) := by
  refine ⟨⟨fun n => ?_, by decide, ?_⟩, ⟨fun n => ?_, by decide, ?_⟩⟩
  · rw [List.mem_replicate]
    simp
  · rw [parse_replicate_over_iosize_max hbsdHeader]
    rfl
  · rw [List.mem_replicate]
    simp
  · rw [parse_replicate_over_iosize_max hbsdHeader64]
    rfl

/-! ## The mask of a successful parse -/

theorem flag_bit_lt {b : Nat} (hb : IsFlagBit b) : b < 2 ^ 32 := by
  obtain ⟨k, hk, rfl⟩ := hb
  exact Nat.pow_lt_pow_right (by decide) hk

theorem u32_of_lt {x : Nat} (hx : x < 2 ^ 32) : u32 x = x := Nat.mod_eq_of_lt hx

theorem or_and_right (x y z : Nat) : (x ||| y) &&& z = (x &&& z) ||| (y &&& z) := by
  rw [Nat.and_comm, Nat.and_or_distrib_left, Nat.and_comm z x, Nat.and_comm z y]

/-- Clearing a bit that is not set changes nothing. -/
theorem and_not32_of_clear {f b : Nat} (hf : f < 2 ^ 32) (hb : IsFlagBit b)
    (hclear : f &&& b = 0) : f &&& not32 b = f := by
  obtain ⟨k, hk, rfl⟩ := hb
  have hfk : f.testBit k = false := by
    cases hv : f.testBit k with
    | false => rfl
    | true =>
      have := (and_two_pow_eq_iff f k).2 hv
      rw [hclear] at this
      exact absurd this.symm (two_pow_ne_zero32 k)
  apply Nat.eq_of_testBit_eq
  intro i
  rw [Nat.testBit_and, testBit_not32_two_pow hk]
  by_cases hki : k = i
  · subst hki
    simp [hfk]
  · by_cases hi : i < 32
    · simp [hki, hi]
    · have : f.testBit i = false :=
        Nat.testBit_lt_two_pow (Nat.lt_of_lt_of_le hf
          (Nat.pow_le_pow_right (by decide) (Nat.le_of_not_lt hi)))
      simp [this]

theorem or_bits_and_other :
    ∀ (rows : List pax_feature_entry) (c : Nat),
      (∀ x ∈ rows, x.feature_bit &&& c = 0) → or_bits rows &&& c = 0 := by
  intro rows
  induction rows with
  | nil => intro c _; exact Nat.zero_and c
  | cons x rest ih =>
    intro c hall
    rw [or_bits, or_and_right, hall x (by simp), ih c (fun y hy => hall y (by simp [hy]))]
    rfl

theorem or_bits_and_mem :
    ∀ (rows : List pax_feature_entry) (x : pax_feature_entry), x ∈ rows →
      or_bits rows &&& x.feature_bit = x.feature_bit := by
  intro rows
  induction rows with
  | nil => intro x hx; cases hx
  | cons y rest ih =>
    intro x hx
    apply Nat.eq_of_testBit_eq
    intro i
    rcases List.mem_cons.1 hx with rfl | hin
    · rw [or_bits, Nat.testBit_and, Nat.testBit_or]
      cases x.feature_bit.testBit i <;> simp
    · have := congrArg (fun v => v.testBit i) (ih x hin)
      simp only [Nat.testBit_and] at this
      rw [or_bits, Nat.testBit_and, Nat.testBit_or]
      cases hx2 : x.feature_bit.testBit i with
      | false => simp
      | true =>
        rw [hx2] at this
        simp only [Bool.and_true] at this
        simp [this]

theorem or_bits_lt :
    ∀ (rows : List pax_feature_entry), (∀ x ∈ rows, IsFlagBit x.feature_bit) →
      or_bits rows < 2 ^ 32 := by
  intro rows
  induction rows with
  | nil => intro _; exact Nat.two_pow_pos 32
  | cons x rest ih =>
    intro hall
    exact Nat.or_lt_two_pow (flag_bit_lt (hall x (by simp)))
      (ih (fun y hy => hall y (by simp [hy])))

/-- The mask after the loop over rows none of which fails hard, started from
a mask that holds none of their bits: the bits of the rows fetched as '1' are
added to it. -/
theorem fetch_rows_or (h : PaxHeader) (g : List Byte → Int × Byte) :
    ∀ (rows : List pax_feature_entry) (s : FetchState),
      (∀ x ∈ rows, ¬ hard_error h (g x.fs_ea_attribute).1) →
      (∀ x ∈ rows, IsFlagBit x.feature_bit) →
      (rows.map fun x => x.feature_bit).Nodup →
      s.parsed_flags < 2 ^ 32 →
      (∀ x ∈ rows, s.parsed_flags &&& x.feature_bit = 0) →
      (fetch_rows h g rows s).parsed_flags
        = s.parsed_flags ||| or_bits (rows.filter (fetched_one g)) := by
  intro rows
  induction rows with
  | nil =>
    intro s _ _ _ _ _
    simp [fetch_rows, or_bits]
  | cons x rest ih =>
    intro s hsoft hbits hnd hlt hdis
    have hx : ¬ hard_error h (g x.fs_ea_attribute).1 := hsoft x (by simp)
    have hsr : ∀ y ∈ rest, ¬ hard_error h (g y.fs_ea_attribute).1 :=
      fun y hy => hsoft y (by simp [hy])
    have hxb : IsFlagBit x.feature_bit := hbits x (by simp)
    have hbr : ∀ y ∈ rest, IsFlagBit y.feature_bit := fun y hy => hbits y (by simp [hy])
    have hdx : s.parsed_flags &&& x.feature_bit = 0 := hdis x (by simp)
    have hdr : ∀ y ∈ rest, s.parsed_flags &&& y.feature_bit = 0 :=
      fun y hy => hdis y (by simp [hy])
    rw [List.map_cons, List.nodup_cons] at hnd
    have hfresh : ∀ y ∈ rest, x.feature_bit ≠ y.feature_bit := by
      intro y hy hc
      exact hnd.1 (List.mem_map.2 ⟨y, hy, hc.symm⟩)
    have c01 : char0 ≠ char1 := by decide
    rw [fetch_rows_cons]
    by_cases h0 : (g x.fs_ea_attribute).1 = 0
    · rw [if_pos h0]
      by_cases hv0 : (g x.fs_ea_attribute).2 = char0
      · have hf : fetched_one g x = false := by
          simp [fetched_one, hv0, c01]
        rw [if_pos hv0, List.filter_cons_of_neg (by simp [hf])]
        have hsame : s.parsed_flags &&& not32 x.feature_bit = s.parsed_flags :=
          and_not32_of_clear hlt hxb hdx
        rw [ih _ hsr hbr hnd.2 (by simpa [hsame] using hlt) (by simpa [hsame] using hdr)]
        simp only [hsame]
      · rw [if_neg hv0]
        by_cases hv1 : (g x.fs_ea_attribute).2 = char1
        · have hf : fetched_one g x = true := by
            simp [fetched_one, h0, hv1]
          have hor : u32 (s.parsed_flags ||| x.feature_bit)
              = s.parsed_flags ||| x.feature_bit :=
            u32_of_lt (Nat.or_lt_two_pow hlt (flag_bit_lt hxb))
          rw [if_pos hv1, List.filter_cons_of_pos hf, or_bits]
          rw [ih _ hsr hbr hnd.2]
          · simp only [hor]
            exact Nat.or_assoc _ _ _
          · simp only [hor]
            exact Nat.or_lt_two_pow hlt (flag_bit_lt hxb)
          · intro y hy
            simp only [hor]
            rw [or_and_right, hdr y hy,
              flag_bit_and_flag_bit hxb (hbr y hy) (hfresh y hy)]
            rfl
        · have hf : fetched_one g x = false := by
            simp [fetched_one, hv1]
          rw [if_neg hv1, List.filter_cons_of_neg (by simp [hf])]
          exact ih _ hsr hbr hnd.2 hlt hdr
    · have h1 : (g x.fs_ea_attribute).1 = h.ENOATTR := by
        by_contra hc
        exact hx ⟨h0, hc⟩
      have hf : fetched_one g x = false := by
        simp [fetched_one, h0]
      rw [if_neg h0, if_pos h1, List.filter_cons_of_neg (by simp [hf])]
      exact ih _ hsr hbr hnd.2 hlt hdr

/-- A hard error anywhere in the loop leaves a non-zero `error`. -/
theorem fetch_rows_error_of_hard (h : PaxHeader) (g : List Byte → Int × Byte)
    (rows : List pax_feature_entry) (s : FetchState)
    (hex : ∃ x ∈ rows, hard_error h (g x.fs_ea_attribute).1) :
    (fetch_rows h g rows s).error ≠ 0 := by
  obtain ⟨pre, e, post, hsplit, hpre, he⟩ := exists_first_hard h g rows hex
  rw [hsplit, fetch_rows_hard h g pre e post s hpre he]
  exact he.1

theorem listed_rows_sublist (h : PaxHeader) (names : List (List Byte)) :
    (listed_rows h names).Sublist (pax_features h) :=
  List.filter_sublist _

theorem enabled_rows_sublist (h : PaxHeader) (names : List (List Byte))
    (g : List Byte → Int × Byte) : (enabled_rows h names g).Sublist (pax_features h) :=
  (List.filter_sublist _).trans (listed_rows_sublist h names)

theorem mem_enabled_rows (h : PaxHeader) (names : List (List Byte))
    (g : List Byte → Int × Byte) (e : pax_feature_entry) :
    e ∈ enabled_rows h names g
      ↔ e ∈ pax_features h ∧ e.fs_ea_attribute ∈ names
        ∧ (g e.fs_ea_attribute).1 = 0 ∧ (g e.fs_ea_attribute).2 = char1 := by
  unfold enabled_rows listed_rows fetched_one
  simp only [List.mem_filter, decide_eq_true_eq]
  constructor
  · rintro ⟨⟨h1, h2⟩, h3, h4⟩
    exact ⟨h1, h2, h3, h4⟩
  · rintro ⟨h1, h2, h3, h4⟩
    exact ⟨⟨h1, h2⟩, h3, h4⟩

/-- The mask of a call that returned 0 from the value fetch loop over the
listed rows. -/
theorem parse_out_reference (h : PaxHeader) (hbits : distinct_flag_bits h)
    (names : List (List Byte)) (g : List Byte → Int × Byte)
    (herr : (parse_out (fetch_rows h g (listed_rows h names) ⟨0, 0, []⟩)).error = 0) :
    (parse_out (fetch_rows h g (listed_rows h names) ⟨0, 0, []⟩)).req_extattr_flags
      = or_bits (enabled_rows h names g) := by
  have herr2 : (fetch_rows h g (listed_rows h names) ⟨0, 0, []⟩).error = 0 := herr
  have hsub := listed_rows_sublist h names
  have hsoft : ∀ x ∈ listed_rows h names, ¬ hard_error h (g x.fs_ea_attribute).1 := by
    intro x hx hc
    exact fetch_rows_error_of_hard h g _ ⟨0, 0, []⟩ ⟨x, hx, hc⟩ herr2
  have hflags := fetch_rows_or h g (listed_rows h names) ⟨0, 0, []⟩ hsoft
    (fun x hx => hbits.1 x (hsub.subset hx))
    (List.Nodup.sublist (hsub.map _) hbits.2)
    (Nat.two_pow_pos 32) (fun x _ => Nat.zero_and _)
  simp only [parse_out, herr2, ne_eq, not_true_eq_false, if_false]
  rw [hflags, Nat.zero_or]
  rfl

/-- C20. Reference definition of a successful parse.  With the subsystem
active, the call on a well-formed list of at most `INT_MAX` bytes returns.
Whenever the call on a well-formed list returns 0, the stored mask is the
bitwise OR of the feature bits of exactly those table rows whose name occurs
as a list entry and whose fetch succeeded with the value '1'; each of these
bits is set, and the bit of every other table row (absent from the list,
fetched as '0' or as another byte, not found) is clear.  A well-formed list
longer than `INT_MAX` bytes that passes the `IOSIZE_MAX` test makes the `int`
cursor overflow, and the call does not return.  The feature bits are pairwise
distinct single bits and `ENOMEM` is not 0. -/
theorem parse_reference (h : PaxHeader) (hbits : distinct_flag_bits h)
    (hnomem : h.ENOMEM ≠ 0) (status : Int) (ha : pax_hbsdcontrol_active status = true)
    (names : List (List Byte)) (hwf : ∀ n ∈ names, n.length < 256)
    (g : List Byte → Int × Byte) :
    ((encode_names names).length ≤ INT_MAX →
      ∃ r, pax_hbsdcontrol_parse_fsea_flags h status (vnode_of names g)
            = ParseOutcome.returned r)
    ∧ (∀ r, pax_hbsdcontrol_parse_fsea_flags h status (vnode_of names g)
            = ParseOutcome.returned r →
          r.error = 0 →
          r.req_extattr_flags = or_bits (enabled_rows h names g)
          ∧ (∀ e ∈ pax_features h,
              e.fs_ea_attribute ∈ names ∧ (g e.fs_ea_attribute).1 = 0
                ∧ (g e.fs_ea_attribute).2 = char1 →
              r.req_extattr_flags &&& e.feature_bit = e.feature_bit)
          ∧ (∀ e ∈ pax_features h,
              ¬ (e.fs_ea_attribute ∈ names ∧ (g e.fs_ea_attribute).1 = 0
                  ∧ (g e.fs_ea_attribute).2 = char1) →
              r.req_extattr_flags &&& e.feature_bit = 0))
    ∧ ((encode_names names).length ≤ h.IOSIZE_MAX →
        INT_MAX < (encode_names names).length →
        pax_hbsdcontrol_parse_fsea_flags h status (vnode_of names g)
          = ParseOutcome.cursorOverflow) := by
  refine ⟨fun hint => ?_, fun r hret herr => ?_,
    fun hmax hbig => parse_vnode_of_overflow h status ha names g hwf hmax hbig⟩
  · by_cases hmax : (encode_names names).length ≤ h.IOSIZE_MAX
    · exact ⟨_, parse_vnode_of h status ha names g hwf hmax hint⟩
    · have hbig : (vnode_of names g).fsea_list_size > h.IOSIZE_MAX := by
        show (encode_names names).length > h.IOSIZE_MAX
        omega
      exact ⟨_, parse_too_large h status _ ha rfl hbig⟩
  · by_cases hmax : (encode_names names).length ≤ h.IOSIZE_MAX
    · by_cases hint : (encode_names names).length ≤ INT_MAX
      · rw [parse_vnode_of h status ha names g hwf hmax hint] at hret
        simp only [ParseOutcome.returned.injEq] at hret
        subst hret
        have hmask := parse_out_reference h hbits names g herr
        refine ⟨hmask, fun e he hon => ?_, fun e he hoff => ?_⟩
        · rw [hmask]
          exact or_bits_and_mem _ e ((mem_enabled_rows h names g e).2 ⟨he, hon⟩)
        · rw [hmask]
          apply or_bits_and_other
          intro x hx
          have hxf := (enabled_rows_sublist h names g).subset hx
          apply flag_bit_and_flag_bit (hbits.1 x hxf) (hbits.1 e he)
          intro hc
          have hxe : x = e := List.inj_on_of_nodup_map hbits.2 hxf he hc
          subst hxe
          exact hoff ((mem_enabled_rows h names g x).1 hx).2
      · rw [parse_vnode_of_overflow h status ha names g hwf hmax (by omega)] at hret
        cases hret
    · have hbig : (vnode_of names g).fsea_list_size > h.IOSIZE_MAX := by
        show (encode_names names).length > h.IOSIZE_MAX
        omega
      rw [parse_too_large h status _ ha rfl hbig] at hret
      simp only [ParseOutcome.returned.injEq] at hret
      subst hret
      exact absurd herr hnomem

/-- C20, instance: "hbsd.pax.aslr" and "hbsd.pax.segvguard" are fetched as
'1', "hbsd.pax.noaslr" is not found, "hbsd.pax.mprotect" is fetched as '0' and
"hbsd.pax.pageexec" is not listed: the call returns 0 with the mask `0x50`. -/
theorem parse_reference_witness :
    ∃ r, pax_hbsdcontrol_parse_fsea_flags hbsdHeader 1
          (vnode_of [cstr "hbsd.pax.mprotect", cstr "hbsd.pax.segvguard",
              cstr "hbsd.pax.noaslr", cstr "hbsd.pax.aslr"]
            (answers [(cstr "hbsd.pax.noaslr", (87, 0)), (cstr "hbsd.pax.mprotect", (0, char0))]
              (0, char1)))
          = ParseOutcome.returned r
      ∧ r.error = 0
      ∧ r.req_extattr_flags = 0x50 :=
  have hall := parse_reference hbsdHeader (by decide) (by decide) 1 (by decide)
    [cstr "hbsd.pax.mprotect", cstr "hbsd.pax.segvguard", cstr "hbsd.pax.noaslr",
      cstr "hbsd.pax.aslr"]
    (by decide)
    (answers [(cstr "hbsd.pax.noaslr", (87, 0)), (cstr "hbsd.pax.mprotect", (0, char0))]
      (0, char1))
  have ⟨r, hret⟩ := hall.1 (by decide)
  have herr : r.error = 0 := by
    have hev : pax_hbsdcontrol_parse_fsea_flags hbsdHeader 1
        (vnode_of [cstr "hbsd.pax.mprotect", cstr "hbsd.pax.segvguard",
            cstr "hbsd.pax.noaslr", cstr "hbsd.pax.aslr"]
          (answers [(cstr "hbsd.pax.noaslr", (87, 0)), (cstr "hbsd.pax.mprotect", (0, char0))]
            (0, char1)))
        = ParseOutcome.returned ⟨0, 0x50, [cstr "hbsd.pax.aslr", cstr "hbsd.pax.noaslr",
            cstr "hbsd.pax.segvguard", cstr "hbsd.pax.mprotect"]⟩ := by decide
    rw [hev] at hret
    cases hret
    rfl
  ⟨r, hret, herr, (hall.2.1 r hret herr).1.trans (by decide)⟩

/-! ## Dependence on the request mask -/

/-- C21. `pax_hardening_setup_flags` reads the request mask through one bit
per mode.  Two masks that agree on the `DISALLOWMAP32BIT` bit give the same
result under OptIn, two masks that agree on the `NODISALLOWMAP32BIT` bit give
the same result under OptOut, and under every other status (Disabled,
ForceEnabled or an invalid one) all masks give the same result.  A mask with
both bits set resolves to restricted under OptIn and to unrestricted under
OptOut. -/
theorem setup_flags_reads_one_bit (h : PaxHeader)
    (hD : IsFlagBit h.PAX_NOTE_DISALLOWMAP32BIT)
    (hN : IsFlagBit h.PAX_NOTE_NODISALLOWMAP32BIT)
    (hDN : h.PAX_NOTE_DISALLOWMAP32BIT ≠ h.PAX_NOTE_NODISALLOWMAP32BIT)
    (status m1 m2 : Nat) :
    ((m1 &&& h.PAX_NOTE_DISALLOWMAP32BIT = h.PAX_NOTE_DISALLOWMAP32BIT
        ↔ m2 &&& h.PAX_NOTE_DISALLOWMAP32BIT = h.PAX_NOTE_DISALLOWMAP32BIT) →
      pax_hardening_setup_flags h PAX_FEATURE_OPTIN m1
        = pax_hardening_setup_flags h PAX_FEATURE_OPTIN m2)
    ∧ ((m1 &&& h.PAX_NOTE_NODISALLOWMAP32BIT = h.PAX_NOTE_NODISALLOWMAP32BIT
          ↔ m2 &&& h.PAX_NOTE_NODISALLOWMAP32BIT = h.PAX_NOTE_NODISALLOWMAP32BIT) →
        pax_hardening_setup_flags h PAX_FEATURE_OPTOUT m1
          = pax_hardening_setup_flags h PAX_FEATURE_OPTOUT m2)
    ∧ (status ≠ PAX_FEATURE_OPTIN → status ≠ PAX_FEATURE_OPTOUT →
        pax_hardening_setup_flags h status m1 = pax_hardening_setup_flags h status m2)
    ∧ (m1 &&& h.PAX_NOTE_DISALLOWMAP32BIT = h.PAX_NOTE_DISALLOWMAP32BIT →
        m1 &&& h.PAX_NOTE_NODISALLOWMAP32BIT = h.PAX_NOTE_NODISALLOWMAP32BIT →
        pax_hardening_setup_flags h PAX_FEATURE_OPTIN m1 = h.PAX_NOTE_DISALLOWMAP32BIT
        ∧ pax_hardening_setup_flags h PAX_FEATURE_OPTOUT m1
            = h.PAX_NOTE_NODISALLOWMAP32BIT) := by
  have hin : ∀ m, pax_hardening_setup_flags h PAX_FEATURE_OPTIN m
      = if m &&& h.PAX_NOTE_DISALLOWMAP32BIT = h.PAX_NOTE_DISALLOWMAP32BIT
        then h.PAX_NOTE_DISALLOWMAP32BIT else h.PAX_NOTE_NODISALLOWMAP32BIT := by
    intro m
    rw [setup_flags_resolved h hD hN hDN]
    simp [PAX_FEATURE_OPTIN, PAX_FEATURE_DISABLED, PAX_FEATURE_FORCE_ENABLED]
  have hout : ∀ m, pax_hardening_setup_flags h PAX_FEATURE_OPTOUT m
      = if m &&& h.PAX_NOTE_NODISALLOWMAP32BIT = h.PAX_NOTE_NODISALLOWMAP32BIT
        then h.PAX_NOTE_NODISALLOWMAP32BIT else h.PAX_NOTE_DISALLOWMAP32BIT := by
    intro m
    rw [setup_flags_resolved h hD hN hDN]
    simp [PAX_FEATURE_OPTIN, PAX_FEATURE_OPTOUT, PAX_FEATURE_DISABLED,
      PAX_FEATURE_FORCE_ENABLED]
  refine ⟨fun hag => ?_, fun hag => ?_, fun h1 h2 => ?_, fun hd hn => ?_⟩
  · rw [hin m1, hin m2]
    by_cases hc : m1 &&& h.PAX_NOTE_DISALLOWMAP32BIT = h.PAX_NOTE_DISALLOWMAP32BIT
    · rw [if_pos hc, if_pos (hag.1 hc)]
    · rw [if_neg hc, if_neg (fun hc2 => hc (hag.2 hc2))]
  · rw [hout m1, hout m2]
    by_cases hc : m1 &&& h.PAX_NOTE_NODISALLOWMAP32BIT = h.PAX_NOTE_NODISALLOWMAP32BIT
    · rw [if_pos hc, if_pos (hag.1 hc)]
    · rw [if_neg hc, if_neg (fun hc2 => hc (hag.2 hc2))]
  · rw [setup_flags_resolved h hD hN hDN, setup_flags_resolved h hD hN hDN]
    simp only [if_neg h1, if_neg h2]
  · rw [hin m1, hout m1, if_pos hd, if_pos hn]
    exact ⟨rfl, rfl⟩

/-- C21, instance: the masks `0xc00` (both bits) and `0x401` agree on the
`DISALLOWMAP32BIT` bit and give the same OptIn result; the mask `0xc00`
resolves to `0x400` under OptIn and to `0x800` under OptOut. -/
theorem setup_flags_reads_one_bit_witness :
    pax_hardening_setup_flags hbsdHeader PAX_FEATURE_OPTIN 0xc00
      = pax_hardening_setup_flags hbsdHeader PAX_FEATURE_OPTIN 0x401
    ∧ pax_hardening_setup_flags hbsdHeader PAX_FEATURE_OPTIN 0xc00 = 0x400
    ∧ pax_hardening_setup_flags hbsdHeader PAX_FEATURE_OPTOUT 0xc00 = 0x800 :=
  have t := setup_flags_reads_one_bit hbsdHeader (by decide) (by decide) (by decide)
    7 0xc00 0x401
  ⟨t.1 (by decide), (t.2.2.2 (by decide) (by decide)).1,
    (t.2.2.2 (by decide) (by decide)).2⟩

/-! ## The invariant of the policy store -/

theorem sysctl_req_eta (req : sysctl_req) (v : Int) (he : req.error = 0)
    (hv : req.newptr = some v) : req = ⟨0, some v⟩ := by
  cases req
  simp only at he hv
  rw [he, hv]

/-- A request either leaves the state as it is, or is an accepted write of a
case label. -/
theorem sysctl_map32bit_cases (h : PaxHeader) (k : Kernel) (pr : Nat) (req : sysctl_req) :
    (sysctl_pax_disallow_map32bit h k pr req).2 = k
    ∨ ∃ v, status_case v ∧ req = ⟨0, some v⟩ := by
  by_cases hc : req.error ≠ 0 ∨ req.newptr = none
  · left
    unfold sysctl_pax_disallow_map32bit
    dsimp only
    rw [if_pos hc]
  · have he : req.error = 0 := by
      by_contra hne
      exact hc (Or.inl hne)
    cases hn : req.newptr with
    | none => exact absurd (Or.inr hn) hc
    | some v =>
      have hreq := sysctl_req_eta req v he hn
      by_cases hv : status_case v
      · exact Or.inr ⟨v, hv, hreq⟩
      · left
        rw [hreq, sysctl_map32bit_reject h k pr v hv]

theorem sysctl_map32bit_keeps_legal (h : PaxHeader) (k : Kernel) (pr : Nat) (req : sysctl_req) :
    (status_case k.pax_disallow_map32bit_status_global →
      status_case
        (sysctl_pax_disallow_map32bit h k pr req).2.pax_disallow_map32bit_status_global)
    ∧ ∀ q, status_case (k.prisons q).pr_hardening.hr_pax_disallow_map32bit_status →
        status_case ((sysctl_pax_disallow_map32bit h k pr req).2.prisons
          q).pr_hardening.hr_pax_disallow_map32bit_status := by
  rcases sysctl_map32bit_cases h k pr req with hsame | ⟨v, hv, hreq⟩
  · rw [hsame]
    exact ⟨fun hg => hg, fun q hq => hq⟩
  · subst hreq
    rw [sysctl_map32bit_accept h k pr v hv]
    constructor
    · intro hg
      by_cases hp : pr = prison0
      · simpa [hp] using hv
      · simpa [hp] using hg
    · intro q hq
      by_cases hqp : q = pr
      · subst hqp
        simpa using hv
      · simpa [Function.update_noteq hqp] using hq

theorem sysctl_procfs_keeps_map32bit (h : PaxHeader) (k : Kernel) (pr : Nat)
    (req : sysctl_req) :
    (sysctl_pax_procfs h k pr req).2.pax_disallow_map32bit_status_global
      = k.pax_disallow_map32bit_status_global
    ∧ ∀ q, ((sysctl_pax_procfs h k pr req).2.prisons
          q).pr_hardening.hr_pax_disallow_map32bit_status
        = (k.prisons q).pr_hardening.hr_pax_disallow_map32bit_status := by
  unfold sysctl_pax_procfs
  dsimp only
  by_cases hc : req.error ≠ 0 ∨ req.newptr = none
  · rw [if_pos hc]
    exact ⟨rfl, fun _ => rfl⟩
  · rw [if_neg hc]
    by_cases hv : req.newptr.getD (k.prisons pr).pr_hardening.hr_pax_procfs_harden > 1
        ∨ req.newptr.getD (k.prisons pr).pr_hardening.hr_pax_procfs_harden < -1
    · rw [if_pos hv]
      exact ⟨rfl, fun _ => rfl⟩
    · rw [if_neg hv]
      constructor
      · by_cases hp : pr = prison0 <;> simp [hp]
      · intro q
        by_cases hqp : q = pr
        · subst hqp
          by_cases hp : q = prison0 <;> simp [hp]
        · by_cases hp : pr = prison0 <;> simp [hp, Function.update_noteq hqp]

theorem init_prison_root (k : Kernel) :
    pax_hardening_init_prison k prison0
      = some { k with prisons := (Function.update k.prisons prison0
          ⟨(k.prisons prison0).pr_parent,
            ⟨k.pax_disallow_map32bit_status_global, k.pax_procfs_harden_global⟩⟩) } := by
  unfold pax_hardening_init_prison
  rw [if_pos rfl]

/-- Startup always succeeds and establishes the invariant. -/
theorem boot_store_inv (k0 : Kernel) :
    ∃ s0, boot_store k0 = some s0 ∧ store_inv s0 ∧ s0.initialised = [prison0] := by
  unfold boot_store
  rw [init_prison_root]
  refine ⟨_, rfl, ⟨?_, ?_⟩, rfl⟩
  · exact sysinit_map32bit_legal k0
  · intro pr hpr
    have hp : pr = prison0 := by simpa using hpr
    subst hp
    simpa using sysinit_map32bit_legal k0

/-- Every operation preserves the invariant. -/
theorem policy_step_inv (h : PaxHeader) (s s1 : PolicyStore) (op : PolicyOp)
    (hinv : store_inv s) (hstep : policy_step h s op = some s1) : store_inv s1 := by
  obtain ⟨hg, hall⟩ := hinv
  cases op with
  | init_prison pr =>
    rw [policy_step] at hstep
    by_cases hadm : pr = prison0
        ∨ ∃ p ∈ s.initialised, (s.kernel.prisons pr).pr_parent = some p
    · rw [if_pos hadm] at hstep
      by_cases hp : pr = prison0
      · subst hp
        rw [init_prison_root] at hstep
        simp only [Option.map_some', Option.some.injEq] at hstep
        subst hstep
        refine ⟨hg, fun q hq => ?_⟩
        by_cases hq0 : q = prison0
        · subst hq0
          simpa using hg
        · have hq2 : q ∈ s.initialised := by
            rcases List.mem_cons.1 hq with hc | hc
            · exact absurd hc hq0
            · exact hc
          simpa [Function.update_noteq hq0] using hall q hq2
      · obtain ⟨p, hpin, hpar⟩ : ∃ p ∈ s.initialised,
            (s.kernel.prisons pr).pr_parent = some p := by
          rcases hadm with hc | hc
          · exact absurd hc hp
          · exact hc
        rw [init_prison_child s.kernel pr p hp hpar] at hstep
        simp only [Option.map_some', Option.some.injEq] at hstep
        subst hstep
        refine ⟨hg, fun q hq => ?_⟩
        by_cases hqp : q = pr
        · subst hqp
          simpa using hall p hpin
        · have hq2 : q ∈ s.initialised := by
            rcases List.mem_cons.1 hq with hc | hc
            · exact absurd hc hqp
            · exact hc
          simpa [Function.update_noteq hqp] using hall q hq2
    · rw [if_neg hadm] at hstep
      cases hstep
  | set_map32bit pr req =>
    rw [policy_step] at hstep
    by_cases hin : pr ∈ s.initialised
    · rw [if_pos hin] at hstep
      simp only [Option.some.injEq] at hstep
      subst hstep
      have hk := sysctl_map32bit_keeps_legal h s.kernel pr req
      exact ⟨hk.1 hg, fun q hq => hk.2 q (hall q hq)⟩
    · rw [if_neg hin] at hstep
      cases hstep
  | set_procfs pr req =>
    rw [policy_step] at hstep
    by_cases hin : pr ∈ s.initialised
    · rw [if_pos hin] at hstep
      simp only [Option.some.injEq] at hstep
      subst hstep
      have hk := sysctl_procfs_keeps_map32bit h s.kernel pr req
      refine ⟨?_, fun q hq => ?_⟩
      · show status_case
          (sysctl_pax_procfs h s.kernel pr req).2.pax_disallow_map32bit_status_global
        rw [hk.1]
        exact hg
      · show status_case ((sysctl_pax_procfs h s.kernel pr req).2.prisons
          q).pr_hardening.hr_pax_disallow_map32bit_status
        rw [hk.2 q]
        exact hall q hq
    · rw [if_neg hin] at hstep
      cases hstep

theorem policy_run_inv (h : PaxHeader) :
    ∀ (ops : List PolicyOp) (s s1 : PolicyStore), store_inv s →
      policy_run h ops s = some s1 → store_inv s1 := by
  intro ops
  induction ops with
  | nil =>
    intro s s1 hinv hrun
    simp only [policy_run, Option.some.injEq] at hrun
    subst hrun
    exact hinv
  | cons op rest ih =>
    intro s s1 hinv hrun
    unfold policy_run at hrun
    cases hstep : policy_step h s op with
    | none => rw [hstep] at hrun; cases hrun
    | some s2 =>
      rw [hstep] at hrun
      exact ih s2 s1 (policy_step_inv h s s2 op hinv hstep) hrun

/-- A stored case label is read by `pax_hardening_setup_flags` as one of its
four statuses. -/
theorem stored_status_of_case (v : Int) (hv : status_case v) :
    (v % 2 ^ 32).toNat = PAX_FEATURE_DISABLED ∨ (v % 2 ^ 32).toNat = PAX_FEATURE_OPTIN
    ∨ (v % 2 ^ 32).toNat = PAX_FEATURE_OPTOUT
    ∨ (v % 2 ^ 32).toNat = PAX_FEATURE_FORCE_ENABLED := by
  rcases hv with rfl | rfl | rfl | rfl
  · exact Or.inl (by decide)
  · exact Or.inr (Or.inl (by decide))
  · exact Or.inr (Or.inr (Or.inl (by decide)))
  · exact Or.inr (Or.inr (Or.inr (by decide)))

/-- C22. State invariant of the container policy store.  From arbitrary
configured defaults, startup (`pax_hardening_sysinit`, then the initialisation
of `prison0`) succeeds.  In every state reached from it by a sequence of
prison initialisations and set requests (of either feature, accepted or
rejected, in any initialised prison), the process-wide mmap-32-bit default is
in `{0, 1, 2, 3}` and so is the stored status of every initialised prison;
`pax_hardening_setup_flags` therefore reads one of its four statuses and never
takes its final branch for stored policy.  In such a state every set request
of an initialised prison, and the initialisation of every prison whose parent
is initialised, can be carried out. -/
theorem policy_store_invariant (h : PaxHeader) (k0 : Kernel) (ops : List PolicyOp) :
    ∃ s0, boot_store k0 = some s0
      ∧ ∀ s, policy_run h ops s0 = some s →
          status_case s.kernel.pax_disallow_map32bit_status_global
          ∧ (∀ pr ∈ s.initialised,
              status_case (s.kernel.prisons pr).pr_hardening.hr_pax_disallow_map32bit_status
              ∧ (stored_status s.kernel pr = PAX_FEATURE_DISABLED
                ∨ stored_status s.kernel pr = PAX_FEATURE_OPTIN
                ∨ stored_status s.kernel pr = PAX_FEATURE_OPTOUT
                ∨ stored_status s.kernel pr = PAX_FEATURE_FORCE_ENABLED))
          ∧ (∀ pr ∈ s.initialised, ∀ req,
              ∃ s1, policy_step h s (PolicyOp.set_map32bit pr req) = some s1)
          ∧ (∀ pr p, p ∈ s.initialised → (s.kernel.prisons pr).pr_parent = some p →
              ∃ s1, policy_step h s (PolicyOp.init_prison pr) = some s1) := by
  obtain ⟨s0, hboot, hinv0, _⟩ := boot_store_inv k0
  refine ⟨s0, hboot, fun s hrun => ?_⟩
  obtain ⟨hg, hall⟩ := policy_run_inv h ops s0 s hinv0 hrun
  refine ⟨hg, fun pr hpr => ⟨hall pr hpr, stored_status_of_case _ (hall pr hpr)⟩,
    fun pr hpr req => ?_, fun pr p hp hpar => ?_⟩
  · rw [policy_step, if_pos hpr]
    exact ⟨_, rfl⟩
  · rw [policy_step, if_pos (Or.inr ⟨p, hp, hpar⟩)]
    by_cases hroot : pr = prison0
    · subst hroot
      rw [init_prison_root]
      exact ⟨_, rfl⟩
    · rw [init_prison_child s.kernel pr p hroot hpar]
      exact ⟨_, rfl⟩

/-- C22, instance.  The configured mmap-32-bit default is 9.  After startup,
prison 1 is initialised, a set of 7 in prison 1 is refused, `prison0` is set to
1, prison 2 is initialised and its procfs hardening is set.  The default and
`prison0` end at 1, prisons 1 and 2 at 3. -/
theorem policy_store_invariant_witness :
    (((boot_store { sample_kernel with pax_disallow_map32bit_status_global := 9 }).bind
        (policy_run hbsdHeader
          [PolicyOp.init_prison 1, PolicyOp.set_map32bit 1 ⟨0, some 7⟩,
            PolicyOp.set_map32bit 0 ⟨0, some 1⟩, PolicyOp.init_prison 2,
            PolicyOp.set_procfs 2 ⟨0, some 0⟩])).map
        fun s => (s.initialised, s.kernel.pax_disallow_map32bit_status_global,
          stored_status s.kernel 0, stored_status s.kernel 1, stored_status s.kernel 2))
      = some ([2, 1, 0], 1, 1, 3, 3)
    ∧ ∃ s0 s,
        boot_store { sample_kernel with pax_disallow_map32bit_status_global := 9 } = some s0
        ∧ policy_run hbsdHeader
            [PolicyOp.init_prison 1, PolicyOp.set_map32bit 1 ⟨0, some 7⟩,
              PolicyOp.set_map32bit 0 ⟨0, some 1⟩, PolicyOp.init_prison 2,
              PolicyOp.set_procfs 2 ⟨0, some 0⟩] s0 = some s
        ∧ status_case s.kernel.pax_disallow_map32bit_status_global
        ∧ ∀ pr ∈ s.initialised,
            status_case (s.kernel.prisons pr).pr_hardening.hr_pax_disallow_map32bit_status := by
  have ⟨s0, hs0, hinv⟩ := policy_store_invariant hbsdHeader
    { sample_kernel with pax_disallow_map32bit_status_global := 9 }
    [PolicyOp.init_prison 1, PolicyOp.set_map32bit 1 ⟨0, some 7⟩,
      PolicyOp.set_map32bit 0 ⟨0, some 1⟩, PolicyOp.init_prison 2,
      PolicyOp.set_procfs 2 ⟨0, some 0⟩]
  have hev : (((boot_store { sample_kernel with pax_disallow_map32bit_status_global := 9 }).bind
        (policy_run hbsdHeader
          [PolicyOp.init_prison 1, PolicyOp.set_map32bit 1 ⟨0, some 7⟩,
            PolicyOp.set_map32bit 0 ⟨0, some 1⟩, PolicyOp.init_prison 2,
            PolicyOp.set_procfs 2 ⟨0, some 0⟩])).map
        fun s => (s.initialised, s.kernel.pax_disallow_map32bit_status_global,
          stored_status s.kernel 0, stored_status s.kernel 1, stored_status s.kernel 2))
      = some ([2, 1, 0], 1, 1, 3, 3) := by decide
  refine ⟨hev, s0, ?_⟩
  rw [hs0, Option.some_bind] at hev
  cases hrun : policy_run hbsdHeader
      [PolicyOp.init_prison 1, PolicyOp.set_map32bit 1 ⟨0, some 7⟩,
        PolicyOp.set_map32bit 0 ⟨0, some 1⟩, PolicyOp.init_prison 2,
        PolicyOp.set_procfs 2 ⟨0, some 0⟩] s0 with
  | none => rw [hrun] at hev; cases hev
  | some s =>
    have hs := hinv s hrun
    exact ⟨s, hs0, rfl, hs.1, fun pr hpr => (hs.2.1 pr hpr).1⟩

end HardenedBSD
